import Mathlib

/-!
Verification of the bfirs Brainfuck compiler/optimizer/interpreter core.

This file shallowly embeds the instruction representation, the parser, the
jump resolver (`insert_bf_jump_points`), the peephole optimizer
(`fold_with`/`fold_like`/`recognize_zeroings`/`optimize`) and the interpreter
(`run` and its helpers) from the Rust sources, and proves or refutes the
stated properties about them.

Cells of width W are modelled as naturals below the modulus `M = 2^W`
(so `M` is 256, 65536 or 4294967296); pointer amounts are naturals bounded by
`u32Max`.  Fallible operations return `Except`.
-/

namespace BF

instance {ε α : Type} [DecidableEq ε] [DecidableEq α] : DecidableEq (Except ε α)
  | .error a, .error b => decidable_of_iff (a = b) (by simp)
  | .error _, .ok _ => isFalse (by simp)
  | .ok _, .error _ => isFalse (by simp)
  | .ok a, .ok b => decidable_of_iff (a = b) (by simp)

/-- Compile-time errors of `compile::Error`. -/
inductive CErr where
  | UnmatchedStart
  | UnmatchedEnd
  deriving DecidableEq

/-- Runtime errors of `interpret::Error` (the two IO errors are not
representable in the pure embedding: the modelled input source and output sink
never fail, as with `io::empty()` and `Vec` in the crate's own tests). -/
inductive RErr where
  | Overflow
  | Underflow
  | InitOverflow
  | NotEnoughInstructions
  deriving DecidableEq

/-- The `Instruction<C>` tagged union.  Cell amounts (`Inc`/`Dec`) and the
`Set` payload live below the modulus `M`; pointer amounts are nonzero `u32`
values; loop targets are indices.  The nonzero/range invariants enforced by
the Rust types are carried by `WFInstr`. -/
inductive Instruction where
  | Set (v : Nat)
  | Write
  | Read
  | LoopStart (t : Nat)
  | LoopEnd (t : Nat)
  | Inc (a : Nat)
  | Dec (a : Nat)
  | IncPtr (a : Nat)
  | DecPtr (a : Nat)
  deriving DecidableEq

/-- Largest `u32` value; `checked_add` on pointer amounts fails above it. -/
def u32Max : Nat := 4294967295

/-- Well-formedness corresponding to the Rust types: `T::NonZero` cell
amounts are in `1..M-1` (`Set` payloads are any `T`, hence `< M`), pointer
amounts are `NonZeroU32`. -/
def WFInstr (M : Nat) : Instruction → Prop
  | .Set v => v < M
  | .Inc a => 0 < a ∧ a < M
  | .Dec a => 0 < a ∧ a < M
  | .IncPtr a => 0 < a ∧ a ≤ u32Max
  | .DecPtr a => 0 < a ∧ a ≤ u32Max
  | _ => True

instance (M : Nat) (i : Instruction) : Decidable (WFInstr M i) := by
  cases i <;> simp [WFInstr] <;> infer_instance

/-- Wrapping addition in a cell of modulus `M` (`wrapping_add`). -/
def wrapAdd (M a b : Nat) : Nat := (a + b) % M

/-- Wrapping subtraction in a cell of modulus `M` (`wrapping_sub`). -/
def wrapSub (M a b : Nat) : Nat := (a + (M - b % M)) % M

/-- The `FoldResult` enum of `compile/optimize.rs`. -/
inductive FoldResult where
  | CantFold
  | NoOp
  | Folded (i : Instruction)
  deriving DecidableEq

/-- `FoldResult::try_from_or_noop`: building a nonzero amount from `n`
succeeds iff `n ≠ 0`; a zero amount means the pair cancelled (`NoOp`). -/
def tryNZ (n : Nat) (f : Nat → Instruction) : FoldResult :=
  if n = 0 then .NoOp else .Folded (f n)

/-- `Instruction::fold_with` from `compile/optimize.rs` (the `FoldResult`
version used by `fold_like`). -/
def fold_with (M : Nat) : Instruction → Instruction → FoldResult
  | .Inc a, .Inc b => tryNZ (wrapAdd M a b) .Inc
  | .Dec a, .Dec b => tryNZ (wrapAdd M a b) .Dec
  | .Dec s, .Inc a => if s > a then tryNZ (s - a) .Dec else tryNZ (a - s) .Inc
  | .Inc a, .Dec s => if s > a then tryNZ (s - a) .Dec else tryNZ (a - s) .Inc
  | .IncPtr a, .IncPtr b =>
      if a + b ≤ u32Max then .Folded (.IncPtr (a + b)) else .CantFold
  | .DecPtr a, .DecPtr b =>
      if a + b ≤ u32Max then .Folded (.DecPtr (a + b)) else .CantFold
  | .DecPtr s, .IncPtr a =>
      if s > a then tryNZ (s - a) .DecPtr else tryNZ (a - s) .IncPtr
  | .IncPtr a, .DecPtr s =>
      if s > a then tryNZ (s - a) .DecPtr else tryNZ (a - s) .IncPtr
  | .Inc _, .Set v => .Folded (.Set v)
  | .Dec _, .Set v => .Folded (.Set v)
  | .Set _, .Set v => .Folded (.Set v)
  | .Set v, .Inc a => .Folded (.Set (wrapAdd M v a))
  | .Set v, .Dec s => .Folded (.Set (wrapSub M v s))
  | _, _ => .CantFold

/-- The inner folding loop of `fold_like`: `current` is the instruction being
accumulated, the list is the unread remainder.  `Folded` keeps extending the
run, `NoOp` drops both instructions and restarts after them, `CantFold` emits
`current` and restarts at the unfolded instruction.  (The one-element case is
the general case with the empty remainder inlined, so that the recursion
stays structural.) -/
def foldGo (M : Nat) : Instruction → List Instruction → List Instruction
  | current, [] => [current]
  | current, [next] =>
    match fold_with M current next with
    | .Folded f => [f]
    | .NoOp => []
    | .CantFold => [current, next]
  | current, next :: y :: r =>
    match fold_with M current next with
    | .Folded f => foldGo M f (y :: r)
    | .NoOp => foldGo M y r
    | .CantFold => current :: foldGo M next (y :: r)

/-- `InstructionStream::fold_like`: one read-cursor/write-cursor folding pass
over the whole stream. -/
def fold_like (M : Nat) : List Instruction → List Instruction
  | [] => []
  | x :: rest => foldGo M x rest

/-- `InstructionStream::recognize_zeroings`: replace each exact
`LoopStart, (Inc 1 | Dec 1), LoopEnd` triple with `Set 0`;
copy everything else through unchanged. -/
def recognize_zeroings : List Instruction → List Instruction
  | .LoopStart t :: .Dec a :: .LoopEnd u :: rest =>
    if a = 1 then .Set 0 :: recognize_zeroings rest
    else .LoopStart t :: recognize_zeroings (.Dec a :: .LoopEnd u :: rest)
  | .LoopStart t :: .Inc a :: .LoopEnd u :: rest =>
    if a = 1 then .Set 0 :: recognize_zeroings rest
    else .LoopStart t :: recognize_zeroings (.Inc a :: .LoopEnd u :: rest)
  | x :: rest => x :: recognize_zeroings rest
  | [] => []

/-- `InstructionStream::insert_bf_jump_points`, as the recursion over the
scan index: push `LoopStart` indices, pop on `LoopEnd` and overwrite the two
partners with each other's index, fail on an unmatched end or on leftover
starts.  `fuel` counts the remaining loop iterations (the `for` loop runs
exactly `arr.length` times and `set` preserves the length); callers pass
enough fuel, i.e. `arr.length ≤ idx + fuel`, under which the `fuel = 0`
branch coincides with the scan having reached the end. -/
def jumpAux (arr : List Instruction) (fuel idx : Nat) (stack : List Nat) :
    Except CErr (List Instruction) :=
  match fuel with
  | 0 => if stack.isEmpty then .ok arr else .error .UnmatchedStart
  | fuel + 1 =>
    if h : idx < arr.length then
      match arr[idx] with
      | .LoopStart _ => jumpAux arr fuel (idx + 1) (idx :: stack)
      | .LoopEnd _ =>
        match stack with
        | [] => .error .UnmatchedEnd
        | s :: rest =>
          jumpAux ((arr.set s (.LoopStart idx)).set idx (.LoopEnd s)) fuel (idx + 1) rest
      | _ => jumpAux arr fuel (idx + 1) stack
    else if stack.isEmpty then .ok arr else .error .UnmatchedStart

/-- Full jump resolution over a stream. -/
def insert_bf_jump_points (arr : List Instruction) : Except CErr (List Instruction) :=
  jumpAux arr arr.length 0 []

/-- `InstructionStream::MIN_ARRAY_SIZE`. -/
def MIN_ARRAY_SIZE : Nat := 30000

/-- Sum of the magnitudes of all `IncPtr` instructions in a stream. -/
def sumIncPtr (l : List Instruction) : Nat :=
  (l.map fun i => match i with | .IncPtr a => a | _ => 0).sum

/-- `InstructionStream::optimize`: fold, recognize zero loops, fold again,
re-resolve jumps, then recompute the recommended array size as the sum of the
surviving `IncPtr` magnitudes floored at `MIN_ARRAY_SIZE`.  Returns the new
instruction list with the new recommended size. -/
def optimize (M : Nat) (instrs : List Instruction) :
    Except CErr (List Instruction × Nat) :=
  match insert_bf_jump_points (fold_like M (recognize_zeroings (fold_like M instrs))) with
  | .error e => .error e
  | .ok r => .ok (r, max (sumIncPtr r) MIN_ARRAY_SIZE)

/-- `Instruction::try_from::<u8>`: map the 8 command bytes (`+ - > < . , [ ]`
by ASCII code), reject everything else as a comment. -/
def instruction_try_from (b : Nat) : Option Instruction :=
  if b = 43 then some (.Inc 1)
  else if b = 45 then some (.Dec 1)
  else if b = 62 then some (.IncPtr 1)
  else if b = 60 then some (.DecPtr 1)
  else if b = 46 then some .Write
  else if b = 44 then some .Read
  else if b = 91 then some (.LoopStart 0)
  else if b = 93 then some (.LoopEnd 0)
  else none

/-- `InstructionStream::instructions_from_text`. -/
def instructions_from_text (text : List Nat) : List Instruction :=
  text.filterMap instruction_try_from

/-- The `InstructionStream` struct: instruction list plus recommended array
size. -/
structure InstructionStream where
  instructions : List Instruction
  recommended_array_size : Nat
  deriving DecidableEq

/-- `InstructionStream::new`: resolve jump points, recommended size starts at
`MIN_ARRAY_SIZE`. -/
def streamNew (instrs : List Instruction) : Except CErr InstructionStream :=
  match insert_bf_jump_points instrs with
  | .error e => .error e
  | .ok r => .ok ⟨r, MIN_ARRAY_SIZE⟩

/-- `InstructionStream::from_code`. -/
def from_code (text : List Nat) : Except CErr InstructionStream :=
  streamNew (instructions_from_text text)

/-- `InstructionStream::optimized_from_code`: parse then optimize. -/
def optimized_from_code (M : Nat) (text : List Nat) :
    Except CErr (List Instruction × Nat) :=
  optimize M (instructions_from_text text)

/-- Interpreter state: tape, cursor, input bytes still unread, output bytes
written so far, and the optional remaining instruction budget
(`instructions_left`). -/
structure IState where
  data : List Nat
  ptr : Nat
  input : List Nat
  output : List Nat
  left : Option Nat
  deriving DecidableEq

/-- The current cell (`cur_unchecked`); reads happen only with the cursor in
bounds, where `getD` equals the unchecked access. -/
def curCell (s : IState) : Nat := s.data.getD s.ptr 0

/-- Overwrite the current cell (`map_current`). -/
def setCell (s : IState) (v : Nat) : IState :=
  { s with data := s.data.set s.ptr v }

/-- `Interpreter::inc_ptr_by`: add, then check; on overflow roll the addition
back (`ptr -= v`) and fail. -/
def inc_ptr_by (s : IState) (v : Nat) : Except (RErr × IState) IState :=
  if s.ptr + v ≥ s.data.length then .error (.Overflow, { s with ptr := s.ptr + v - v })
  else .ok { s with ptr := s.ptr + v }

/-- `Interpreter::dec_ptr_by`: `checked_sub`, failing with `Underflow` (and
leaving the cursor untouched) when the subtraction would go below zero. -/
def dec_ptr_by (s : IState) (v : Nat) : Except (RErr × IState) IState :=
  if v ≤ s.ptr then .ok { s with ptr := s.ptr - v }
  else .error (.Underflow, s)

/-- One non-jump instruction's effect on the state (the non-loop arms of the
`match` in `run`; `Write` truncates to a byte, `Read` yields 0 at
end-of-input). -/
def stepInstr (M : Nat) (i : Instruction) (s : IState) :
    Except (RErr × IState) IState :=
  match i with
  | .Set v => .ok (setCell s v)
  | .Inc a => .ok (setCell s (wrapAdd M (curCell s) a))
  | .Dec a => .ok (setCell s (wrapSub M (curCell s) a))
  | .IncPtr a => inc_ptr_by s a
  | .DecPtr a => dec_ptr_by s a
  | .Write => .ok { s with output := s.output ++ [curCell s % 256] }
  | .Read =>
    match s.input with
    | [] => .ok { setCell s 0 with input := [] }
    | b :: rest => .ok { setCell s b with input := rest }
  | .LoopStart _ => .ok s
  | .LoopEnd _ => .ok s

/-- One iteration of the `run` loop body at instruction pointer `ip` (without
the budget bookkeeping): executes `prog[ip]` and yields the next instruction
pointer.  After a taken branch the stored target is still incremented, as in
the source (`instruction_pointer += 1` runs unconditionally). -/
inductive StepOut where
  | next (ip : Nat) (s : IState)
  | fail (e : RErr) (s : IState)
  deriving DecidableEq

/-- Execute the instruction at `ip` (in-bounds whenever `run` calls this; the
`getD` default is irrelevant there). -/
def step (M : Nat) (prog : List Instruction) (ip : Nat) (s : IState) : StepOut :=
  match prog.getD ip .Write with
  | .LoopStart t => .next (if curCell s = 0 then t + 1 else ip + 1) s
  | .LoopEnd t => .next (if curCell s ≠ 0 then t + 1 else ip + 1) s
  | i =>
    match stepInstr M i s with
    | .ok s' => .next (ip + 1) s'
    | .error (e, s') => .fail e s'

/-- Results of running the interpreter to completion: success, a runtime
error, or exhaustion of the (embedding-level) recursion gas. -/
inductive RunOut where
  | ok (s : IState)
  | fail (e : RErr) (s : IState)
  | outOfGas (ip : Nat) (s : IState)
  deriving DecidableEq

/-- The `while instruction_pointer < len` loop of `run`: check the optional
budget before each instruction (`if let Some(0)` fails), execute, advance,
decrement the budget after the instruction.  `gas` bounds the recursion in
the embedding only; it is not part of the source semantics. -/
def runAux (M : Nat) (prog : List Instruction) : Nat → Nat → IState → RunOut
  | 0, ip, s => if ip < prog.length then .outOfGas ip s else .ok s
  | gas + 1, ip, s =>
    if ip < prog.length then
      if s.left = some 0 then .fail .NotEnoughInstructions s
      else
        match step M prog ip s with
        | .fail e s' => .fail e s'
        | .next ip' s' => runAux M prog gas ip' { s' with left := s'.left.map (· - 1) }
    else .ok s

/-- `Interpreter::run`: fail with `InitOverflow` if the cursor starts out of
bounds, otherwise run the interpreter loop from instruction 0. -/
def run (M : Nat) (prog : List Instruction) (gas : Nat) (s : IState) : RunOut :=
  if s.ptr ≥ s.data.length then .fail .InitOverflow s
  else runAux M prog gas 0 s

/-! ## Specification-side notions -/

/-- Default instruction used with `getD`; never reached where it matters. -/
def dfltI : Instruction := .Write

/-- Whether an instruction is a `LoopStart`. -/
def isLoopStart : Instruction → Bool
  | .LoopStart _ => true
  | _ => false

/-- Whether an instruction is a `LoopEnd`. -/
def isLoopEnd : Instruction → Bool
  | .LoopEnd _ => true
  | _ => false

/-- Whether an instruction is a loop bracket. -/
def isLoopInstr (i : Instruction) : Bool := isLoopStart i || isLoopEnd i

/-- Signed contribution of one instruction to the loop-nesting depth. -/
def loopD : Instruction → Int
  | .LoopStart _ => 1
  | .LoopEnd _ => -1
  | _ => 0

/-- Net loop-nesting depth of a whole list. -/
def loopDepth (l : List Instruction) : Int := (l.map loopD).sum

/-- Loop-nesting depth of the prefix of length `k`. -/
def depthAt (l : List Instruction) (k : Nat) : Int := loopDepth (l.take k)

/-- Declarative LIFO bracket matching: position `i` holds a `LoopStart`,
position `j` a `LoopEnd`, the depth immediately after `j` returns to the depth
at `i`, and strictly between them the depth always stays above it.  This is
the standard (unique) Dyck matching of `i` to its partner. -/
def lifo_match (l : List Instruction) (i j : Nat) : Prop :=
  i < j ∧ j < l.length ∧
  isLoopStart (l.getD i dfltI) = true ∧ isLoopEnd (l.getD j dfltI) = true ∧
  depthAt l (j + 1) = depthAt l i ∧
  ∀ k, i < k → k ≤ j → depthAt l i < depthAt l k

/-- A `LoopEnd` is scanned at a point where no `LoopStart` is open: some end
at `j` has at most as many starts as ends before it. -/
def hasUnmatchedEnd (l : List Instruction) : Prop :=
  ∃ j, j < l.length ∧ isLoopEnd (l.getD j dfltI) = true ∧ depthAt l j ≤ 0

instance (l : List Instruction) : Decidable (hasUnmatchedEnd l) :=
  decidable_of_iff (∃ j < l.length, isLoopEnd (l.getD j dfltI) = true ∧ depthAt l j ≤ 0)
    (by unfold hasUnmatchedEnd; exact exists_congr fun j => by tauto)

/-- Whether an instruction is a cell increment or decrement. -/
def isIncDec : Instruction → Bool
  | .Inc _ => true
  | .Dec _ => true
  | _ => false

/-- Whether an instruction is a pointer move. -/
def isPtrInstr : Instruction → Bool
  | .IncPtr _ => true
  | .DecPtr _ => true
  | _ => false

/-- Signed effect of an instruction on the current cell (for pure
increment/decrement runs). -/
def cellDelta : Instruction → Int
  | .Inc a => (a : Int)
  | .Dec a => -(a : Int)
  | _ => 0

/-- Net signed cell effect of a list. -/
def cellNet (l : List Instruction) : Int := (l.map cellDelta).sum

/-- Signed effect of an instruction on the cursor. -/
def ptrDelta : Instruction → Int
  | .IncPtr a => (a : Int)
  | .DecPtr a => -(a : Int)
  | _ => 0

/-- Net signed cursor displacement of a list. -/
def ptrNet (l : List Instruction) : Int := (l.map ptrDelta).sum

/-- Lists made purely of `Inc`/`Dec`. -/
def PureIncDec (l : List Instruction) : Prop := ∀ i ∈ l, isIncDec i = true

instance (l : List Instruction) : Decidable (PureIncDec l) := by
  unfold PureIncDec; infer_instance

/-- Lists made purely of `IncPtr`/`DecPtr`. -/
def PurePtr (l : List Instruction) : Prop := ∀ i ∈ l, isPtrInstr i = true

instance (l : List Instruction) : Decidable (PurePtr l) := by
  unfold PurePtr; infer_instance

/-- Programs without loop instructions. -/
def LoopFree (l : List Instruction) : Prop := ∀ i ∈ l, isLoopInstr i = false

instance (l : List Instruction) : Decidable (LoopFree l) := by
  unfold LoopFree; infer_instance

/-- Well-formed instruction lists for modulus `M`. -/
def WFProg (M : Nat) (l : List Instruction) : Prop := ∀ i ∈ l, WFInstr M i

/-- Well-formed interpreter states for modulus `M`: cursor in bounds, cells
below the modulus, input made of bytes. -/
def WFS (M : Nat) (s : IState) : Prop :=
  s.ptr < s.data.length ∧ (∀ c ∈ s.data, c < M) ∧ ∀ b ∈ s.input, b < 256

instance (M : Nat) (l : List Instruction) : Decidable (WFProg M l) := by
  unfold WFProg; infer_instance

instance (M : Nat) (s : IState) : Decidable (WFS M s) := by
  unfold WFS; infer_instance

/-- The output bytes accumulated in a run outcome. -/
def runOutput : RunOut → List Nat
  | .ok s => s.output
  | .fail _ s => s.output
  | .outOfGas _ s => s.output

/-- Halt/error verdict of a run outcome: `some none` is a successful halt,
`some (some e)` a halt with error `e`, `none` means the embedding gas ran
out before the run completed. -/
def runVerdict : RunOut → Option (Option RErr)
  | .ok _ => some none
  | .fail e _ => some (some e)
  | .outOfGas _ _ => none

/-- The state carried by a run outcome. -/
def finalS : RunOut → IState
  | .ok s => s
  | .fail _ s => s
  | .outOfGas _ s => s

/-- Modelled from the spec (claim C1, a refinement claim): the divergences the
claim permits between the unoptimized outcome `u` and the optimized outcome
`o`: (a) identical output byte sequences and identical halt/error outcome,
(b) the unoptimized run errors with `Overflow`/`Underflow` while the
optimized run halts successfully (the claim's extra condition that the
excursion be provably cancelled is dropped, which only enlarges the allowed
set), or (c) the unoptimized run exhausts the instruction budget (the
claim's extra condition on the optimized side is dropped likewise). -/
def specAllowedDivergence (u o : RunOut) : Prop :=
  (runOutput u = runOutput o ∧ runVerdict u = runVerdict o)
  ∨ ((runVerdict u = some (some .Overflow) ∨ runVerdict u = some (some .Underflow))
      ∧ runVerdict o = some none)
  ∨ runVerdict u = some (some .NotEnoughInstructions)

instance (u o : RunOut) : Decidable (specAllowedDivergence u o) := by
  unfold specAllowedDivergence; infer_instance

/-! ## Unfolding equations for the recursive definitions -/

/-- The exact shape the zero-loop rule matches:
`LoopStart, (Inc 1 | Dec 1), LoopEnd` at the head. -/
def zHit : List Instruction → Bool
  | .LoopStart _ :: .Dec a :: .LoopEnd _ :: _ => decide (a = 1)
  | .LoopStart _ :: .Inc a :: .LoopEnd _ :: _ => decide (a = 1)
  | _ => false

/-! ## Claim C9: the cursor stays in bounds -/

/-- State carried by a step outcome. -/
def stepState : StepOut → IState
  | .next _ s => s
  | .fail _ s => s

/-! ## Jump resolution: depth and shape toolbox -/

/-- The loop kind of an instruction: `some true` for a `LoopStart`,
`some false` for a `LoopEnd`, `none` otherwise. -/
def loopKind : Instruction → Option Bool
  | .LoopStart _ => some true
  | .LoopEnd _ => some false
  | _ => none

/-- Two instruction lists with the same length and the same loop kinds at
every position. -/
def sameShape (l₁ l₂ : List Instruction) : Prop :=
  l₁.length = l₂.length ∧
  ∀ k, loopKind (l₁.getD k dfltI) = loopKind (l₂.getD k dfltI)

/-- The stack invariant of the jump-resolution scan: the stack (top first)
holds positions of open `LoopStart`s in strictly decreasing order; the
element above `m` remaining opens sits at depth `m`, and the depth stays
strictly above it on the whole stretch from just past it up to the scan
point. -/
def StackInv (l : List Instruction) : Nat → List Nat → Prop
  | _, [] => True
  | idx, s :: rest =>
    s < idx ∧ isLoopStart (l.getD s dfltI) = true ∧
    depthAt l s = (rest.length : Int) ∧
    (∀ k, s < k → k ≤ idx → (rest.length : Int) + 1 ≤ depthAt l k) ∧
    StackInv l s rest

/-- The history invariant: everything strictly before the scan point that is
not still open has already received its final, correct targets. -/
def HistInv (l arr : List Instruction) (idx : Nat) (stack : List Nat) : Prop :=
  (∀ i, i < idx → i ∉ stack → isLoopStart (l.getD i dfltI) = true →
    ∃ j, j < idx ∧ lifo_match l i j ∧ arr.getD i dfltI = .LoopStart j ∧
      arr.getD j dfltI = .LoopEnd i) ∧
  (∀ j, j < idx → isLoopEnd (l.getD j dfltI) = true →
    ∃ i, i ∉ stack ∧ lifo_match l i j ∧ arr.getD i dfltI = .LoopStart j ∧
      arr.getD j dfltI = .LoopEnd i)

/-- The full invariant carried through the jump-resolution scan. -/
def JInv (l arr : List Instruction) (idx : Nat) (stack : List Nat) : Prop :=
  sameShape arr l ∧
  depthAt l idx = (stack.length : Int) ∧
  StackInv l idx stack ∧
  HistInv l arr idx stack

/-! ## Claim C1 (amended): simulation machinery for loop-free programs -/

/-- Budget ordering: equal presence, with at least as much budget left on the
right. -/
def leftLE : Option Nat → Option Nat → Prop
  | none, none => True
  | some a, some b => a ≤ b
  | _, _ => False

/-- Two interpreter states that agree on everything observable (tape, cursor,
remaining input, produced output) and whose budgets compare by `leftLE`. -/
def Rel (su so : IState) : Prop :=
  so.data = su.data ∧ so.ptr = su.ptr ∧ so.input = su.input ∧
  so.output = su.output ∧ leftLE su.left so.left

/-- One instruction of the straight-line run: the budget pre-check, the
instruction effect, and the budget post-decrement — exactly the per-iteration
work of the `run` loop. -/
def exec1 (M : Nat) (i : Instruction) (s : IState) : Except (RErr × IState) IState :=
  if s.left = some 0 then .error (.NotEnoughInstructions, s)
  else
    match stepInstr M i s with
    | .error es => .error es
    | .ok s' => .ok { s' with left := s'.left.map (· - 1) }

/-- Straight-line (loop-free) execution, instruction by instruction. -/
def straightRun (M : Nat) : List Instruction → IState → RunOut
  | [], s => .ok s
  | i :: rest, s =>
    match exec1 M i s with
    | .error (e, s') => .fail e s'
    | .ok s' => straightRun M rest s'

/-- Observable-state equality: everything except the budget. -/
def obsEq (a b : IState) : Prop :=
  a.data = b.data ∧ a.ptr = b.ptr ∧ a.input = b.input ∧ a.output = b.output

/-! ## Loop-structure trees

To reason about programs with loops, the flat jump-target representation is
related to a tree of blocks: `act i` is a non-loop instruction, `block b` a
loop with body `b`.  `flatL off` prints a tree at offset `off` with the jump
targets the resolver assigns (a `LoopStart` stores its matching `LoopEnd`
index and vice versa); `flatE` prints with dummy targets, matching the
erasure `er` of the targets of a flat list. -/

inductive Node where
  | act (i : Instruction)
  | block (b : List Node)

/-- Flat length of a tree: a block costs its two brackets plus its body. -/
def lenL : List Node → Nat
  | [] => 0
  | .act _ :: rest => 1 + lenL rest
  | .block b :: rest => 2 + lenL b + lenL rest

/-- Print a tree as a flat program at offset `off`, with resolved targets. -/
def flatL : Nat → List Node → List Instruction
  | _, [] => []
  | off, .act i :: rest => i :: flatL (off + 1) rest
  | off, .block b :: rest =>
      .LoopStart (off + 1 + lenL b) ::
        (flatL (off + 1) b ++ .LoopEnd off :: flatL (off + 2 + lenL b) rest)

/-- Print a tree with dummy (zero) jump targets. -/
def flatE : List Node → List Instruction
  | [] => []
  | .act i :: rest => i :: flatE rest
  | .block b :: rest => .LoopStart 0 :: (flatE b ++ .LoopEnd 0 :: flatE rest)

/-- Erase one instruction's jump target. -/
def eri : Instruction → Instruction
  | .LoopStart _ => .LoopStart 0
  | .LoopEnd _ => .LoopEnd 0
  | i => i

/-- Erase all jump targets of a flat list. -/
def er (l : List Instruction) : List Instruction := l.map eri

/-- The tree `F` is printed (with resolved targets) at offset `off` inside
`prog`. -/
def SegAt (prog : List Instruction) (off : Nat) (F : List Node) : Prop :=
  off + lenL F ≤ prog.length ∧
  ∀ j, j < lenL F → prog.getD (off + j) dfltI = (flatL off F).getD j dfltI

/-- A loop with body `b` sits at offset `off` inside `prog`: the `LoopStart`
at `off` targets the `LoopEnd` just past the body and vice versa. -/
def BlockAt (prog : List Instruction) (off : Nat) (b : List Node) : Prop :=
  prog.getD off dfltI = .LoopStart (off + 1 + lenL b) ∧
  SegAt prog (off + 1) b ∧
  prog.getD (off + 1 + lenL b) dfltI = .LoopEnd off ∧
  off + 1 + lenL b < prog.length

/-- The budget bookkeeping of one `LoopStart`/`LoopEnd` execution: the
pre-instruction check and the post-instruction decrement (the jump itself
does not change the state). -/
def tickOk (s : IState) : Option IState :=
  if s.left = some 0 then none
  else some { s with left := s.left.map (· - 1) }

/-- Tree well-formedness: every `act` payload is a well-formed instruction. -/
def TWFL (M : Nat) : List Node → Prop
  | [] => True
  | .act i :: rest => WFInstr M i ∧ TWFL M rest
  | .block b :: rest => TWFL M b ∧ TWFL M rest

/-- Every `act` payload is a non-loop instruction (loops are represented only
by `block`). -/
def ActsOK : List Node → Prop
  | [] => True
  | .act i :: rest => isLoopInstr i = false ∧ ActsOK rest
  | .block b :: rest => ActsOK b ∧ ActsOK rest

mutual
/-- Big-step successful evaluation of a tree, counting executed
instructions: `EvalL M F s k t` means running `F` from `s` halts normally in
`t` after `k` instruction executions (each an `exec1`-style
budget-check/effect/decrement round, with loop brackets counted once per
execution like the interpreter does). -/
inductive EvalL : Nat → List Node → IState → Nat → IState → Prop where
  | nil {M : Nat} {s : IState} : EvalL M [] s 0 s
  | act {M : Nat} {i : Instruction} {rest : List Node} {s s₁ : IState} {k : Nat}
      {t : IState} : exec1 M i s = .ok s₁ → EvalL M rest s₁ k t →
      EvalL M (.act i :: rest) s (k + 1) t
  | blk_exit {M : Nat} {b rest : List Node} {s s₁ : IState} {k : Nat} {t : IState} :
      curCell s = 0 → tickOk s = some s₁ → EvalL M rest s₁ k t →
      EvalL M (.block b :: rest) s (k + 1) t
  | blk_enter {M : Nat} {b rest : List Node} {s s₁ s₂ : IState} {k₁ k₂ : Nat}
      {t : IState} : curCell s ≠ 0 → tickOk s = some s₁ → IterL M b s₁ k₁ s₂ →
      EvalL M rest s₂ k₂ t → EvalL M (.block b :: rest) s (1 + k₁ + k₂) t

/-- Iterations of a loop body, starting just inside the loop: run the body,
execute the `LoopEnd` tick, repeat while the cell is non-zero. -/
inductive IterL : Nat → List Node → IState → Nat → IState → Prop where
  | last {M : Nat} {b : List Node} {s s₁ s₂ : IState} {k : Nat} :
      EvalL M b s k s₁ → curCell s₁ = 0 → tickOk s₁ = some s₂ →
      IterL M b s (k + 1) s₂
  | again {M : Nat} {b : List Node} {s s₁ s₂ t : IState} {k₁ k₂ : Nat} :
      EvalL M b s k₁ s₁ → curCell s₁ ≠ 0 → tickOk s₁ = some s₂ →
      IterL M b s₂ k₂ t → IterL M b s (k₁ + 1 + k₂) t
end

/-- The tree analogue of one `fold_like` pass: `tgo oc F` folds `F` with
`oc` as the accumulated current instruction (`none` before anything has been
read), mirroring `foldGo` with loop brackets acting as `CantFold` barriers
and loop bodies folded in place. -/
def tgo (M : Nat) : Option Instruction → List Node → List Node
  | none, [] => []
  | some c, [] => [.act c]
  | none, .act c :: rest => tgo M (some c) rest
  | none, .block b :: rest => .block (tgo M none b) :: tgo M none rest
  | some c, .act n :: rest =>
      match fold_with M c n with
      | .Folded f => tgo M (some f) rest
      | .NoOp => tgo M none rest
      | .CantFold => .act c :: tgo M (some n) rest
  | some c, .block b :: rest => .act c :: .block (tgo M none b) :: tgo M none rest

/-- The tree analogue of `recognize_zeroings`: a loop whose body is exactly
one `Inc 1` or `Dec 1` becomes `Set 0`; all other loops are descended into. -/
def tzero : List Node → List Node
  | [] => []
  | .block [.act (.Dec a)] :: rest =>
      if a = 1 then .act (.Set 0) :: tzero rest
      else .block [.act (.Dec a)] :: tzero rest
  | .block [.act (.Inc a)] :: rest =>
      if a = 1 then .act (.Set 0) :: tzero rest
      else .block [.act (.Inc a)] :: tzero rest
  | .block b :: rest => .block (tzero b) :: tzero rest
  | .act i :: rest => .act i :: tzero rest

/-- `foldGo` with an optional current instruction: `none` restarts the scan
at the next instruction, like the write cursor at the start of `fold_like`. -/
def foldGoO (M : Nat) : Option Instruction → List Instruction → List Instruction
  | none, l => fold_like M l
  | some c, l => foldGo M c l

/-- Invariant tying the unoptimized scan state to the optimized one while an
instruction is pending in the folder: with no pending instruction the states
are observably equal; with pending `c`, executing `c` on the optimized side
lands in a state observably equal to the unoptimized one. -/
def Pend (M : Nat) : Option Instruction → IState → IState → Prop
  | none, su, so => Rel su so
  | some c, su, so =>
      WFInstr M c ∧ ∃ s', exec1 M c so = .ok s' ∧ Rel su s'

/-- Tick debt of a pending instruction: the optimized side will still spend
this many budget ticks to flush it. -/
def pend : Option Instruction → Nat
  | none => 0
  | some _ => 1

lemma foldGo_nil (M : Nat) (c : Instruction) : foldGo M c [] = [c] := rfl

lemma foldGo_one (M : Nat) (c next : Instruction) :
    foldGo M c [next] =
      match fold_with M c next with
      | .Folded f => [f]
      | .NoOp => []
      | .CantFold => [c, next] := rfl

lemma foldGo_cons (M : Nat) (c next y : Instruction) (r : List Instruction) :
    foldGo M c (next :: y :: r) =
      match fold_with M c next with
      | .Folded f => foldGo M f (y :: r)
      | .NoOp => foldGo M y r
      | .CantFold => c :: foldGo M next (y :: r) := rfl

/-- The two non-empty `foldGo` equations, merged back into the shape of the
source loop: they agree with recursing on `foldGo … rest` in every branch. -/
lemma foldGo_cons_any (M : Nat) (c next : Instruction) (rest : List Instruction) :
    foldGo M c (next :: rest) =
      match fold_with M c next with
      | .Folded f => foldGo M f rest
      | .NoOp => match rest with
                 | [] => []
                 | y :: r => foldGo M y r
      | .CantFold => c :: foldGo M next rest := by
  cases rest with
  | nil =>
    rw [foldGo_one]
    cases fold_with M c next <;> rfl
  | cons y r =>
    rw [foldGo_cons]

lemma rz_dec_eq (t a u : Nat) (rest : List Instruction) :
    recognize_zeroings (.LoopStart t :: .Dec a :: .LoopEnd u :: rest) =
      if a = 1 then .Set 0 :: recognize_zeroings rest
      else .LoopStart t :: recognize_zeroings (.Dec a :: .LoopEnd u :: rest) := rfl

lemma rz_inc_eq (t a u : Nat) (rest : List Instruction) :
    recognize_zeroings (.LoopStart t :: .Inc a :: .LoopEnd u :: rest) =
      if a = 1 then .Set 0 :: recognize_zeroings rest
      else .LoopStart t :: recognize_zeroings (.Inc a :: .LoopEnd u :: rest) := rfl

lemma rz_cons_false (x : Instruction) (l : List Instruction) (h : zHit (x :: l) = false) :
    recognize_zeroings (x :: l) = x :: recognize_zeroings l := by
  rcases l with _ | ⟨y, _ | ⟨z, l2⟩⟩
  · cases x <;> rfl
  · cases x <;> try rfl
    case LoopStart t => cases y <;> rfl
  · cases x <;> try rfl
    case LoopStart t =>
      cases y <;> try rfl
      case Dec a =>
        cases z <;> try rfl
        case LoopEnd u =>
          have ha : ¬ a = 1 := by simpa [zHit] using h
          rw [rz_dec_eq, if_neg ha]
      case Inc a =>
        cases z <;> try rfl
        case LoopEnd u =>
          have ha : ¬ a = 1 := by simpa [zHit] using h
          rw [rz_inc_eq, if_neg ha]

lemma jumpAux_zero (arr : List Instruction) (idx : Nat) (stack : List Nat) :
    jumpAux arr 0 idx stack =
      if stack.isEmpty then .ok arr else .error .UnmatchedStart := rfl

lemma jumpAux_succ (arr : List Instruction) (fuel idx : Nat) (stack : List Nat) :
    jumpAux arr (fuel + 1) idx stack =
      if h : idx < arr.length then
        match arr[idx] with
        | .LoopStart _ => jumpAux arr fuel (idx + 1) (idx :: stack)
        | .LoopEnd _ =>
          match stack with
          | [] => .error .UnmatchedEnd
          | s :: rest =>
            jumpAux ((arr.set s (.LoopStart idx)).set idx (.LoopEnd s)) fuel (idx + 1) rest
        | _ => jumpAux arr fuel (idx + 1) stack
      else if stack.isEmpty then .ok arr else .error .UnmatchedStart := rfl

/-- In the non-loop case the scan just advances. -/
lemma jumpAux_succ_other (arr : List Instruction) (fuel idx : Nat) (stack : List Nat)
    (h : idx < arr.length) (hs : ∀ t, arr[idx] ≠ Instruction.LoopStart t)
    (he : ∀ t, arr[idx] ≠ Instruction.LoopEnd t) :
    jumpAux arr (fuel + 1) idx stack = jumpAux arr fuel (idx + 1) stack := by
  rw [jumpAux_succ, dif_pos h]
  cases hi : arr[idx] <;> try rfl
  · exact absurd hi (hs _)
  · exact absurd hi (he _)

lemma jumpAux_succ_start (arr : List Instruction) (fuel idx : Nat) (stack : List Nat)
    (h : idx < arr.length) (t : Nat) (ht : arr[idx] = Instruction.LoopStart t) :
    jumpAux arr (fuel + 1) idx stack = jumpAux arr fuel (idx + 1) (idx :: stack) := by
  rw [jumpAux_succ, dif_pos h, ht]

lemma jumpAux_succ_end_nil (arr : List Instruction) (fuel idx : Nat)
    (h : idx < arr.length) (t : Nat) (ht : arr[idx] = Instruction.LoopEnd t) :
    jumpAux arr (fuel + 1) idx [] = .error .UnmatchedEnd := by
  rw [jumpAux_succ, dif_pos h]
  simp only [ht]

lemma jumpAux_succ_end_cons (arr : List Instruction) (fuel idx : Nat) (s : Nat)
    (rest : List Nat) (h : idx < arr.length) (t : Nat)
    (ht : arr[idx] = Instruction.LoopEnd t) :
    jumpAux arr (fuel + 1) idx (s :: rest) =
      jumpAux ((arr.set s (.LoopStart idx)).set idx (.LoopEnd s)) fuel (idx + 1) rest := by
  rw [jumpAux_succ, dif_pos h]
  simp only [ht]

/-! ## Length bounds for the optimizer passes -/

lemma foldGo_length (M : Nat) (c : Instruction) (l : List Instruction) :
    (foldGo M c l).length ≤ l.length + 1 := by
  induction c, l using foldGo.induct M with
  | case1 c => simp [foldGo_nil]
  | case2 c next f hf => rw [foldGo_one, hf]; simp
  | case3 c next hf => rw [foldGo_one, hf]; simp
  | case4 c next hf => rw [foldGo_one, hf]; simp
  | case5 c next y r f hf ih =>
    rw [foldGo_cons, hf]
    refine Nat.le_trans ih ?_
    simp
  | case6 c next y r hf ih =>
    rw [foldGo_cons, hf]
    refine Nat.le_trans ih ?_
    simp only [List.length_cons]
    omega
  | case7 c next y r hf ih =>
    rw [foldGo_cons, hf]
    simp only [List.length_cons] at ih ⊢
    omega

lemma fold_like_length (M : Nat) (l : List Instruction) :
    (fold_like M l).length ≤ l.length := by
  cases l with
  | nil => simp [fold_like]
  | cons x rest => simpa [fold_like] using foldGo_length M x rest

lemma recognize_zeroings_length (l : List Instruction) :
    (recognize_zeroings l).length ≤ l.length := by
  induction l using recognize_zeroings.induct with
  | case1 t u rest ih =>
    rw [rz_dec_eq, if_pos rfl]
    simp only [List.length_cons]
    omega
  | case2 t a u rest ha ih =>
    rw [rz_dec_eq, if_neg ha]
    simp only [List.length_cons] at ih ⊢
    omega
  | case3 t u rest ih =>
    rw [rz_inc_eq, if_pos rfl]
    simp only [List.length_cons]
    omega
  | case4 t a u rest ha ih =>
    rw [rz_inc_eq, if_neg ha]
    simp only [List.length_cons] at ih ⊢
    omega
  | case5 x rest h1 h2 ih =>
    have hz : zHit (x :: rest) = false := by
      cases x <;> try rfl
      case LoopStart t =>
        rcases rest with _ | ⟨y, _ | ⟨z, l2⟩⟩
        · rfl
        · cases y <;> rfl
        · cases y <;> try rfl
          case Dec a =>
            cases z <;> try rfl
            case LoopEnd u => exact absurd rfl (h1 t a u l2 rfl)
          case Inc a =>
            cases z <;> try rfl
            case LoopEnd u => exact absurd rfl (h2 t a u l2 rfl)
    rw [rz_cons_false x rest hz]
    simp only [List.length_cons]
    omega
  | case6 => simp [recognize_zeroings]

lemma jumpAux_ok_length (arr : List Instruction) (fuel idx : Nat) (stack : List Nat)
    (r : List Instruction) (h : jumpAux arr fuel idx stack = .ok r) :
    r.length = arr.length := by
  induction arr, fuel, idx, stack using jumpAux.induct with
  | case1 arr idx stack he =>
    rw [jumpAux_zero, if_pos he] at h
    cases h; rfl
  | case2 arr idx stack he =>
    rw [jumpAux_zero, if_neg he] at h
    cases h
  | case3 arr idx stack fuel hlt t ht ih =>
    rw [jumpAux_succ_start arr fuel idx stack hlt t ht] at h
    exact ih h
  | case4 arr idx fuel hlt t ht =>
    rw [jumpAux_succ_end_nil arr fuel idx hlt t ht] at h
    cases h
  | case5 arr idx fuel hlt t ht s rest ih =>
    rw [jumpAux_succ_end_cons arr fuel idx s rest hlt t ht] at h
    have := ih h
    simpa using this
  | case6 arr idx stack fuel hlt h1 h2 ih =>
    rw [jumpAux_succ_other arr fuel idx stack hlt
      (fun t hh => h1 t hh) (fun t hh => h2 t hh)] at h
    exact ih h
  | case7 arr idx stack fuel hlt he =>
    rw [jumpAux_succ, dif_neg hlt, if_pos he] at h
    cases h; rfl
  | case8 arr idx stack fuel hlt he =>
    rw [jumpAux_succ, dif_neg hlt, if_neg he] at h
    cases h

/-! ## Claim C3: pointer-move errors are rolled back -/

/-- Claim C3: whenever the interpreter's transition fails with `Overflow`
(an `IncPtr` whose resulting cursor would reach the array length) or
`Underflow` (a `DecPtr` below zero), those are the only two errors a
transition can raise, the cursor still holds its pre-move value, and no cell
of the data array is modified; likewise for the helpers `inc_ptr_by` and
`dec_ptr_by` themselves. -/
theorem claim3_pointer_rollback (M : Nat) (prog : List Instruction) (ip : Nat) (s : IState) :
    (∀ e s', step M prog ip s = .fail e s' →
      (e = .Overflow ∨ e = .Underflow) ∧ s'.ptr = s.ptr ∧ s'.data = s.data) ∧
    (∀ v s', inc_ptr_by s v = .error (.Overflow, s') → s'.ptr = s.ptr ∧ s'.data = s.data) ∧
    (∀ v s', dec_ptr_by s v = .error (.Underflow, s') → s'.ptr = s.ptr ∧ s'.data = s.data) := by
  have hinc : ∀ v e s', inc_ptr_by s v = .error (e, s') →
      e = .Overflow ∧ s'.ptr = s.ptr ∧ s'.data = s.data := by
    intro v e s' h
    unfold inc_ptr_by at h
    by_cases hc : s.ptr + v ≥ s.data.length
    · simp only [hc, ge_iff_le, if_pos] at h
      cases h
      refine ⟨rfl, ?_, rfl⟩
      simp
    · simp only [hc, if_neg] at h
      cases h
  have hdec : ∀ v e s', dec_ptr_by s v = .error (e, s') →
      e = .Underflow ∧ s'.ptr = s.ptr ∧ s'.data = s.data := by
    intro v e s' h
    unfold dec_ptr_by at h
    by_cases hc : v ≤ s.ptr
    · simp only [hc, if_pos] at h
      cases h
    · simp only [hc, if_neg] at h
      cases h
      exact ⟨rfl, rfl, rfl⟩
  refine ⟨?_, ?_, ?_⟩
  · intro e s' h
    unfold step at h
    cases hi : prog.getD ip .Write <;> rw [hi] at h <;>
      simp only [stepInstr] at h
    case Set v => cases h
    case Write => cases h
    case Read => rcases hin : s.input with _ | ⟨b, rest⟩ <;> rw [hin] at h <;> cases h
    case LoopStart t => split at h <;> cases h
    case LoopEnd t => split at h <;> cases h
    case Inc a => cases h
    case Dec a => cases h
    case IncPtr a =>
      cases hip : inc_ptr_by s a with
      | ok s₁ => rw [hip] at h; cases h
      | error es =>
        rw [hip] at h
        obtain ⟨e₁, s₁⟩ := es
        cases h
        obtain ⟨he, h₁, h₂⟩ := hinc a _ _ hip
        exact ⟨Or.inl he, h₁, h₂⟩
    case DecPtr a =>
      cases hip : dec_ptr_by s a with
      | ok s₁ => rw [hip] at h; cases h
      | error es =>
        rw [hip] at h
        obtain ⟨e₁, s₁⟩ := es
        cases h
        obtain ⟨he, h₁, h₂⟩ := hdec a _ _ hip
        exact ⟨Or.inr he, h₁, h₂⟩
  · intro v s' h
    exact (hinc v _ s' h).2
  · intro v s' h
    exact (hdec v _ s' h).2

/-- Witness for C3 at a concrete failing `DecPtr`. -/
theorem claim3_witness :
    dec_ptr_by ⟨[0], 0, [], [], none⟩ 1 = .error (.Underflow, ⟨[0], 0, [], [], none⟩) ∧
    (⟨[0], 0, [], [], none⟩ : IState).ptr = 0 :=
  ⟨by decide,
    ((claim3_pointer_rollback 256 [] 0 ⟨[0], 0, [], [], none⟩).2.2 1
      ⟨[0], 0, [], [], none⟩ (by decide)).1⟩

lemma step_preserves_bounds (M : Nat) (prog : List Instruction) (ip : Nat) (s : IState)
    (h : s.ptr < s.data.length) :
    (stepState (step M prog ip s)).ptr < (stepState (step M prog ip s)).data.length ∧
    (stepState (step M prog ip s)).data.length = s.data.length := by
  unfold step
  cases hi : prog.getD ip .Write <;> simp only [stepInstr]
  case Set v => simpa [stepState, setCell] using h
  case Write => simpa [stepState] using h
  case Read =>
    cases s.input <;> simp [stepState, setCell] <;> omega
  case LoopStart t => split <;> simpa [stepState] using h
  case LoopEnd t => split <;> simpa [stepState] using h
  case Inc a => simp [stepState, setCell]; omega
  case Dec a => simp [stepState, setCell]; omega
  case IncPtr a =>
    unfold inc_ptr_by
    by_cases hc : s.ptr + a ≥ s.data.length <;> simp [hc, stepState] <;> omega
  case DecPtr a =>
    unfold dec_ptr_by
    by_cases hc : a ≤ s.ptr <;> simp [hc, stepState] <;> omega

/-- Claim C9: once the cursor is within the data array, every interpreter
transition keeps it within the (constant-length) data array — both on normal
steps and on error steps — and hence, by induction, the invariant holds
before and after every instruction executed by the `run` loop, so every cell
access the interpreter performs at the cursor is in bounds. -/
theorem claim9_cursor_invariant (M : Nat) (prog : List Instruction) :
    (∀ ip s ip' s', s.ptr < s.data.length → step M prog ip s = .next ip' s' →
      s'.ptr < s'.data.length ∧ s'.data.length = s.data.length) ∧
    (∀ ip s e s', s.ptr < s.data.length → step M prog ip s = .fail e s' →
      s'.ptr < s'.data.length ∧ s'.data.length = s.data.length) ∧
    (∀ gas ip s, s.ptr < s.data.length →
      (finalS (runAux M prog gas ip s)).ptr < (finalS (runAux M prog gas ip s)).data.length) := by
  refine ⟨?_, ?_, ?_⟩
  · intro ip s ip' s' h hs
    have := step_preserves_bounds M prog ip s h
    rw [hs] at this
    exact this
  · intro ip s e s' h hs
    have := step_preserves_bounds M prog ip s h
    rw [hs] at this
    exact this
  · intro gas
    induction gas with
    | zero =>
      intro ip s h
      unfold runAux
      split <;> simpa [finalS]
    | succ g ih =>
      intro ip s h
      unfold runAux
      by_cases hip : ip < prog.length
      · simp only [hip, if_pos]
        by_cases hl : s.left = some 0
        · simpa [hl, finalS]
        · simp only [hl, if_neg]
          cases hs : step M prog ip s with
          | fail e s' =>
            have := step_preserves_bounds M prog ip s h
            rw [hs] at this
            simpa [finalS] using this.1
          | next ip' s' =>
            have := step_preserves_bounds M prog ip s h
            rw [hs] at this
            exact ih ip' _ this.1
      · simpa [hip, finalS]

/-- Witness for C9 at a concrete step and run. -/
theorem claim9_witness :
    (0 : Nat) < 1 ∧
    (finalS (runAux 256 [.Inc 1] 5 0 ⟨[0], 0, [], [], none⟩)).ptr <
      (finalS (runAux 256 [.Inc 1] 5 0 ⟨[0], 0, [], [], none⟩)).data.length :=
  ⟨by decide, (claim9_cursor_invariant 256 [.Inc 1]).2.2 5 0 ⟨[0], 0, [], [], none⟩ (by decide)⟩

/-! ## Claim C10: unoptimized streams always recommend 30,000 cells -/

/-- Claim C10: an `InstructionStream` built by `new` or `from_code` (i.e. not
yet optimized) reports a recommended array size of exactly 30,000 no matter
what the program contains; the `IncPtr`-sum recomputation happens only in
`optimize`. -/
theorem claim10_unoptimized_recommended_size :
    (∀ instrs st, streamNew instrs = .ok st → st.recommended_array_size = 30000) ∧
    (∀ text st, from_code text = .ok st → st.recommended_array_size = 30000) := by
  have base : ∀ instrs st, streamNew instrs = .ok st → st.recommended_array_size = 30000 := by
    intro instrs st h
    unfold streamNew at h
    cases hr : insert_bf_jump_points instrs with
    | error e => rw [hr] at h; cases h
    | ok r => rw [hr] at h; cases h; rfl
  exact ⟨base, fun text st h => base _ st h⟩

/-- Witness for C10 on a pointer-heavy unoptimized program. -/
theorem claim10_witness :
    (⟨[.IncPtr 50000], 30000⟩ : InstructionStream).recommended_array_size = 30000 :=
  claim10_unoptimized_recommended_size.1 [.IncPtr 50000] ⟨[.IncPtr 50000], 30000⟩ (by decide)

lemma sameShape_refl (l : List Instruction) : sameShape l l := ⟨rfl, fun _ => rfl⟩

lemma sameShape_symm {l₁ l₂ : List Instruction} (h : sameShape l₁ l₂) :
    sameShape l₂ l₁ := ⟨h.1.symm, fun k => (h.2 k).symm⟩

lemma sameShape_trans {l₁ l₂ l₃ : List Instruction} (h : sameShape l₁ l₂)
    (h' : sameShape l₂ l₃) : sameShape l₁ l₃ :=
  ⟨h.1.trans h'.1, fun k => (h.2 k).trans (h'.2 k)⟩

lemma loopD_of_kind {i j : Instruction} (h : loopKind i = loopKind j) :
    loopD i = loopD j := by
  cases i <;> cases j <;> simp [loopKind] at h <;> rfl

lemma isLoopStart_of_kind {i j : Instruction} (h : loopKind i = loopKind j) :
    isLoopStart i = isLoopStart j := by
  cases i <;> cases j <;> simp [loopKind] at h <;> rfl

lemma isLoopEnd_of_kind {i j : Instruction} (h : loopKind i = loopKind j) :
    isLoopEnd i = isLoopEnd j := by
  cases i <;> cases j <;> simp [loopKind] at h <;> rfl

lemma depthAt_zero (l : List Instruction) : depthAt l 0 = 0 := rfl

lemma depthAt_succ (l : List Instruction) (k : Nat) (h : k < l.length) :
    depthAt l (k + 1) = depthAt l k + loopD (l.getD k dfltI) := by
  unfold depthAt loopDepth
  rw [List.take_succ]
  have : l[k]? = some (l.getD k dfltI) := by
    rw [List.getD_eq_getElem?_getD]
    cases hk : l[k]? with
    | none => exact absurd (List.getElem?_eq_none_iff.mp hk) (by omega)
    | some v => simp
  rw [this]
  simp

lemma depthAt_of_le (l : List Instruction) (k : Nat) (h : l.length ≤ k) :
    depthAt l k = loopDepth l := by
  unfold depthAt
  rw [List.take_of_length_le h]

lemma depthAt_congr {l₁ l₂ : List Instruction} (h : sameShape l₁ l₂) (k : Nat) :
    depthAt l₁ k = depthAt l₂ k := by
  induction k with
  | zero => rfl
  | succ n ih =>
    by_cases hn : n < l₁.length
    · rw [depthAt_succ l₁ n hn, depthAt_succ l₂ n (h.1 ▸ hn), ih,
        loopD_of_kind (h.2 n)]
    · have h1 : l₁.length ≤ n := by omega
      have h2 : l₂.length ≤ n := h.1 ▸ h1
      rw [depthAt_of_le l₁ n h1, depthAt_of_le l₂ n h2] at ih
      rw [depthAt_of_le l₁ (n+1) (by omega), depthAt_of_le l₂ (n+1) (by omega)]
      exact ih

lemma lifo_match_congr {l₁ l₂ : List Instruction} (h : sameShape l₁ l₂)
    {i j : Nat} (hm : lifo_match l₁ i j) : lifo_match l₂ i j := by
  obtain ⟨h1, h2, h3, h4, h5, h6⟩ := hm
  refine ⟨h1, h.1 ▸ h2, ?_, ?_, ?_, ?_⟩
  · rw [← isLoopStart_of_kind (h.2 i)]; exact h3
  · rw [← isLoopEnd_of_kind (h.2 j)]; exact h4
  · rw [← depthAt_congr h (j+1), ← depthAt_congr h i]; exact h5
  · intro k hk1 hk2
    rw [← depthAt_congr h i, ← depthAt_congr h k]
    exact h6 k hk1 hk2

lemma hasUnmatchedEnd_congr {l₁ l₂ : List Instruction} (h : sameShape l₁ l₂) :
    hasUnmatchedEnd l₁ ↔ hasUnmatchedEnd l₂ := by
  unfold hasUnmatchedEnd
  refine exists_congr fun j => ?_
  rw [h.1, isLoopEnd_of_kind (h.2 j), depthAt_congr h j]

/-- A `LoopStart` matches at most one `LoopEnd`. -/
lemma lifo_match_unique_right {l : List Instruction} {i j j' : Nat}
    (h : lifo_match l i j) (h' : lifo_match l i j') : j = j' := by
  obtain ⟨h1, h2, h3, h4, h5, h6⟩ := h
  obtain ⟨g1, g2, g3, g4, g5, g6⟩ := h'
  by_contra hne
  rcases Nat.lt_or_ge j j' with hlt | hge
  · have := g6 (j + 1) (by omega) (by omega)
    omega
  · have hlt : j' < j := by omega
    have := h6 (j' + 1) (by omega) (by omega)
    omega

/-- A `LoopEnd` matches at most one `LoopStart`. -/
lemma lifo_match_unique_left {l : List Instruction} {i i' j : Nat}
    (h : lifo_match l i j) (h' : lifo_match l i' j) : i = i' := by
  obtain ⟨h1, h2, h3, h4, h5, h6⟩ := h
  obtain ⟨g1, g2, g3, g4, g5, g6⟩ := h'
  by_contra hne
  rcases Nat.lt_or_ge i i' with hlt | hge
  · have hw := h6 i' (by omega) (by omega)
    have hw2 := g6 j (by omega) (by omega)
    -- depth at i' exceeds depth at i, and inside (i', j] depth exceeds depth at i'
    omega
  · have hlt : i' < i := by omega
    have hw := g6 i (by omega) (by omega)
    have hw2 := h6 j (by omega) (by omega)
    omega

lemma kind_start_iff (i : Instruction) : loopKind i = some true ↔ isLoopStart i = true := by
  cases i <;> simp [loopKind, isLoopStart]

lemma kind_end_iff (i : Instruction) : loopKind i = some false ↔ isLoopEnd i = true := by
  cases i <;> simp [loopKind, isLoopEnd]

lemma not_end_of_start {i : Instruction} (h : isLoopStart i = true) :
    isLoopEnd i = false := by
  cases i <;> simp [isLoopStart] at h <;> rfl

lemma loopD_start {i : Instruction} (h : isLoopStart i = true) : loopD i = 1 := by
  cases i <;> simp [isLoopStart] at h <;> rfl

lemma loopD_end {i : Instruction} (h : isLoopEnd i = true) : loopD i = -1 := by
  cases i <;> simp [isLoopEnd] at h <;> rfl

lemma loopD_none {i : Instruction} (h : loopKind i = none) : loopD i = 0 := by
  cases i <;> simp [loopKind] at h <;> rfl

lemma getD_of_lt (l : List Instruction) (k : Nat) (h : k < l.length) :
    l.getD k dfltI = l[k] := List.getD_eq_getElem l dfltI h

lemma getD_set_ne (l : List Instruction) (q p : Nat) (v : Instruction) (h : q ≠ p) :
    (l.set q v).getD p dfltI = l.getD p dfltI := by
  simp [List.getD_eq_getElem?_getD, List.getElem?_set_ne h]

lemma getD_set_self (l : List Instruction) (q : Nat) (v : Instruction)
    (h : q < l.length) : (l.set q v).getD q dfltI = v := by
  simp [List.getD_eq_getElem?_getD, List.getElem?_set_self, h]

lemma sameShape_set (l : List Instruction) (p : Nat) (v : Instruction)
    (h : loopKind v = loopKind (l.getD p dfltI)) : sameShape (l.set p v) l := by
  refine ⟨by simp, fun k => ?_⟩
  by_cases hk : p = k
  · subst hk
    by_cases hp : p < l.length
    · rw [getD_set_self l p v hp, h]
    · rw [List.set_eq_of_length_le (by omega)]
  · rw [getD_set_ne l p k v hk]

lemma stackInv_retarget {l : List Instruction} {a b : Nat} {st : List Nat}
    (hinv : StackInv l a st) (hab : a ≤ b)
    (hwin : ∀ k, a < k → k ≤ b → (st.length : Int) ≤ depthAt l k) :
    StackInv l b st := by
  cases st with
  | nil => trivial
  | cons s rest =>
    obtain ⟨h1, h2, h3, h4, h5⟩ := hinv
    refine ⟨by omega, h2, h3, ?_, h5⟩
    intro k hk1 hk2
    by_cases hk3 : k ≤ a
    · exact h4 k hk1 hk3
    · have := hwin k (by omega) hk2
      simpa using this

lemma stackInv_mem_lt {l : List Instruction} :
    ∀ {idx : Nat} {st : List Nat}, StackInv l idx st → ∀ x ∈ st, x < idx := by
  intro idx st
  induction st generalizing idx with
  | nil => intro _ x hx; cases hx
  | cons s rest ih =>
    intro hinv x hx
    obtain ⟨h1, _, _, _, h5⟩ := hinv
    rcases List.mem_cons.mp hx with h | h
    · omega
    · have := ih h5 x h
      omega

lemma stackInv_top_notin {l : List Instruction} {idx : Nat} {s : Nat}
    {rest : List Nat} (hinv : StackInv l idx (s :: rest)) : s ∉ rest := by
  obtain ⟨_, _, _, _, h5⟩ := hinv
  intro hmem
  have := stackInv_mem_lt h5 s hmem
  omega

lemma shape_start_at {l arr : List Instruction} (hsh : sameShape arr l) {idx t : Nat}
    (h : idx < arr.length) (ht : arr[idx] = Instruction.LoopStart t) :
    isLoopStart (l.getD idx dfltI) = true := by
  have hk := hsh.2 idx
  rw [getD_of_lt arr idx h, ht] at hk
  exact (kind_start_iff _).mp hk.symm

lemma shape_end_at {l arr : List Instruction} (hsh : sameShape arr l) {idx t : Nat}
    (h : idx < arr.length) (ht : arr[idx] = Instruction.LoopEnd t) :
    isLoopEnd (l.getD idx dfltI) = true := by
  have hk := hsh.2 idx
  rw [getD_of_lt arr idx h, ht] at hk
  exact (kind_end_iff _).mp hk.symm

lemma shape_none_at {l arr : List Instruction} (hsh : sameShape arr l) {idx : Nat}
    (h : idx < arr.length)
    (hs : ∀ t, arr[idx] = Instruction.LoopStart t → False)
    (he : ∀ t, arr[idx] = Instruction.LoopEnd t → False) :
    loopKind (l.getD idx dfltI) = none := by
  have hk := hsh.2 idx
  rw [getD_of_lt arr idx h] at hk
  rw [← hk]
  cases hi : arr[idx] <;> try rfl
  · exact absurd hi (fun hh => hs _ hh)
  · exact absurd hi (fun hh => he _ hh)

/-- The main correctness invariant argument for `jumpAux`: starting from any
scan state satisfying the invariant, (1) a successful run returns an array of
the same shape whose loop targets are exactly the declarative LIFO matching,
with non-loop positions untouched, and certifies that the whole list is
balanced; (2) an `UnmatchedEnd` outcome certifies some end closes at
non-positive depth; (3) an `UnmatchedStart` outcome certifies nonzero net
depth; (4) if some end at or past the scan point closes at non-positive
depth, the run must fail with `UnmatchedEnd`. -/
lemma jumpAux_spec (l : List Instruction) :
    ∀ (arr : List Instruction) (fuel idx : Nat) (stack : List Nat),
      l.length ≤ idx + fuel → arr.length = l.length → JInv l arr idx stack →
      (∀ r, jumpAux arr fuel idx stack = .ok r →
        sameShape r l ∧ loopDepth l = 0 ∧
        (∀ p, loopKind (l.getD p dfltI) = none → r.getD p dfltI = arr.getD p dfltI) ∧
        (∀ i, i < l.length → isLoopStart (l.getD i dfltI) = true →
          ∃ j, lifo_match l i j ∧ r.getD i dfltI = .LoopStart j ∧
            r.getD j dfltI = .LoopEnd i) ∧
        (∀ j, j < l.length → isLoopEnd (l.getD j dfltI) = true →
          ∃ i, lifo_match l i j ∧ r.getD i dfltI = .LoopStart j ∧
            r.getD j dfltI = .LoopEnd i)) ∧
      (jumpAux arr fuel idx stack = .error .UnmatchedEnd → hasUnmatchedEnd l) ∧
      (jumpAux arr fuel idx stack = .error .UnmatchedStart → loopDepth l ≠ 0) ∧
      ((∃ j, idx ≤ j ∧ j < l.length ∧ isLoopEnd (l.getD j dfltI) = true ∧
          depthAt l j ≤ 0) →
        jumpAux arr fuel idx stack = .error .UnmatchedEnd) := by
  intro arr fuel idx stack
  induction arr, fuel, idx, stack using jumpAux.induct with
  | case1 arr idx stack he =>
    intro hfuel hlen hJ
    obtain ⟨hsh, hD, hS, hH⟩ := hJ
    have hstack : stack = [] := List.isEmpty_iff.mp he
    subst hstack
    have hidx : l.length ≤ idx := by omega
    have hdepth : loopDepth l = 0 := by
      have := depthAt_of_le l idx hidx
      rw [this] at hD
      simpa using hD
    refine ⟨?_, ?_, ?_, ?_⟩
    · intro r hr
      rw [jumpAux_zero, if_pos he] at hr
      cases hr
      refine ⟨hsh, hdepth, fun p _ => rfl, ?_, ?_⟩
      · intro i hi hsi
        obtain ⟨j, _, hm, h1, h2⟩ := hH.1 i (by omega) (by simp) hsi
        exact ⟨j, hm, h1, h2⟩
      · intro j hj hej
        obtain ⟨i, _, hm, h1, h2⟩ := hH.2 j (by omega) hej
        exact ⟨i, hm, h1, h2⟩
    · intro hr
      rw [jumpAux_zero, if_pos he] at hr
      cases hr
    · intro hr
      rw [jumpAux_zero, if_pos he] at hr
      cases hr
    · rintro ⟨j, hj1, hj2, -, -⟩
      omega
  | case2 arr idx stack he =>
    intro hfuel hlen hJ
    obtain ⟨hsh, hD, hS, hH⟩ := hJ
    have hne : stack ≠ [] := fun hh => he (by simp [hh])
    have hidx : l.length ≤ idx := by omega
    have hpos : (0 : Int) < stack.length := by
      cases stack with
      | nil => exact absurd rfl hne
      | cons a b =>
        simp
    have hdep : loopDepth l ≠ 0 := by
      have := depthAt_of_le l idx hidx
      rw [this] at hD
      omega
    refine ⟨?_, ?_, ?_, ?_⟩
    · intro r hr
      rw [jumpAux_zero, if_neg he] at hr
      cases hr
    · intro hr
      rw [jumpAux_zero, if_neg he] at hr
      cases hr
    · intro _
      exact hdep
    · rintro ⟨j, hj1, hj2, -, -⟩
      omega
  | case3 arr idx stack fuel hlt t ht ih =>
    intro hfuel hlen hJ
    obtain ⟨hsh, hD, hS, hH⟩ := hJ
    have hidxl : idx < l.length := by omega
    have hstart : isLoopStart (l.getD idx dfltI) = true := shape_start_at hsh hlt ht
    have hD' : depthAt l (idx + 1) = ((idx :: stack).length : Nat) := by
      rw [depthAt_succ l idx hidxl, loopD_start hstart]
      simp
      omega
    have hS' : StackInv l (idx + 1) (idx :: stack) := by
      refine ⟨by omega, hstart, by simpa using hD, ?_, hS⟩
      intro k hk1 hk2
      have hk : k = idx + 1 := by omega
      subst hk
      rw [hD']
      simp
    have hH' : HistInv l arr (idx + 1) (idx :: stack) := by
      constructor
      · intro i hi hnin hsi
        have hii : i ≠ idx := fun hh => hnin (hh ▸ List.mem_cons_self _ _)
        obtain ⟨j, hj, hm, h1, h2⟩ :=
          hH.1 i (by omega) (fun hh => hnin (List.mem_cons_of_mem _ hh)) hsi
        exact ⟨j, by omega, hm, h1, h2⟩
      · intro j hj hej
        have hjj : j ≠ idx := by
          intro hh
          subst hh
          rw [not_end_of_start hstart] at hej
          cases hej
        obtain ⟨i, hnin, hm, h1, h2⟩ := hH.2 j (by omega) hej
        refine ⟨i, ?_, hm, h1, h2⟩
        intro hmem
        rcases List.mem_cons.mp hmem with hh | hh
        · have := hm.1
          have := hm.2.1
          omega
        · exact hnin hh
    have hrec := ih (by omega) hlen ⟨hsh, by simpa using hD', hS', hH'⟩
    rw [jumpAux_succ_start arr fuel idx stack hlt t ht]
    refine ⟨hrec.1, hrec.2.1, hrec.2.2.1, ?_⟩
    rintro ⟨j, hj1, hj2, hj3, hj4⟩
    refine hrec.2.2.2 ⟨j, ?_, hj2, hj3, hj4⟩
    have : j ≠ idx := by
      intro hh
      subst hh
      rw [not_end_of_start hstart] at hj3
      cases hj3
    omega
  | case4 arr idx fuel hlt t ht =>
    intro hfuel hlen hJ
    obtain ⟨hsh, hD, hS, hH⟩ := hJ
    have hidxl : idx < l.length := by omega
    have hend : isLoopEnd (l.getD idx dfltI) = true := shape_end_at hsh hlt ht
    have hdep : depthAt l idx ≤ 0 := by
      rw [hD]
      simp
    rw [jumpAux_succ_end_nil arr fuel idx hlt t ht]
    refine ⟨?_, ?_, ?_, ?_⟩
    · intro r hr
      cases hr
    · intro _
      exact ⟨idx, hidxl, hend, hdep⟩
    · intro hr
      cases hr
    · intro _
      rfl
  | case5 arr idx fuel hlt t ht s rest ih =>
    intro hfuel hlen hJ
    obtain ⟨hsh, hD, hS, hH⟩ := hJ
    obtain ⟨hs_lt, hs_start, hs_depth, hs_win, hs_nest⟩ := hS
    have hidxl : idx < l.length := by omega
    have hend : isLoopEnd (l.getD idx dfltI) = true := shape_end_at hsh hlt ht
    have hsl : s < arr.length := by omega
    have harr' :
        sameShape ((arr.set s (.LoopStart idx)).set idx (.LoopEnd s)) l := by
      refine sameShape_trans (sameShape_trans (sameShape_set _ idx _ ?_) (sameShape_set _ s _ ?_)) hsh
      · rw [getD_set_ne arr s idx _ (by omega), getD_of_lt arr idx hlt, ht]
        rfl
      · have hk := hsh.2 s
        rw [hk, (kind_start_iff _).mpr hs_start]
        rfl
    have hD' : depthAt l (idx + 1) = (rest.length : Int) := by
      rw [depthAt_succ l idx hidxl, loopD_end hend, hD]
      simp
    have hmatch : lifo_match l s idx := by
      refine ⟨hs_lt, hidxl, hs_start, hend, ?_, ?_⟩
      · rw [hD', hs_depth]
      · intro k hk1 hk2
        have := hs_win k hk1 hk2
        rw [hs_depth]
        omega
    have hS' : StackInv l (idx + 1) rest := by
      refine stackInv_retarget hs_nest (by omega) ?_
      intro k hk1 hk2
      by_cases hk3 : k ≤ idx
      · have := hs_win k hk1 hk3
        omega
      · have hk4 : k = idx + 1 := by omega
        subst hk4
        rw [hD']
    have hsetS :
        ((arr.set s (.LoopStart idx)).set idx (.LoopEnd s)).getD s dfltI =
          .LoopStart idx := by
      rw [getD_set_ne _ idx s _ (by omega), getD_set_self arr s _ hsl]
    have hsetI :
        ((arr.set s (.LoopStart idx)).set idx (.LoopEnd s)).getD idx dfltI =
          .LoopEnd s := by
      rw [getD_set_self _ idx _ (by simpa using hlt)]
    have huntouched : ∀ p, p ≠ s → p ≠ idx →
        ((arr.set s (.LoopStart idx)).set idx (.LoopEnd s)).getD p dfltI =
          arr.getD p dfltI := by
      intro p hp1 hp2
      rw [getD_set_ne _ idx p _ (fun hh => hp2 hh.symm),
        getD_set_ne _ s p _ (fun hh => hp1 hh.symm)]
    have hs_notin : s ∉ rest := stackInv_top_notin ⟨hs_lt, hs_start, hs_depth, hs_win, hs_nest⟩
    have hH' : HistInv l ((arr.set s (.LoopStart idx)).set idx (.LoopEnd s))
        (idx + 1) rest := by
      constructor
      · intro i hi hnin hsi
        by_cases his : i = s
        · subst his
          exact ⟨idx, by omega, hmatch, hsetS, hsetI⟩
        · have hii : i ≠ idx := by
            intro hh
            subst hh
            rw [not_end_of_start hsi] at hend
            cases hend
          have hiidx : i < idx := by omega
          obtain ⟨j, hj, hm, h1, h2⟩ :=
            hH.1 i hiidx (by
              intro hmem
              rcases List.mem_cons.mp hmem with hh | hh
              · exact his hh
              · exact hnin hh) hsi
          have hjs : j ≠ s := by
            intro hh
            have hmend := hm.2.2.2.1
            rw [hh, not_end_of_start hs_start] at hmend
            cases hmend
          refine ⟨j, by omega, hm, ?_, ?_⟩
          · rw [huntouched i his hii]
            exact h1
          · rw [huntouched j hjs (by omega)]
            exact h2
      · intro j hj hej
        by_cases hji : j = idx
        · subst hji
          exact ⟨s, hs_notin, hmatch, hsetS, hsetI⟩
        · have hjidx : j < idx := by omega
          obtain ⟨i, hnin, hm, h1, h2⟩ := hH.2 j hjidx hej
          have his2 : i ≠ s := fun hh => hnin (hh ▸ List.mem_cons_self _ _)
          have hii : i ≠ idx := by
            have := hm.1
            omega
          have hjs : j ≠ s := by
            intro hh
            subst hh
            rw [not_end_of_start hs_start] at hej
            cases hej
          refine ⟨i, fun hh => hnin (List.mem_cons_of_mem _ hh), hm, ?_, ?_⟩
          · rw [huntouched i his2 hii]
            exact h1
          · rw [huntouched j hjs (by omega)]
            exact h2
    have hrec := ih (by simpa using (by omega : l.length ≤ (idx + 1) + fuel))
      (by simpa using hlen) ⟨harr', by simpa using hD', hS', hH'⟩
    rw [jumpAux_succ_end_cons arr fuel idx s rest hlt t ht]
    refine ⟨?_, hrec.2.1, hrec.2.2.1, ?_⟩
    · intro r hr
      obtain ⟨g1, g2, g3, g4, g5⟩ := hrec.1 r hr
      refine ⟨g1, g2, ?_, g4, g5⟩
      intro p hp
      rw [g3 p hp]
      have hps : p ≠ s := by
        intro hh
        subst hh
        rw [(kind_start_iff _).mpr hs_start] at hp
        cases hp
      have hpi : p ≠ idx := by
        intro hh
        subst hh
        rw [(kind_end_iff _).mpr hend] at hp
        cases hp
      exact huntouched p hps hpi
    · rintro ⟨j, hj1, hj2, hj3, hj4⟩
      refine hrec.2.2.2 ⟨j, ?_, hj2, hj3, hj4⟩
      have : j ≠ idx := by
        intro hh
        subst hh
        rw [hD] at hj4
        simp at hj4
        omega
      omega
  | case6 arr idx stack fuel hlt h1 h2 ih =>
    intro hfuel hlen hJ
    obtain ⟨hsh, hD, hS, hH⟩ := hJ
    have hidxl : idx < l.length := by omega
    have hnone : loopKind (l.getD idx dfltI) = none := shape_none_at hsh hlt h1 h2
    have hD' : depthAt l (idx + 1) = (stack.length : Int) := by
      rw [depthAt_succ l idx hidxl, loopD_none hnone, hD]
      simp
    have hS' : StackInv l (idx + 1) stack := by
      refine stackInv_retarget hS (by omega) ?_
      intro k hk1 hk2
      have hk : k = idx + 1 := by omega
      subst hk
      rw [hD']
    have hH' : HistInv l arr (idx + 1) stack := by
      constructor
      · intro i hi hnin hsi
        have hii : i ≠ idx := by
          intro hh
          subst hh
          rw [(kind_start_iff _).mpr hsi] at hnone
          cases hnone
        obtain ⟨j, hj, hm, ha, hb⟩ := hH.1 i (by omega) hnin hsi
        exact ⟨j, by omega, hm, ha, hb⟩
      · intro j hj hej
        have hjj : j ≠ idx := by
          intro hh
          subst hh
          rw [(kind_end_iff _).mpr hej] at hnone
          cases hnone
        exact hH.2 j (by omega) hej
    have hrec := ih (by omega) hlen ⟨hsh, hD', hS', hH'⟩
    rw [jumpAux_succ_other arr fuel idx stack hlt
      (fun t hh => h1 t hh) (fun t hh => h2 t hh)]
    refine ⟨hrec.1, hrec.2.1, hrec.2.2.1, ?_⟩
    rintro ⟨j, hj1, hj2, hj3, hj4⟩
    refine hrec.2.2.2 ⟨j, ?_, hj2, hj3, hj4⟩
    have : j ≠ idx := by
      intro hh
      subst hh
      rw [(kind_end_iff _).mpr hj3] at hnone
      cases hnone
    omega
  | case7 arr idx stack fuel hlt he =>
    intro hfuel hlen hJ
    obtain ⟨hsh, hD, hS, hH⟩ := hJ
    have hstack : stack = [] := List.isEmpty_iff.mp he
    subst hstack
    have hidx : l.length ≤ idx := by omega
    have hdepth : loopDepth l = 0 := by
      have := depthAt_of_le l idx hidx
      rw [this] at hD
      simpa using hD
    refine ⟨?_, ?_, ?_, ?_⟩
    · intro r hr
      rw [jumpAux_succ, dif_neg hlt, if_pos he] at hr
      cases hr
      refine ⟨hsh, hdepth, fun p _ => rfl, ?_, ?_⟩
      · intro i hi hsi
        obtain ⟨j, _, hm, ha, hb⟩ := hH.1 i (by omega) (by simp) hsi
        exact ⟨j, hm, ha, hb⟩
      · intro j hj hej
        obtain ⟨i, _, hm, ha, hb⟩ := hH.2 j (by omega) hej
        exact ⟨i, hm, ha, hb⟩
    · intro hr
      rw [jumpAux_succ, dif_neg hlt, if_pos he] at hr
      cases hr
    · intro hr
      rw [jumpAux_succ, dif_neg hlt, if_pos he] at hr
      cases hr
    · rintro ⟨j, hj1, hj2, -, -⟩
      omega
  | case8 arr idx stack fuel hlt he =>
    intro hfuel hlen hJ
    obtain ⟨hsh, hD, hS, hH⟩ := hJ
    have hne : stack ≠ [] := fun hh => he (by simp [hh])
    have hidx : l.length ≤ idx := by omega
    have hdep : loopDepth l ≠ 0 := by
      have := depthAt_of_le l idx hidx
      rw [this] at hD
      cases stack with
      | nil => exact absurd rfl hne
      | cons a b =>
        simp at hD
        omega
    refine ⟨?_, ?_, ?_, ?_⟩
    · intro r hr
      rw [jumpAux_succ, dif_neg hlt, if_neg he] at hr
      cases hr
    · intro hr
      rw [jumpAux_succ, dif_neg hlt, if_neg he] at hr
      cases hr
    · intro _
      exact hdep
    · rintro ⟨j, hj1, hj2, -, -⟩
      omega

lemma JInv_init (l : List Instruction) : JInv l l 0 [] := by
  refine ⟨sameShape_refl l, by simp [depthAt_zero], trivial, ?_, ?_⟩
  · intro i hi
    exact absurd hi (by omega)
  · intro j hj
    exact absurd hj (by omega)

lemma insert_ok_spec {l r : List Instruction} (h : insert_bf_jump_points l = .ok r) :
    sameShape r l ∧ loopDepth l = 0 ∧
    (∀ p, loopKind (l.getD p dfltI) = none → r.getD p dfltI = l.getD p dfltI) ∧
    (∀ i, i < l.length → isLoopStart (l.getD i dfltI) = true →
      ∃ j, lifo_match l i j ∧ r.getD i dfltI = .LoopStart j ∧
        r.getD j dfltI = .LoopEnd i) ∧
    (∀ j, j < l.length → isLoopEnd (l.getD j dfltI) = true →
      ∃ i, lifo_match l i j ∧ r.getD i dfltI = .LoopStart j ∧
        r.getD j dfltI = .LoopEnd i) :=
  (jumpAux_spec l l l.length 0 [] (by omega) rfl (JInv_init l)).1 r h

lemma insert_err_end_iff (l : List Instruction) :
    insert_bf_jump_points l = .error .UnmatchedEnd ↔ hasUnmatchedEnd l := by
  have hspec := jumpAux_spec l l l.length 0 [] (by omega) rfl (JInv_init l)
  refine ⟨hspec.2.1, ?_⟩
  rintro ⟨j, hj, he, hd⟩
  exact hspec.2.2.2 ⟨j, by omega, hj, he, hd⟩

lemma insert_err_start_iff (l : List Instruction) :
    insert_bf_jump_points l = .error .UnmatchedStart ↔
      (¬ hasUnmatchedEnd l ∧ loopDepth l ≠ 0) := by
  have hspec := jumpAux_spec l l l.length 0 [] (by omega) rfl (JInv_init l)
  constructor
  · intro h
    refine ⟨?_, hspec.2.2.1 h⟩
    intro hE
    have := (insert_err_end_iff l).mpr hE
    rw [h] at this
    cases this
  · rintro ⟨hnE, hd⟩
    cases hres : insert_bf_jump_points l with
    | ok r =>
      have := (insert_ok_spec hres).2.1
      exact absurd this hd
    | error e =>
      cases e with
      | UnmatchedStart => rfl
      | UnmatchedEnd => exact absurd ((insert_err_end_iff l).mp hres) hnE

lemma loopDepth_congr {l₁ l₂ : List Instruction} (h : sameShape l₁ l₂) :
    loopDepth l₁ = loopDepth l₂ := by
  rw [← depthAt_of_le l₁ l₁.length (by omega), ← depthAt_of_le l₂ l₂.length (by omega),
    ← h.1, depthAt_congr h]

lemma list_ext_getD {l₁ l₂ : List Instruction} (hlen : l₁.length = l₂.length)
    (h : ∀ p, l₁.getD p dfltI = l₂.getD p dfltI) : l₁ = l₂ := by
  refine List.ext_getElem hlen ?_
  intro i h₁ h₂
  rw [← getD_of_lt l₁ i h₁, ← getD_of_lt l₂ i h₂]
  exact h i

/-! ## Claim C7: jump transitions -/

/-- Claim C7 counterexample: executing the `LoopStart` of `[]` (resolved to
`[LoopStart 1, LoopEnd 0]`) with a zero current cell moves the instruction
pointer to 2 — one past the stored target — because `instruction_pointer += 1`
runs after every instruction, including taken branches.  The claim states the
pointer is set to the stored target (1) and that the partner jump instruction
itself is executed next; both are false. -/
theorem claim7_counterexample :
    step 256 [.LoopStart 1, .LoopEnd 0] 0 ⟨[0], 0, [], [], none⟩ =
      .next 2 ⟨[0], 0, [], [], none⟩ ∧
    (2 : Nat) ≠ 1 := by
  exact ⟨by decide, by decide⟩

/-- Claim C7 as amended: a taken `LoopStart` (zero cell) continues at the
stored target plus one, a taken `LoopEnd` (non-zero cell) likewise; a
fall-through jump or a non-jump instruction continues at `ip + 1`.  The
instruction pointer is incremented after every transition, so the instruction
executed immediately after a taken branch is the one following the partner
jump, not the partner itself. -/
theorem claim7_amended (M : Nat) (prog : List Instruction) (ip : Nat) (s : IState) :
    (∀ t, prog.getD ip dfltI = .LoopStart t → curCell s = 0 →
      step M prog ip s = .next (t + 1) s) ∧
    (∀ t, prog.getD ip dfltI = .LoopStart t → curCell s ≠ 0 →
      step M prog ip s = .next (ip + 1) s) ∧
    (∀ t, prog.getD ip dfltI = .LoopEnd t → curCell s ≠ 0 →
      step M prog ip s = .next (t + 1) s) ∧
    (∀ t, prog.getD ip dfltI = .LoopEnd t → curCell s = 0 →
      step M prog ip s = .next (ip + 1) s) ∧
    (∀ ip' s', isLoopInstr (prog.getD ip dfltI) = false →
      step M prog ip s = .next ip' s' → ip' = ip + 1) := by
  refine ⟨?_, ?_, ?_, ?_, ?_⟩
  · intro t hi hc
    unfold step
    rw [show prog.getD ip .Write = .LoopStart t from hi]
    simp [hc]
  · intro t hi hc
    unfold step
    rw [show prog.getD ip .Write = .LoopStart t from hi]
    simp [hc]
  · intro t hi hc
    unfold step
    rw [show prog.getD ip .Write = .LoopEnd t from hi]
    simp [hc]
  · intro t hi hc
    unfold step
    rw [show prog.getD ip .Write = .LoopEnd t from hi]
    simp [hc]
  · intro ip' s' hni hs
    unfold step at hs
    cases hi : prog.getD ip .Write <;> rw [hi] at hs <;>
      rw [show prog.getD ip dfltI = prog.getD ip .Write from rfl, hi] at hni <;>
      simp [isLoopInstr, isLoopStart, isLoopEnd] at hni ⊢ <;>
      simp only [stepInstr] at hs
    case Set v => cases hs; rfl
    case Write => cases hs; rfl
    case Read => rcases hin : s.input with _ | ⟨b, rest⟩ <;> rw [hin] at hs <;> cases hs <;> rfl
    case Inc a => cases hs; rfl
    case Dec a => cases hs; rfl
    case IncPtr a =>
      cases hip : inc_ptr_by s a <;> rw [hip] at hs <;> cases hs
      rfl
    case DecPtr a =>
      cases hip : dec_ptr_by s a <;> rw [hip] at hs <;> cases hs
      rfl

/-- Witness for the amended C7 on a concrete taken branch. -/
theorem claim7_witness :
    step 256 [.LoopEnd 5] 0 ⟨[3], 0, [], [], none⟩ = .next 6 ⟨[3], 0, [], [], none⟩ :=
  (claim7_amended 256 [.LoopEnd 5] 0 ⟨[3], 0, [], [], none⟩).2.2.1 5 (by decide) (by decide)

/-! ## Claim C1: optimized and unoptimized runs -/

/-- Claim C1 counterexample: for the program `><<` on a one-cell tape the
unoptimized run fails with `Overflow` while the optimized run (the stream
folds to a single `DecPtr 1`) fails with `Underflow`: both halt with an
error, but with different error kinds, which is none of the divergences
(a), (b), (c) the claim permits. -/
theorem claim1_counterexample :
    streamNew (instructions_from_text [62, 60, 60]) =
      .ok ⟨[.IncPtr 1, .DecPtr 1, .DecPtr 1], 30000⟩ ∧
    optimize 256 (instructions_from_text [62, 60, 60]) = .ok ([.DecPtr 1], 30000) ∧
    run 256 [.IncPtr 1, .DecPtr 1, .DecPtr 1] 10 ⟨[0], 0, [], [], none⟩ =
      .fail .Overflow ⟨[0], 0, [], [], none⟩ ∧
    run 256 [.DecPtr 1] 10 ⟨[0], 0, [], [], none⟩ =
      .fail .Underflow ⟨[0], 0, [], [], none⟩ ∧
    ¬ specAllowedDivergence
        (run 256 [.IncPtr 1, .DecPtr 1, .DecPtr 1] 10 ⟨[0], 0, [], [], none⟩)
        (run 256 [.DecPtr 1] 10 ⟨[0], 0, [], [], none⟩) := by
  refine ⟨by decide, by decide, by decide, by decide, by decide⟩

/-! ## Claim C5: optimize is not a fixed point -/

/-- Claim C5 counterexample: the program `>+>><<-<` compiles successfully,
optimizes to `[IncPtr 1, DecPtr 1]`, and running `optimize` a second time on
that already-optimized stream reduces it further (to `[]`), so one `optimize`
call does not reach a fixed point of its own rewriting. -/
theorem claim5_counterexample :
    streamNew (instructions_from_text [62, 43, 62, 62, 60, 60, 45, 60]) =
      .ok ⟨instructions_from_text [62, 43, 62, 62, 60, 60, 45, 60], 30000⟩ ∧
    optimize 256 (instructions_from_text [62, 43, 62, 62, 60, 60, 45, 60]) =
      .ok ([.IncPtr 1, .DecPtr 1], 30000) ∧
    optimize 256 [.IncPtr 1, .DecPtr 1] = .ok ([], 30000) ∧
    ([] : List Instruction) ≠ [.IncPtr 1, .DecPtr 1] := by
  refine ⟨by decide, by decide, by decide, by decide⟩

/-- Claim C5 as amended: one `optimize` call performs a single round of
folding, zero-loop recognition and folding (not an iteration to a fixed
point), so a second call may shorten the stream further; what does hold is
that `optimize` never increases the instruction count. -/
theorem claim5_amended (M : Nat) (instrs r : List Instruction) (n : Nat)
    (h : optimize M instrs = .ok (r, n)) : r.length ≤ instrs.length := by
  unfold optimize at h
  cases hj : insert_bf_jump_points (fold_like M (recognize_zeroings (fold_like M instrs))) with
  | error e => rw [hj] at h; cases h
  | ok r2 =>
    rw [hj] at h
    cases h
    unfold insert_bf_jump_points at hj
    have h1 := jumpAux_ok_length _ _ _ _ _ hj
    rw [h1]
    refine Nat.le_trans (fold_like_length M _) ?_
    refine Nat.le_trans (recognize_zeroings_length _) ?_
    exact fold_like_length M instrs

/-- Witness for the amended C5 on a concrete optimized program. -/
theorem claim5_witness :
    ([Instruction.IncPtr 1, .DecPtr 1] : List Instruction).length ≤
      (instructions_from_text [62, 43, 62, 62, 60, 60, 45, 60]).length :=
  claim5_amended 256 (instructions_from_text [62, 43, 62, 62, 60, 60, 45, 60])
    [.IncPtr 1, .DecPtr 1] 30000 (by decide)

/-! ## Claim C6: folding is not syntactically order-independent -/

/-- Claim C6 counterexample: the pure `Inc`/`Dec` sequences
`[Inc 100, Inc 156, Dec 5]` and `[Inc 156, Dec 5, Inc 100]` hold the same
multiset of instructions, each folds to a single final instruction, but the
final instructions differ (`Dec 5` vs `Inc 251`): in the first ordering
`Inc 100` and `Inc 156` wrap to zero and cancel, in the second the values
accumulate into `Inc 251`.  (The two are congruent modulo 256 but are not
the same instruction.) -/
theorem claim6_counterexample :
    List.Perm [Instruction.Inc 100, .Inc 156, .Dec 5] [.Inc 156, .Dec 5, .Inc 100] ∧
    (∀ i ∈ [Instruction.Inc 100, .Inc 156, .Dec 5], isIncDec i = true) ∧
    fold_like 256 [.Inc 100, .Inc 156, .Dec 5] = [.Dec 5] ∧
    fold_like 256 [.Inc 156, .Dec 5, .Inc 100] = [.Inc 251] ∧
    Instruction.Dec 5 ≠ .Inc 251 := by
  refine ⟨by decide, by decide, by decide, by decide, by decide⟩

lemma natMod_modEq (M x : Nat) : Int.ModEq M ((x % M : ℕ) : ℤ) (x : ℤ) := by
  unfold Int.ModEq
  rw [Int.natCast_mod]
  exact Int.emod_emod_of_dvd _ dvd_rfl

lemma modEq_of_eq (M : Nat) {a b : ℤ} (h : a = b) : Int.ModEq M a b := by rw [h]

lemma modEq_natAdd (M a b : Nat) :
    Int.ModEq M (((a + b) % M : ℕ) : ℤ) ((a : ℤ) + b) :=
  (natMod_modEq M (a + b)).trans (modEq_of_eq M (by push_cast; ring))

lemma modEq_zero_of_mod_zero (M a b : Nat) (h : (a + b) % M = 0) :
    Int.ModEq M ((a : ℤ) + b) 0 := by
  have h1 := (modEq_natAdd M a b).symm
  rw [h] at h1
  simpa using h1

lemma fold_with_incdec (M : Nat) (c n : Instruction)
    (hc : isIncDec c = true) (hn : isIncDec n = true) :
    (∃ f, fold_with M c n = .Folded f ∧ isIncDec f = true ∧
      Int.ModEq M (cellDelta f) (cellDelta c + cellDelta n)) ∨
    (fold_with M c n = .NoOp ∧ Int.ModEq M (cellDelta c + cellDelta n) 0) := by
  cases c <;> simp [isIncDec] at hc <;> cases n <;> simp [isIncDec] at hn
  case Inc.Inc a b =>
    simp only [fold_with, tryNZ, wrapAdd]
    by_cases h0 : (a + b) % M = 0
    · refine Or.inr ⟨by rw [if_pos h0], ?_⟩
      refine (modEq_of_eq M ?_).trans (modEq_zero_of_mod_zero M a b h0)
      simp [cellDelta]
    · refine Or.inl ⟨.Inc ((a + b) % M), by rw [if_neg h0], rfl, ?_⟩
      refine (modEq_of_eq M ?_).trans ((modEq_natAdd M a b).trans (modEq_of_eq M ?_))
      · simp [cellDelta]
      · simp [cellDelta]
  case Inc.Dec a s =>
    simp only [fold_with, tryNZ]
    by_cases hgt : s > a
    · have hne : ¬ (s - a = 0) := by omega
      refine Or.inl ⟨.Dec (s - a), by rw [if_pos hgt, if_neg hne], rfl, ?_⟩
      refine modEq_of_eq M ?_
      simp only [cellDelta]
      omega
    · by_cases h0 : a - s = 0
      · refine Or.inr ⟨by rw [if_neg hgt, if_pos h0], ?_⟩
        refine modEq_of_eq M ?_
        simp only [cellDelta]
        omega
      · refine Or.inl ⟨.Inc (a - s), by rw [if_neg hgt, if_neg h0], rfl, ?_⟩
        refine modEq_of_eq M ?_
        simp only [cellDelta]
        omega
  case Dec.Inc s a =>
    simp only [fold_with, tryNZ]
    by_cases hgt : s > a
    · have hne : ¬ (s - a = 0) := by omega
      refine Or.inl ⟨.Dec (s - a), by rw [if_pos hgt, if_neg hne], rfl, ?_⟩
      refine modEq_of_eq M ?_
      simp only [cellDelta]
      omega
    · by_cases h0 : a - s = 0
      · refine Or.inr ⟨by rw [if_neg hgt, if_pos h0], ?_⟩
        refine modEq_of_eq M ?_
        simp only [cellDelta]
        omega
      · refine Or.inl ⟨.Inc (a - s), by rw [if_neg hgt, if_neg h0], rfl, ?_⟩
        refine modEq_of_eq M ?_
        simp only [cellDelta]
        omega
  case Dec.Dec a b =>
    simp only [fold_with, tryNZ, wrapAdd]
    by_cases h0 : (a + b) % M = 0
    · refine Or.inr ⟨by rw [if_pos h0], ?_⟩
      refine (modEq_of_eq M ?_).trans ((modEq_zero_of_mod_zero M a b h0).neg.trans
        (modEq_of_eq M (by ring)))
      simp only [cellDelta]
      ring
    · refine Or.inl ⟨.Dec ((a + b) % M), by rw [if_neg h0], rfl, ?_⟩
      refine (modEq_of_eq M ?_).trans ((modEq_natAdd M a b).neg.trans (modEq_of_eq M ?_))
      · simp [cellDelta]
      · simp only [cellDelta]
        ring

lemma pure_incdec_cons {x : Instruction} {l : List Instruction}
    (h : PureIncDec (x :: l)) : isIncDec x = true ∧ PureIncDec l :=
  ⟨h x (List.mem_cons_self x l), fun i hi => h i (List.mem_cons_of_mem x hi)⟩

lemma cellNet_nil : cellNet [] = 0 := rfl

lemma cellNet_cons (x : Instruction) (l : List Instruction) :
    cellNet (x :: l) = cellDelta x + cellNet l := by
  simp [cellNet]

lemma foldGo_incdec (M : Nat) (c : Instruction) (l : List Instruction) :
    PureIncDec (c :: l) →
      (foldGo M c l).length ≤ 1 ∧ PureIncDec (foldGo M c l) ∧
      Int.ModEq M (cellNet (foldGo M c l)) (cellDelta c + cellNet l) := by
  induction c, l using foldGo.induct M with
  | case1 c =>
    intro hp
    rw [foldGo_nil]
    refine ⟨by simp, hp, modEq_of_eq M ?_⟩
    simp [cellNet_cons, cellNet_nil]
  | case2 c next f hf =>
    intro hp
    obtain ⟨hc, hrest⟩ := pure_incdec_cons hp
    obtain ⟨hn, _⟩ := pure_incdec_cons hrest
    rcases fold_with_incdec M c next hc hn with ⟨f', hf', hpf, hmod⟩ | ⟨hno, _⟩
    · rw [hf] at hf'
      injection hf' with hfe
      subst hfe
      rw [foldGo_one, hf]
      refine ⟨by simp, fun i hi => by simpa using (List.mem_singleton.mp hi) ▸ hpf, ?_⟩
      simp only [cellNet_cons, cellNet_nil]
      refine (modEq_of_eq M (by ring)).trans (hmod.trans (modEq_of_eq M (by ring)))
    · rw [hf] at hno; cases hno
  | case3 c next hf =>
    intro hp
    obtain ⟨hc, hrest⟩ := pure_incdec_cons hp
    obtain ⟨hn, _⟩ := pure_incdec_cons hrest
    rcases fold_with_incdec M c next hc hn with ⟨f', hf', _, _⟩ | ⟨_, hmod⟩
    · rw [hf] at hf'; cases hf'
    · rw [foldGo_one, hf]
      refine ⟨by simp, fun i hi => by simp at hi, ?_⟩
      simp only [cellNet_cons, cellNet_nil]
      refine hmod.symm.trans (modEq_of_eq M (by ring))
  | case4 c next hf =>
    intro hp
    obtain ⟨hc, hrest⟩ := pure_incdec_cons hp
    obtain ⟨hn, _⟩ := pure_incdec_cons hrest
    rcases fold_with_incdec M c next hc hn with ⟨f', hf', _, _⟩ | ⟨hno, _⟩
    · rw [hf] at hf'; cases hf'
    · rw [hf] at hno; cases hno
  | case5 c next y r f hf ih =>
    intro hp
    obtain ⟨hc, hrest⟩ := pure_incdec_cons hp
    obtain ⟨hn, hyr⟩ := pure_incdec_cons hrest
    rcases fold_with_incdec M c next hc hn with ⟨f', hf', hpf, hmod⟩ | ⟨hno, _⟩
    · rw [hf] at hf'
      injection hf' with hfe
      subst hfe
      rw [foldGo_cons, hf]
      have hpfyr : PureIncDec (f :: y :: r) := by
        intro i hi
        rcases List.mem_cons.mp hi with h1 | h2
        · exact h1 ▸ hpf
        · exact hyr i h2
      obtain ⟨ihl, ihp, ihm⟩ := ih hpfyr
      refine ⟨ihl, ihp, ?_⟩
      simp only [cellNet_cons] at ihm ⊢
      refine ihm.trans ?_
      exact (hmod.add_right _).trans (modEq_of_eq M (by ring))
    · rw [hf] at hno; cases hno
  | case6 c next y r hf ih =>
    intro hp
    obtain ⟨hc, hrest⟩ := pure_incdec_cons hp
    obtain ⟨hn, hyr⟩ := pure_incdec_cons hrest
    rcases fold_with_incdec M c next hc hn with ⟨f', hf', _, _⟩ | ⟨_, hmod⟩
    · rw [hf] at hf'; cases hf'
    · rw [foldGo_cons, hf]
      obtain ⟨ihl, ihp, ihm⟩ := ih hyr
      refine ⟨ihl, ihp, ?_⟩
      simp only [cellNet_cons] at ihm ⊢
      refine ihm.trans ?_
      have h2 := hmod.symm.add_right (cellDelta y + cellNet r)
      refine (modEq_of_eq M (by ring)).trans (h2.trans (modEq_of_eq M (by ring)))
  | case7 c next y r hf ih =>
    intro hp
    obtain ⟨hc, hrest⟩ := pure_incdec_cons hp
    obtain ⟨hn, hyr⟩ := pure_incdec_cons hrest
    rcases fold_with_incdec M c next hc hn with ⟨f', hf', _, _⟩ | ⟨hno, _⟩
    · rw [hf] at hf'; cases hf'
    · rw [hf] at hno; cases hno

lemma fold_like_incdec (M : Nat) (l : List Instruction) (hp : PureIncDec l) :
    (fold_like M l).length ≤ 1 ∧
    Int.ModEq M (cellNet (fold_like M l)) (cellNet l) := by
  cases l with
  | nil => exact ⟨by simp [fold_like], Int.ModEq.refl _⟩
  | cons x rest =>
    obtain ⟨h1, h2, h3⟩ := foldGo_incdec M x rest hp
    exact ⟨h1, by rw [cellNet_cons]; exact h3⟩

lemma cellNet_perm {l₁ l₂ : List Instruction} (h : l₁.Perm l₂) :
    cellNet l₁ = cellNet l₂ :=
  (h.map cellDelta).sum_eq

lemma ptrNet_perm {l₁ l₂ : List Instruction} (h : l₁.Perm l₂) :
    ptrNet l₁ = ptrNet l₂ :=
  (h.map ptrDelta).sum_eq

lemma pure_incdec_perm {l₁ l₂ : List Instruction} (h : l₁.Perm l₂)
    (hp : PureIncDec l₁) : PureIncDec l₂ :=
  fun i hi => hp i (h.mem_iff.mpr hi)

lemma pure_ptr_perm {l₁ l₂ : List Instruction} (h : l₁.Perm l₂)
    (hp : PurePtr l₁) : PurePtr l₂ :=
  fun i hi => hp i (h.mem_iff.mpr hi)

lemma pure_ptr_cons {x : Instruction} {l : List Instruction}
    (h : PurePtr (x :: l)) : isPtrInstr x = true ∧ PurePtr l :=
  ⟨h x (List.mem_cons_self x l), fun i hi => h i (List.mem_cons_of_mem x hi)⟩

lemma ptrNet_nil : ptrNet [] = 0 := rfl

lemma ptrNet_cons (x : Instruction) (l : List Instruction) :
    ptrNet (x :: l) = ptrDelta x + ptrNet l := by
  simp [ptrNet]

lemma fold_with_ptr (M : Nat) (c n : Instruction)
    (hc : isPtrInstr c = true) (hn : isPtrInstr n = true) :
    (∃ f, fold_with M c n = .Folded f ∧ isPtrInstr f = true ∧
      ptrDelta f = ptrDelta c + ptrDelta n) ∨
    (fold_with M c n = .NoOp ∧ ptrDelta c + ptrDelta n = 0) ∨
    fold_with M c n = .CantFold := by
  cases c <;> simp [isPtrInstr] at hc <;> cases n <;> simp [isPtrInstr] at hn
  case IncPtr.IncPtr a b =>
    simp only [fold_with]
    by_cases hle : a + b ≤ u32Max
    · refine Or.inl ⟨.IncPtr (a + b), by rw [if_pos hle], rfl, ?_⟩
      simp only [ptrDelta]
      push_cast
      ring
    · exact Or.inr (Or.inr (by rw [if_neg hle]))
  case IncPtr.DecPtr a s =>
    simp only [fold_with, tryNZ]
    by_cases hgt : s > a
    · have hne : ¬ (s - a = 0) := by omega
      refine Or.inl ⟨.DecPtr (s - a), by rw [if_pos hgt, if_neg hne], rfl, ?_⟩
      simp only [ptrDelta]
      omega
    · by_cases h0 : a - s = 0
      · refine Or.inr (Or.inl ⟨by rw [if_neg hgt, if_pos h0], ?_⟩)
        simp only [ptrDelta]
        omega
      · refine Or.inl ⟨.IncPtr (a - s), by rw [if_neg hgt, if_neg h0], rfl, ?_⟩
        simp only [ptrDelta]
        omega
  case DecPtr.IncPtr s a =>
    simp only [fold_with, tryNZ]
    by_cases hgt : s > a
    · have hne : ¬ (s - a = 0) := by omega
      refine Or.inl ⟨.DecPtr (s - a), by rw [if_pos hgt, if_neg hne], rfl, ?_⟩
      simp only [ptrDelta]
      omega
    · by_cases h0 : a - s = 0
      · refine Or.inr (Or.inl ⟨by rw [if_neg hgt, if_pos h0], ?_⟩)
        simp only [ptrDelta]
        omega
      · refine Or.inl ⟨.IncPtr (a - s), by rw [if_neg hgt, if_neg h0], rfl, ?_⟩
        simp only [ptrDelta]
        omega
  case DecPtr.DecPtr a b =>
    simp only [fold_with]
    by_cases hle : a + b ≤ u32Max
    · refine Or.inl ⟨.DecPtr (a + b), by rw [if_pos hle], rfl, ?_⟩
      simp only [ptrDelta]
      push_cast
      ring
    · exact Or.inr (Or.inr (by rw [if_neg hle]))

lemma foldGo_ptr (M : Nat) (c : Instruction) (l : List Instruction) :
    PurePtr (c :: l) →
      PurePtr (foldGo M c l) ∧ ptrNet (foldGo M c l) = ptrDelta c + ptrNet l := by
  induction c, l using foldGo.induct M with
  | case1 c =>
    intro hp
    rw [foldGo_nil]
    exact ⟨hp, by rw [ptrNet_cons, ptrNet_nil]⟩
  | case2 c next f hf =>
    intro hp
    obtain ⟨hc, hrest⟩ := pure_ptr_cons hp
    obtain ⟨hn, _⟩ := pure_ptr_cons hrest
    rcases fold_with_ptr M c next hc hn with ⟨f', hf', hpf, hd⟩ | ⟨hno, _⟩ | hcf
    · rw [hf] at hf'
      injection hf' with hfe
      subst hfe
      rw [foldGo_one, hf]
      refine ⟨fun i hi => by simpa using (List.mem_singleton.mp hi) ▸ hpf, ?_⟩
      simp only [ptrNet_cons, ptrNet_nil]
      omega
    · rw [hf] at hno; cases hno
    · rw [hf] at hcf; cases hcf
  | case3 c next hf =>
    intro hp
    obtain ⟨hc, hrest⟩ := pure_ptr_cons hp
    obtain ⟨hn, _⟩ := pure_ptr_cons hrest
    rcases fold_with_ptr M c next hc hn with ⟨f', hf', _, _⟩ | ⟨_, hd⟩ | hcf
    · rw [hf] at hf'; cases hf'
    · rw [foldGo_one, hf]
      refine ⟨fun i hi => by simp at hi, ?_⟩
      simp only [ptrNet_cons, ptrNet_nil]
      omega
    · rw [hf] at hcf; cases hcf
  | case4 c next hf =>
    intro hp
    obtain ⟨hc, hrest⟩ := pure_ptr_cons hp
    rw [foldGo_one, hf]
    refine ⟨hp, ?_⟩
    simp only [ptrNet_cons, ptrNet_nil]
  | case5 c next y r f hf ih =>
    intro hp
    obtain ⟨hc, hrest⟩ := pure_ptr_cons hp
    obtain ⟨hn, hyr⟩ := pure_ptr_cons hrest
    rcases fold_with_ptr M c next hc hn with ⟨f', hf', hpf, hd⟩ | ⟨hno, _⟩ | hcf
    · rw [hf] at hf'
      injection hf' with hfe
      subst hfe
      rw [foldGo_cons, hf]
      have hpfyr : PurePtr (f :: y :: r) := by
        intro i hi
        rcases List.mem_cons.mp hi with h1 | h2
        · exact h1 ▸ hpf
        · exact hyr i h2
      obtain ⟨ihp, ihn⟩ := ih hpfyr
      refine ⟨ihp, ?_⟩
      rw [ihn]
      simp only [ptrNet_cons]
      omega
    · rw [hf] at hno; cases hno
    · rw [hf] at hcf; cases hcf
  | case6 c next y r hf ih =>
    intro hp
    obtain ⟨hc, hrest⟩ := pure_ptr_cons hp
    obtain ⟨hn, hyr⟩ := pure_ptr_cons hrest
    rcases fold_with_ptr M c next hc hn with ⟨f', hf', _, _⟩ | ⟨_, hd⟩ | hcf
    · rw [hf] at hf'; cases hf'
    · rw [foldGo_cons, hf]
      obtain ⟨ihp, ihn⟩ := ih hyr
      refine ⟨ihp, ?_⟩
      rw [ihn]
      simp only [ptrNet_cons]
      omega
    · rw [hf] at hcf; cases hcf
  | case7 c next y r hf ih =>
    intro hp
    obtain ⟨hc, hrest⟩ := pure_ptr_cons hp
    obtain ⟨hn, hyr⟩ := pure_ptr_cons hrest
    rw [foldGo_cons, hf]
    obtain ⟨ihp, ihn⟩ := ih hrest
    refine ⟨?_, ?_⟩
    · intro i hi
      rcases List.mem_cons.mp hi with h1 | h2
      · exact h1 ▸ hc
      · exact ihp i h2
    · simp only [ptrNet_cons, ihn]

lemma fold_like_ptr (M : Nat) (l : List Instruction) (hp : PurePtr l) :
    ptrNet (fold_like M l) = ptrNet l := by
  cases l with
  | nil => rfl
  | cons x rest =>
    obtain ⟨_, h2⟩ := foldGo_ptr M x rest hp
    rw [show fold_like M (x :: rest) = foldGo M x rest from rfl, h2, ptrNet_cons]

/-- Claim C6 as amended: for pure `Inc`/`Dec` sequences, any two orderings of
the same multiset fold (via `fold_like`) to at most one final instruction
and the folded results have the same net effect on the current cell modulo
the cell width — but, as the counterexample shows, not necessarily the same
instruction (`Inc (2^W - k)` versus `Dec k`).  For pure `IncPtr`/`DecPtr`
sequences the folded results have the same net pointer displacement. -/
theorem claim6_amended (M : Nat) (l₁ l₂ : List Instruction) :
    (PureIncDec l₁ → l₁.Perm l₂ →
      (fold_like M l₁).length ≤ 1 ∧ (fold_like M l₂).length ≤ 1 ∧
      Int.ModEq M (cellNet (fold_like M l₁)) (cellNet (fold_like M l₂))) ∧
    (PurePtr l₁ → l₁.Perm l₂ → ptrNet (fold_like M l₁) = ptrNet (fold_like M l₂)) := by
  constructor
  · intro hp hperm
    have hp₂ := pure_incdec_perm hperm hp
    obtain ⟨h1, h2⟩ := fold_like_incdec M l₁ hp
    obtain ⟨h3, h4⟩ := fold_like_incdec M l₂ hp₂
    exact ⟨h1, h3, h2.trans ((modEq_of_eq M (cellNet_perm hperm)).trans h4.symm)⟩
  · intro hp hperm
    rw [fold_like_ptr M l₁ hp, fold_like_ptr M l₂ (pure_ptr_perm hperm hp)]
    exact ptrNet_perm hperm

/-- Witness for the amended C6 at the counterexample's two orderings. -/
theorem claim6_witness :
    (fold_like 256 [Instruction.Inc 100, .Inc 156, .Dec 5]).length ≤ 1 ∧
    (fold_like 256 [Instruction.Inc 156, .Dec 5, .Inc 100]).length ≤ 1 ∧
    Int.ModEq 256 (cellNet (fold_like 256 [Instruction.Inc 100, .Inc 156, .Dec 5]))
      (cellNet (fold_like 256 [Instruction.Inc 156, .Dec 5, .Inc 100])) :=
  (claim6_amended 256 [Instruction.Inc 100, .Inc 156, .Dec 5]
    [Instruction.Inc 156, .Dec 5, .Inc 100]).1 (by decide) (by decide)

/-! ## Claim C4: zero-loop recognition -/

/-- Claim C4: the zero-loop rule replaces every subsequence of the exact
shape `LoopStart, (Inc 1 | Dec 1), LoopEnd` by exactly one `Set 0` and
leaves any other head instruction untouched (in particular loops with
multi-instruction bodies or a single step of magnitude other than 1); the
source fragments `[-]` and `[+]` therefore compile, for every cell width, to
the single instruction `Set 0` — instruction count exactly 1. -/
theorem claim4_zero_loops :
    (∀ l, zHit l = true →
      recognize_zeroings l = .Set 0 :: recognize_zeroings (l.drop 3)) ∧
    (∀ x l, zHit (x :: l) = false →
      recognize_zeroings (x :: l) = x :: recognize_zeroings l) ∧
    (∀ M, optimized_from_code M [91, 45, 93] = .ok ([.Set 0], 30000)) ∧
    (∀ M, optimized_from_code M [91, 43, 93] = .ok ([.Set 0], 30000)) := by
  refine ⟨?_, ?_, fun M => rfl, fun M => rfl⟩
  · intro l h
    unfold zHit at h
    split at h
    · have ha : _ = 1 := of_decide_eq_true h
      subst ha
      simp [recognize_zeroings]
    · have ha : _ = 1 := of_decide_eq_true h
      subst ha
      simp [recognize_zeroings]
    · cases h
  · exact rz_cons_false

/-- Witness for C4 at concrete instances of each conjunct. -/
theorem claim4_witness :
    recognize_zeroings [.LoopStart 2, .Dec 1, .LoopEnd 0] = [.Set 0] ∧
    recognize_zeroings [.LoopStart 2, .Dec 2, .LoopEnd 0] =
      [.LoopStart 2, .Dec 2, .LoopEnd 0] ∧
    optimized_from_code 256 [91, 45, 93] = .ok ([.Set 0], 30000) :=
  ⟨claim4_zero_loops.1 [.LoopStart 2, .Dec 1, .LoopEnd 0] (by decide),
   by
    have h := claim4_zero_loops.2.1 (.LoopStart 2) [.Dec 2, .LoopEnd 0] (by decide)
    rw [h]
    have h2 := claim4_zero_loops.2.1 (.Dec 2) [.LoopEnd 0] (by decide)
    rw [h2]
    rfl,
   claim4_zero_loops.2.2.1 256⟩

/-! ## Claim C2: jump-resolution characterization -/

/-- Claim C2: jump resolution fails with `UnmatchedEnd` iff some `LoopEnd` is
scanned while no `LoopStart` is open (equivalently, some end closes at
non-positive nesting depth); it fails with `UnmatchedStart` iff no such end
exists but open starts remain after the full scan (nonzero net depth); and on
success every `LoopStart`'s stored target is the index of its (unique) LIFO
matching `LoopEnd` and that `LoopEnd`'s stored target is the `LoopStart`'s
index — and symmetrically every `LoopEnd` points back at its unique match. -/
theorem claim2_jump_resolution (l : List Instruction) :
    (insert_bf_jump_points l = .error .UnmatchedEnd ↔ hasUnmatchedEnd l) ∧
    (insert_bf_jump_points l = .error .UnmatchedStart ↔
      (¬ hasUnmatchedEnd l ∧ loopDepth l ≠ 0)) ∧
    (∀ r, insert_bf_jump_points l = .ok r →
      (∀ i, i < l.length → isLoopStart (l.getD i dfltI) = true →
        ∃ j, lifo_match l i j ∧ r.getD i dfltI = .LoopStart j ∧
          r.getD j dfltI = .LoopEnd i) ∧
      (∀ j, j < l.length → isLoopEnd (l.getD j dfltI) = true →
        ∃ i, lifo_match l i j ∧ r.getD i dfltI = .LoopStart j ∧
          r.getD j dfltI = .LoopEnd i)) ∧
    (∀ i j j', lifo_match l i j → lifo_match l i j' → j = j') ∧
    (∀ i i' j, lifo_match l i j → lifo_match l i' j → i = i') := by
  refine ⟨insert_err_end_iff l, insert_err_start_iff l, ?_, ?_, ?_⟩
  · intro r hr
    have := insert_ok_spec hr
    exact ⟨this.2.2.2.1, this.2.2.2.2⟩
  · intro i j j' h h'
    exact lifo_match_unique_right h h'
  · intro i i' j h h'
    exact lifo_match_unique_left h h'

/-- Witness for C2: the resolved form of `[]` points its `LoopStart` at its
matching `LoopEnd`. -/
theorem claim2_witness :
    ∃ j, lifo_match [Instruction.LoopStart 0, .LoopEnd 0] 0 j ∧
      ([Instruction.LoopStart 1, .LoopEnd 0].getD 0 dfltI = .LoopStart j) ∧
      ([Instruction.LoopStart 1, .LoopEnd 0].getD j dfltI = .LoopEnd 0) :=
  ((claim2_jump_resolution [Instruction.LoopStart 0, .LoopEnd 0]).2.2.1
    [Instruction.LoopStart 1, .LoopEnd 0] (by decide)).1 0 (by decide) (by decide)

/-! ## Claim C8: jump resolution is idempotent -/

/-- Claim C8: if jump resolution succeeds on a sequence, re-running it on the
already-resolved sequence succeeds and returns exactly the same sequence —
identical targets, nothing modified. -/
theorem claim8_idempotent (l r : List Instruction)
    (h : insert_bf_jump_points l = .ok r) : insert_bf_jump_points r = .ok r := by
  obtain ⟨hsh, hdep, huntouched, hstarts, hends⟩ := insert_ok_spec h
  have hlen : r.length = l.length := hsh.1
  -- the re-run cannot fail
  cases hres : insert_bf_jump_points r with
  | error e =>
    cases e with
    | UnmatchedEnd =>
      have hE : hasUnmatchedEnd r := (insert_err_end_iff r).mp hres
      have hEl : hasUnmatchedEnd l := (hasUnmatchedEnd_congr hsh).mp hE
      have := (insert_err_end_iff l).mpr hEl
      rw [h] at this
      cases this
    | UnmatchedStart =>
      have := ((insert_err_start_iff r).mp hres).2
      rw [loopDepth_congr hsh] at this
      exact absurd hdep this
  | ok r' =>
    obtain ⟨hsh', hdep', huntouched', hstarts', hends'⟩ := insert_ok_spec hres
    have hlen' : r'.length = r.length := hsh'.1
    have hEq : r' = r := by
      refine list_ext_getD hlen' ?_
      intro p
      by_cases hp : p < r.length
      · have hpl : p < l.length := by omega
        cases hk : loopKind (l.getD p dfltI) with
        | none =>
          rw [huntouched' p ((hsh.2 p).trans hk)]
        | some b =>
          cases b with
          | true =>
            have hstart_l : isLoopStart (l.getD p dfltI) = true := (kind_start_iff _).mp hk
            have hstart_r : isLoopStart (r.getD p dfltI) = true := by
              rw [isLoopStart_of_kind (hsh.2 p)]
              exact hstart_l
            obtain ⟨j, hm, h1, h2⟩ := hstarts p hpl hstart_l
            obtain ⟨j', hm', h1', h2'⟩ := hstarts' p (by omega) hstart_r
            have hm'' : lifo_match l p j' := lifo_match_congr hsh hm'
            have : j' = j := lifo_match_unique_right hm'' hm
            subst this
            rw [h1', h1]
          | false =>
            have hend_l : isLoopEnd (l.getD p dfltI) = true := (kind_end_iff _).mp hk
            have hend_r : isLoopEnd (r.getD p dfltI) = true := by
              rw [isLoopEnd_of_kind (hsh.2 p)]
              exact hend_l
            obtain ⟨i, hm, h1, h2⟩ := hends p hpl hend_l
            obtain ⟨i', hm', h1', h2'⟩ := hends' p (by omega) hend_r
            have hm'' : lifo_match l i' p := lifo_match_congr hsh hm'
            have : i' = i := lifo_match_unique_left hm'' hm
            subst this
            rw [h2', h2]
      · rw [List.getD_eq_default _ _ (by omega), List.getD_eq_default _ _ (by omega)]
    rw [hEq]

/-- Witness for C8 at the resolved form of `[]`. -/
theorem claim8_witness :
    insert_bf_jump_points [Instruction.LoopStart 1, .LoopEnd 0] =
      .ok [Instruction.LoopStart 1, .LoopEnd 0] :=
  claim8_idempotent [Instruction.LoopStart 0, .LoopEnd 0]
    [Instruction.LoopStart 1, .LoopEnd 0] (by decide)

lemma leftLE_refl (o : Option Nat) : leftLE o o := by cases o <;> simp [leftLE]

lemma leftLE_trans {a b c : Option Nat} (h1 : leftLE a b) (h2 : leftLE b c) :
    leftLE a c := by
  cases a <;> cases b <;> cases c <;> simp [leftLE] at * <;> omega

lemma Rel_refl (s : IState) : Rel s s := ⟨rfl, rfl, rfl, rfl, leftLE_refl _⟩

lemma Rel_trans {a b c : IState} (h1 : Rel a b) (h2 : Rel b c) : Rel a c :=
  ⟨h2.1.trans h1.1, h2.2.1.trans h1.2.1, h2.2.2.1.trans h1.2.2.1,
    h2.2.2.2.1.trans h1.2.2.2.1, leftLE_trans h1.2.2.2.2 h2.2.2.2.2⟩

lemma Rel_eq_left {su so : IState} (h : Rel su so) :
    so = { su with left := so.left } := by
  obtain ⟨h1, h2, h3, h4, _⟩ := h
  cases so
  cases su
  simp at h1 h2 h3 h4
  simp [h1, h2, h3, h4]

lemma stepInstr_preserves_left (M : Nat) (i : Instruction) (s : IState) :
    (∀ s', stepInstr M i s = .ok s' → s'.left = s.left) ∧
    (∀ e s', stepInstr M i s = .error (e, s') → s'.left = s.left) := by
  constructor
  · intro s' h
    cases i <;> simp only [stepInstr] at h
    case Set v => cases h; rfl
    case Inc a => cases h; rfl
    case Dec a => cases h; rfl
    case Write => cases h; rfl
    case Read =>
      rcases hin : s.input with _ | ⟨b, r⟩ <;> rw [hin] at h <;> cases h <;> simp [setCell]
    case LoopStart t => cases h; rfl
    case LoopEnd t => cases h; rfl
    case IncPtr a =>
      unfold inc_ptr_by at h
      split at h
      · cases h
      · cases h; rfl
    case DecPtr a =>
      unfold dec_ptr_by at h
      split at h
      · cases h; rfl
      · cases h
  · intro e s' h
    cases i <;> simp only [stepInstr] at h
    case Set v => cases h
    case Inc a => cases h
    case Dec a => cases h
    case Write => cases h
    case Read =>
      rcases hin : s.input with _ | ⟨b, r⟩ <;> rw [hin] at h <;> cases h
    case LoopStart t => cases h
    case LoopEnd t => cases h
    case IncPtr a =>
      unfold inc_ptr_by at h
      split at h
      · cases h; rfl
      · cases h
    case DecPtr a =>
      unfold dec_ptr_by at h
      split at h
      · cases h
      · cases h; rfl

lemma stepInstr_left_subst (M : Nat) (i : Instruction) (s : IState) (A : Option Nat) :
    stepInstr M i { s with left := A } =
      match stepInstr M i s with
      | .ok s' => .ok { s' with left := A }
      | .error (e, s') => .error (e, { s' with left := A }) := by
  cases i <;> simp only [stepInstr, setCell, curCell, inc_ptr_by, dec_ptr_by]
  case Read =>
    rcases hin : s.input with _ | ⟨b, r⟩ <;> simp [setCell]
  case IncPtr a => split <;> simp
  case DecPtr a => split <;> simp

lemma leftLE_ne_zero {a b : Option Nat} (h : leftLE a b) (ha : a ≠ some 0) :
    b ≠ some 0 := by
  cases a <;> cases b <;> simp [leftLE] at * <;> omega

lemma leftLE_dec {a b : Option Nat} (h : leftLE a b) :
    leftLE (a.map (· - 1)) (b.map (· - 1)) := by
  cases a <;> cases b <;> simp [leftLE] at * <;> omega

lemma exec1_sim (M : Nat) (i : Instruction) {su so su' : IState} (hR : Rel su so)
    (h : exec1 M i su = .ok su') :
    ∃ so', exec1 M i so = .ok so' ∧ Rel su' so' := by
  unfold exec1 at h ⊢
  by_cases hb : su.left = some 0
  · rw [if_pos hb] at h
    cases h
  · rw [if_neg hb] at h
    have hbo : ¬ so.left = some 0 := leftLE_ne_zero hR.2.2.2.2 hb
    rw [if_neg hbo]
    have hso : so = { su with left := so.left } := Rel_eq_left hR
    rw [hso, stepInstr_left_subst]
    cases hs : stepInstr M i su with
    | error es =>
      rw [hs] at h
      cases h
    | ok s₁ =>
      rw [hs] at h
      cases h
      have hleft : s₁.left = su.left := (stepInstr_preserves_left M i su).1 s₁ hs
      refine ⟨_, rfl, rfl, rfl, rfl, rfl, ?_⟩
      simp only [hleft]
      exact leftLE_dec hR.2.2.2.2

lemma straightRun_sim (M : Nat) :
    ∀ (L : List Instruction) {su so tu : IState}, Rel su so →
      straightRun M L su = .ok tu →
      ∃ t2, straightRun M L so = .ok t2 ∧ Rel tu t2 := by
  intro L
  induction L with
  | nil =>
    intro su so tu hR h
    cases h
    exact ⟨so, rfl, hR⟩
  | cons i rest ih =>
    intro su so tu hR h
    unfold straightRun at h ⊢
    cases he : exec1 M i su with
    | error es =>
      rw [he] at h
      obtain ⟨e, s'⟩ := es
      cases h
    | ok su₁ =>
      rw [he] at h
      obtain ⟨so₁, he', hR'⟩ := exec1_sim M i hR he
      rw [he']
      exact ih hR' h

lemma wfs_stepInstr (M : Nat) (hM : 256 ≤ M) (i : Instruction) {s s' : IState}
    (hwf : WFInstr M i) (hws : WFS M s) (h : stepInstr M i s = .ok s') :
    WFS M s' := by
  obtain ⟨hp, hc, hi⟩ := hws
  have hM0 : 0 < M := by omega
  cases i <;> simp only [stepInstr] at h
  case Set v =>
    cases h
    refine ⟨by simpa [setCell], ?_, hi⟩
    intro c hcm
    rcases List.mem_or_eq_of_mem_set hcm with hh | hh
    · exact hc c hh
    · exact hh ▸ hwf
  case Inc a =>
    cases h
    refine ⟨by simpa [setCell], ?_, hi⟩
    intro c hcm
    rcases List.mem_or_eq_of_mem_set hcm with hh | hh
    · exact hc c hh
    · rw [hh]
      exact Nat.mod_lt _ hM0
  case Dec a =>
    cases h
    refine ⟨by simpa [setCell], ?_, hi⟩
    intro c hcm
    rcases List.mem_or_eq_of_mem_set hcm with hh | hh
    · exact hc c hh
    · rw [hh]
      exact Nat.mod_lt _ hM0
  case Write =>
    cases h
    exact ⟨hp, hc, hi⟩
  case Read =>
    rcases hin : s.input with _ | ⟨b, r⟩ <;> rw [hin] at h <;> cases h
    · refine ⟨by simpa [setCell], ?_, by simp⟩
      intro c hcm
      rcases List.mem_or_eq_of_mem_set hcm with hh | hh
      · exact hc c hh
      · omega
    · refine ⟨by simpa [setCell], ?_, ?_⟩
      · intro c hcm
        rcases List.mem_or_eq_of_mem_set hcm with hh | hh
        · exact hc c hh
        · have : b < 256 := hi b (by rw [hin]; exact List.mem_cons_self _ _)
          omega
      · intro b' hb'
        exact hi b' (by rw [hin]; exact List.mem_cons_of_mem _ hb')
  case LoopStart t =>
    cases h
    exact ⟨hp, hc, hi⟩
  case LoopEnd t =>
    cases h
    exact ⟨hp, hc, hi⟩
  case IncPtr a =>
    unfold inc_ptr_by at h
    split at h
    · cases h
    · cases h
      refine ⟨by simpa using by omega, hc, hi⟩
  case DecPtr a =>
    unfold dec_ptr_by at h
    split at h
    · cases h
      refine ⟨by simpa using by omega, hc, hi⟩
    · cases h

lemma wfs_exec1 (M : Nat) (hM : 256 ≤ M) (i : Instruction) {s s' : IState}
    (hwf : WFInstr M i) (hws : WFS M s) (h : exec1 M i s = .ok s') : WFS M s' := by
  unfold exec1 at h
  split at h
  · cases h
  · cases hs : stepInstr M i s with
    | error es => rw [hs] at h; cases h
    | ok s₁ =>
      rw [hs] at h
      cases h
      have := wfs_stepInstr M hM i hwf hws hs
      exact ⟨this.1, this.2.1, this.2.2⟩

lemma fold_with_wf (M : Nat) (hM : 0 < M) {c n f : Instruction}
    (hwfc : WFInstr M c) (hwfn : WFInstr M n)
    (h : fold_with M c n = .Folded f) : WFInstr M f := by
  cases c <;> cases n <;>
    simp only [fold_with, tryNZ, wrapAdd, wrapSub, WFInstr] at h hwfc hwfn ⊢ <;>
    try cases h
  case Inc.Inc a b =>
    split at h
    · cases h
    · cases h
      exact ⟨by omega, Nat.mod_lt _ hM⟩
  case Dec.Dec a b =>
    split at h
    · cases h
    · cases h
      exact ⟨by omega, Nat.mod_lt _ hM⟩
  case Inc.Dec a s =>
    split at h <;> split at h <;> cases h <;>
      simp only [WFInstr] <;> omega
  case Dec.Inc s a =>
    split at h <;> split at h <;> cases h <;>
      simp only [WFInstr] <;> omega
  case IncPtr.IncPtr a b =>
    split at h <;> cases h
    simp only [WFInstr]
    omega
  case DecPtr.DecPtr a b =>
    split at h <;> cases h
    simp only [WFInstr]
    omega
  case IncPtr.DecPtr a s =>
    split at h <;> split at h <;> cases h <;>
      simp only [WFInstr] <;> omega
  case DecPtr.IncPtr s a =>
    split at h <;> split at h <;> cases h <;>
      simp only [WFInstr] <;> omega
  case Inc.Set a v => exact hwfn
  case Dec.Set a v => exact hwfn
  case Set.Set v w => exact hwfn
  case Set.Inc v a => exact Nat.mod_lt _ hM
  case Set.Dec v s => exact Nat.mod_lt _ hM

lemma wrapAdd_lt (M a b : Nat) (hM : 0 < M) : wrapAdd M a b < M := Nat.mod_lt _ hM

lemma wrapSub_lt (M a b : Nat) (hM : 0 < M) : wrapSub M a b < M := Nat.mod_lt _ hM

lemma zmod_wrapAdd (M a b : Nat) : ((wrapAdd M a b : Nat) : ZMod M) = (a : ZMod M) + b := by
  unfold wrapAdd
  rw [ZMod.natCast_mod]
  push_cast
  ring

lemma zmod_wrapSub (M a b : Nat) (hM : 0 < M) :
    ((wrapSub M a b : Nat) : ZMod M) = (a : ZMod M) - b := by
  unfold wrapSub
  rw [ZMod.natCast_mod, Nat.cast_add, Nat.cast_sub (Nat.le_of_lt (Nat.mod_lt _ hM)),
    ZMod.natCast_self, ZMod.natCast_mod]
  ring

lemma zmod_inj {M a b : Nat} (hM : 0 < M) (ha : a < M) (hb : b < M)
    (h : (a : ZMod M) = b) : a = b := by
  haveI : NeZero M := ⟨by omega⟩
  have h2 := congrArg ZMod.val h
  rwa [ZMod.val_cast_of_lt ha, ZMod.val_cast_of_lt hb] at h2

lemma wrapAdd_assoc (M c a b : Nat) (hM : 0 < M) :
    wrapAdd M (wrapAdd M c a) b = wrapAdd M c (wrapAdd M a b) := by
  refine zmod_inj hM (wrapAdd_lt M _ _ hM) (wrapAdd_lt M _ _ hM) ?_
  rw [zmod_wrapAdd, zmod_wrapAdd, zmod_wrapAdd, zmod_wrapAdd]
  ring

lemma wrapSub_sub (M c a b : Nat) (hM : 0 < M) :
    wrapSub M (wrapSub M c a) b = wrapSub M c (wrapAdd M a b) := by
  refine zmod_inj hM (wrapSub_lt M _ _ hM) (wrapSub_lt M _ _ hM) ?_
  rw [zmod_wrapSub _ _ _ hM, zmod_wrapSub _ _ _ hM, zmod_wrapSub _ _ _ hM, zmod_wrapAdd]
  ring

lemma wrapAdd_cancel (M c a b : Nat) (hM : 0 < M) (h0 : (a + b) % M = 0)
    (hc : c < M) : wrapAdd M (wrapAdd M c a) b = c := by
  refine zmod_inj hM (wrapAdd_lt M _ _ hM) hc ?_
  rw [zmod_wrapAdd, zmod_wrapAdd]
  have : ((a + b : Nat) : ZMod M) = 0 := by
    rw [← ZMod.natCast_mod, h0, Nat.cast_zero]
  push_cast at this
  have h2 : (a : ZMod M) + b = 0 := this
  calc (c : ZMod M) + a + b = c + (a + b) := by ring
  _ = c := by rw [h2, add_zero]

lemma wrapSub_cancel (M c a b : Nat) (hM : 0 < M) (h0 : (a + b) % M = 0)
    (hc : c < M) : wrapSub M (wrapSub M c a) b = c := by
  refine zmod_inj hM (wrapSub_lt M _ _ hM) hc ?_
  rw [zmod_wrapSub _ _ _ hM, zmod_wrapSub _ _ _ hM]
  have : ((a + b : Nat) : ZMod M) = 0 := by
    rw [← ZMod.natCast_mod, h0, Nat.cast_zero]
  push_cast at this
  have h2 : (a : ZMod M) + b = 0 := this
  calc (c : ZMod M) - a - b = c - (a + b) := by ring
  _ = c := by rw [h2, sub_zero]

lemma wrapAddSub_le (M c a s : Nat) (hM : 0 < M) (h : a ≤ s) :
    wrapSub M (wrapAdd M c a) s = wrapSub M c (s - a) := by
  refine zmod_inj hM (wrapSub_lt M _ _ hM) (wrapSub_lt M _ _ hM) ?_
  rw [zmod_wrapSub _ _ _ hM, zmod_wrapSub _ _ _ hM, zmod_wrapAdd, Nat.cast_sub h]
  ring

lemma wrapAddSub_ge (M c a s : Nat) (hM : 0 < M) (h : s ≤ a) :
    wrapSub M (wrapAdd M c a) s = wrapAdd M c (a - s) := by
  refine zmod_inj hM (wrapSub_lt M _ _ hM) (wrapAdd_lt M _ _ hM) ?_
  rw [zmod_wrapSub _ _ _ hM, zmod_wrapAdd, zmod_wrapAdd, Nat.cast_sub h]
  ring

lemma wrapSubAdd_le (M c a s : Nat) (hM : 0 < M) (h : a ≤ s) :
    wrapAdd M (wrapSub M c s) a = wrapSub M c (s - a) := by
  refine zmod_inj hM (wrapAdd_lt M _ _ hM) (wrapSub_lt M _ _ hM) ?_
  rw [zmod_wrapAdd, zmod_wrapSub _ _ _ hM, zmod_wrapSub _ _ _ hM, Nat.cast_sub h]
  ring

lemma wrapSubAdd_ge (M c a s : Nat) (hM : 0 < M) (h : s ≤ a) :
    wrapAdd M (wrapSub M c s) a = wrapAdd M c (a - s) := by
  refine zmod_inj hM (wrapAdd_lt M _ _ hM) (wrapAdd_lt M _ _ hM) ?_
  rw [zmod_wrapAdd, zmod_wrapSub _ _ _ hM, zmod_wrapAdd, Nat.cast_sub h]
  ring

lemma exec1_decomp {M : Nat} {i : Instruction} {s s' : IState}
    (h : exec1 M i s = .ok s') :
    s.left ≠ some 0 ∧ ∃ t, stepInstr M i s = .ok t ∧
      s' = { t with left := t.left.map (· - 1) } := by
  unfold exec1 at h
  split at h
  · cases h
  · rename_i hb
    refine ⟨hb, ?_⟩
    cases hs : stepInstr M i s with
    | error es => rw [hs] at h; cases h
    | ok t =>
      rw [hs] at h
      cases h
      exact ⟨t, rfl, rfl⟩

lemma exec1_mk {M : Nat} {i : Instruction} {s t : IState} (hb : s.left ≠ some 0)
    (hs : stepInstr M i s = .ok t) :
    exec1 M i s = .ok { t with left := t.left.map (· - 1) } := by
  unfold exec1
  rw [if_neg hb, hs]

lemma leftLE_dec2 (o : Option Nat) :
    leftLE ((o.map (· - 1)).map (· - 1)) (o.map (· - 1)) := by
  cases o <;> simp [leftLE]

lemma setCell_setCell (s : IState) (v w : Nat) :
    setCell (setCell s v) w = setCell s w := by
  simp [setCell, List.set_set]

lemma setCell_left (s : IState) (v : Nat) : (setCell s v).left = s.left := rfl

lemma setCell_ptr (s : IState) (v : Nat) : (setCell s v).ptr = s.ptr := rfl

lemma setCell_len (s : IState) (v : Nat) :
    (setCell s v).data.length = s.data.length := by
  simp [setCell]

lemma curCell_set {s : IState} (v : Nat) (h : s.ptr < s.data.length) :
    curCell (setCell s v) = v := by
  show (s.data.set s.ptr v).getD s.ptr 0 = v
  rw [List.getD_eq_getElem _ _ (by simpa using h), List.getElem_set_self]

lemma set_getD_self {l : List Nat} {p : Nat} :
    l.set p (l.getD p 0) = l := by
  by_cases hp : p < l.length
  · refine List.ext_getElem (by simp) ?_
    intro i h₁ h₂
    rw [List.getElem_set]
    split
    · rename_i hpi
      subst hpi
      rw [List.getD_eq_getElem _ _ hp]
    · rfl
  · rw [List.set_eq_of_length_le (by omega)]

lemma setCell_self {s : IState} : setCell s (curCell s) = s := by
  cases s
  simp only [setCell, curCell]
  rw [set_getD_self]

lemma obsEq_refl (a : IState) : obsEq a a := ⟨rfl, rfl, rfl, rfl⟩

lemma obsEq_symm {a b : IState} (h : obsEq a b) : obsEq b a :=
  ⟨h.1.symm, h.2.1.symm, h.2.2.1.symm, h.2.2.2.symm⟩

lemma obsEq_trans {a b c : IState} (h : obsEq a b) (h' : obsEq b c) : obsEq a c :=
  ⟨h.1.trans h'.1, h.2.1.trans h'.2.1, h.2.2.1.trans h'.2.2.1, h.2.2.2.trans h'.2.2.2⟩

lemma obsEq_left (a : IState) (A : Option Nat) : obsEq { a with left := A } a :=
  ⟨rfl, rfl, rfl, rfl⟩

lemma obsEq_of_eq {a b : IState} (h : a = b) : obsEq a b := h ▸ obsEq_refl a

lemma rel_of_obs {su so : IState} (h : obsEq su so) (hl : leftLE su.left so.left) :
    Rel su so := ⟨h.1.symm, h.2.1.symm, h.2.2.1.symm, h.2.2.2.symm, hl⟩

lemma obsEq_setCell {a b : IState} (h : obsEq a b) (v : Nat) :
    obsEq (setCell a v) (setCell b v) := by
  obtain ⟨h1, h2, h3, h4⟩ := h
  exact ⟨by simp [setCell, h1, h2], by simpa [setCell] using h2, h3, h4⟩

/-- Helper to read the observable fields of the two-step state out of the
record equation produced by the second step. -/
lemma obs_from_rec {t₂ : IState} {L : Option Nat} {A t' : IState}
    (h : A = { t₂ with left := L })
    (hd : A.data = t'.data) (hp : A.ptr = t'.ptr) (hi : A.input = t'.input)
    (ho : A.output = t'.output) : obsEq t₂ t' := by
  subst h
  exact ⟨hd, hp, hi, ho⟩

lemma leftLE_dec2_id (o : Option Nat) :
    leftLE ((o.map (· - 1)).map (· - 1)) o := by
  cases o with
  | none => simp [leftLE]
  | some v =>
    show v - 1 - 1 ≤ v
    omega

lemma wrapAddSub_cancel (M c a : Nat) (hM : 0 < M) (hc : c < M) :
    wrapSub M (wrapAdd M c a) a = c := by
  refine zmod_inj hM (wrapSub_lt M _ _ hM) hc ?_
  rw [zmod_wrapSub _ _ _ hM, zmod_wrapAdd]
  ring

lemma wrapSubAdd_cancel (M c a : Nat) (hM : 0 < M) (hc : c < M) :
    wrapAdd M (wrapSub M c a) a = c := by
  refine zmod_inj hM (wrapAdd_lt M _ _ hM) hc ?_
  rw [zmod_wrapAdd, zmod_wrapSub _ _ _ hM]
  ring

/-- The merge correctness of one fold step: executing the two original
instructions (with their two budget ticks) from a well-formed state is
simulated by executing the folded instruction (one budget tick), and a
cancelled pair is simulated by doing nothing. -/
lemma exec2_fold (M : Nat) (hM : 256 ≤ M) {c n : Instruction} {s s₁ s₂ : IState}
    (hwfc : WFInstr M c) (hwfn : WFInstr M n) (hws : WFS M s)
    (h1 : exec1 M c s = .ok s₁) (h2 : exec1 M n s₁ = .ok s₂) :
    (∀ f, fold_with M c n = .Folded f → ∃ s', exec1 M f s = .ok s' ∧ Rel s₂ s') ∧
    (fold_with M c n = .NoOp → Rel s₂ s) := by
  have hM0 : 0 < M := by omega
  obtain ⟨hb1, t₁, hst1, hs₁⟩ := exec1_decomp h1
  obtain ⟨hb2, t₂, hst2, hs₂⟩ := exec1_decomp h2
  have hptr : s.ptr < s.data.length := hws.1
  have hcell : curCell s < M := by
    unfold curCell
    rw [List.getD_eq_getElem _ _ hptr]
    exact hws.2.1 _ (List.getElem_mem _)
  have ht₁l : t₁.left = s.left := (stepInstr_preserves_left M c s).1 t₁ hst1
  have ht₂l : t₂.left = s.left.map (· - 1) := by
    have hh := (stepInstr_preserves_left M n s₁).1 t₂ hst2
    rw [hh, hs₁]
    simp [ht₁l]
  have hst2' : stepInstr M n t₁ = .ok { t₂ with left := t₁.left } := by
    have hsub := stepInstr_left_subst M n t₁ (t₁.left.map (· - 1))
    rw [← hs₁, hst2] at hsub
    cases ht : stepInstr M n t₁ with
    | error es =>
      rw [ht] at hsub
      obtain ⟨e, u⟩ := es
      cases hsub
    | ok u =>
      rw [ht] at hsub
      injection hsub with hh
      have hul : u.left = t₁.left := (stepInstr_preserves_left M n t₁).1 u ht
      rw [hh]
      cases u
      simp at hul ⊢
      exact hul
  have hobs₂ : obsEq s₂ t₂ := hs₂ ▸ obsEq_left _ _
  have hleft₂ : s₂.left = (s.left.map (· - 1)).map (· - 1) := by
    rw [hs₂]
    simp [ht₂l]
  have build : ∀ (f : Instruction) (t' : IState), stepInstr M f s = .ok t' →
      t'.left = s.left → obsEq t₂ t' →
      ∃ s', exec1 M f s = .ok s' ∧ Rel s₂ s' := by
    intro f t' hstf htl hobs
    refine ⟨{ t' with left := t'.left.map (· - 1) }, exec1_mk hb1 hstf, ?_⟩
    refine rel_of_obs
      (obsEq_trans (obsEq_trans hobs₂ hobs) (obsEq_symm (obsEq_left _ _))) ?_
    rw [hleft₂]
    simp only [htl]
    exact leftLE_dec2 s.left
  have buildNoOp : obsEq t₂ s → Rel s₂ s := by
    intro hobs
    refine rel_of_obs (obsEq_trans hobs₂ hobs) ?_
    rw [hleft₂]
    exact leftLE_dec2_id s.left
  constructor
  · intro f hf
    cases c <;> cases n <;> simp only [fold_with, tryNZ] at hf <;> try cases hf
    case Inc.Inc a b =>
      split at hf
      · cases hf
      · cases hf
        simp only [stepInstr] at hst1
        cases hst1
        simp only [stepInstr] at hst2'
        injection hst2' with h22
        refine build _ (setCell s (wrapAdd M (curCell s) (wrapAdd M a b))) rfl rfl
          (obs_from_rec h22 ?_ ?_ ?_ ?_) <;>
          rw [setCell_setCell, curCell_set _ hptr, wrapAdd_assoc _ _ _ _ hM0]
    case Dec.Dec a b =>
      split at hf
      · cases hf
      · cases hf
        simp only [stepInstr] at hst1
        cases hst1
        simp only [stepInstr] at hst2'
        injection hst2' with h22
        refine build _ (setCell s (wrapSub M (curCell s) (wrapAdd M a b))) rfl rfl
          (obs_from_rec h22 ?_ ?_ ?_ ?_) <;>
          rw [setCell_setCell, curCell_set _ hptr, wrapSub_sub _ _ _ _ hM0]
    case Inc.Dec a sb =>
      simp only [stepInstr] at hst1
      cases hst1
      simp only [stepInstr] at hst2'
      injection hst2' with h22
      split at hf
      · rename_i hgt
        split at hf
        · cases hf
        · cases hf
          refine build _ (setCell s (wrapSub M (curCell s) (sb - a))) rfl rfl
            (obs_from_rec h22 ?_ ?_ ?_ ?_) <;>
            rw [setCell_setCell, curCell_set _ hptr,
              wrapAddSub_le M _ a sb hM0 (by omega)]
      · rename_i hle
        split at hf
        · cases hf
        · cases hf
          refine build _ (setCell s (wrapAdd M (curCell s) (a - sb))) rfl rfl
            (obs_from_rec h22 ?_ ?_ ?_ ?_) <;>
            rw [setCell_setCell, curCell_set _ hptr,
              wrapAddSub_ge M _ a sb hM0 (by omega)]
    case Dec.Inc sb a =>
      simp only [stepInstr] at hst1
      cases hst1
      simp only [stepInstr] at hst2'
      injection hst2' with h22
      split at hf
      · rename_i hgt
        split at hf
        · cases hf
        · cases hf
          refine build _ (setCell s (wrapSub M (curCell s) (sb - a))) rfl rfl
            (obs_from_rec h22 ?_ ?_ ?_ ?_) <;>
            rw [setCell_setCell, curCell_set _ hptr,
              wrapSubAdd_le M _ a sb hM0 (by omega)]
      · rename_i hle
        split at hf
        · cases hf
        · cases hf
          refine build _ (setCell s (wrapAdd M (curCell s) (a - sb))) rfl rfl
            (obs_from_rec h22 ?_ ?_ ?_ ?_) <;>
            rw [setCell_setCell, curCell_set _ hptr,
              wrapSubAdd_ge M _ a sb hM0 (by omega)]
    case Inc.Set.refl =>
      rename_i a v
      simp only [stepInstr] at hst1
      cases hst1
      simp only [stepInstr] at hst2'
      injection hst2' with h22
      refine build _ (setCell s v) rfl rfl (obs_from_rec h22 ?_ ?_ ?_ ?_) <;>
        rw [setCell_setCell]
    case Dec.Set.refl =>
      rename_i a v
      simp only [stepInstr] at hst1
      cases hst1
      simp only [stepInstr] at hst2'
      injection hst2' with h22
      refine build _ (setCell s v) rfl rfl (obs_from_rec h22 ?_ ?_ ?_ ?_) <;>
        rw [setCell_setCell]
    case Set.Set.refl =>
      rename_i w v
      simp only [stepInstr] at hst1
      cases hst1
      simp only [stepInstr] at hst2'
      injection hst2' with h22
      refine build _ (setCell s v) rfl rfl (obs_from_rec h22 ?_ ?_ ?_ ?_) <;>
        rw [setCell_setCell]
    case Set.Inc.refl =>
      rename_i v a
      simp only [stepInstr] at hst1
      cases hst1
      simp only [stepInstr] at hst2'
      injection hst2' with h22
      refine build _ (setCell s (wrapAdd M v a)) rfl rfl
        (obs_from_rec h22 ?_ ?_ ?_ ?_) <;>
        rw [setCell_setCell, curCell_set _ hptr]
    case Set.Dec.refl =>
      rename_i v a
      simp only [stepInstr] at hst1
      cases hst1
      simp only [stepInstr] at hst2'
      injection hst2' with h22
      refine build _ (setCell s (wrapSub M v a)) rfl rfl
        (obs_from_rec h22 ?_ ?_ ?_ ?_) <;>
        rw [setCell_setCell, curCell_set _ hptr]
    case IncPtr.IncPtr a b =>
      split at hf
      · cases hf
        simp only [stepInstr] at hst1
        unfold inc_ptr_by at hst1
        split at hst1
        · cases hst1
        · rename_i hc1
          cases hst1
          simp only [stepInstr] at hst2'
          unfold inc_ptr_by at hst2'
          split at hst2'
          · cases hst2'
          · rename_i hc2
            injection hst2' with h22
            simp only at hc2
            have hstf : stepInstr M (.IncPtr (a + b)) s =
                .ok { s with ptr := s.ptr + (a + b) } := by
              simp only [stepInstr]
              unfold inc_ptr_by
              rw [if_neg (by omega)]
            refine build _ { s with ptr := s.ptr + (a + b) } hstf rfl
              (obs_from_rec h22 rfl ?_ rfl rfl)
            simp only []
            omega
      · cases hf
    case DecPtr.DecPtr a b =>
      split at hf
      · cases hf
        simp only [stepInstr] at hst1
        unfold dec_ptr_by at hst1
        split at hst1
        · rename_i hc1
          cases hst1
          simp only [stepInstr] at hst2'
          unfold dec_ptr_by at hst2'
          split at hst2'
          · rename_i hc2
            injection hst2' with h22
            simp only at hc2
            have hstf : stepInstr M (.DecPtr (a + b)) s =
                .ok { s with ptr := s.ptr - (a + b) } := by
              simp only [stepInstr]
              unfold dec_ptr_by
              rw [if_pos (by omega)]
            refine build _ { s with ptr := s.ptr - (a + b) } hstf rfl
              (obs_from_rec h22 rfl ?_ rfl rfl)
            simp only []
            omega
          · cases hst2'
        · cases hst1
      · cases hf
    case IncPtr.DecPtr a sb =>
      simp only [stepInstr] at hst1
      unfold inc_ptr_by at hst1
      split at hst1
      · cases hst1
      · rename_i hc1
        cases hst1
        simp only [stepInstr] at hst2'
        unfold dec_ptr_by at hst2'
        split at hst2'
        · rename_i hc2
          injection hst2' with h22
          simp only at hc1 hc2
          split at hf
          · rename_i hgt
            split at hf
            · cases hf
            · cases hf
              have hstf : stepInstr M (.DecPtr (sb - a)) s =
                  .ok { s with ptr := s.ptr - (sb - a) } := by
                simp only [stepInstr]
                unfold dec_ptr_by
                rw [if_pos (by omega)]
              refine build _ { s with ptr := s.ptr - (sb - a) } hstf rfl
                (obs_from_rec h22 rfl ?_ rfl rfl)
              simp only []
              omega
          · rename_i hle
            split at hf
            · cases hf
            · cases hf
              have hstf : stepInstr M (.IncPtr (a - sb)) s =
                  .ok { s with ptr := s.ptr + (a - sb) } := by
                simp only [stepInstr]
                unfold inc_ptr_by
                rw [if_neg (by omega)]
              refine build _ { s with ptr := s.ptr + (a - sb) } hstf rfl
                (obs_from_rec h22 rfl ?_ rfl rfl)
              simp only []
              omega
        · cases hst2'
    case DecPtr.IncPtr sb a =>
      simp only [stepInstr] at hst1
      unfold dec_ptr_by at hst1
      split at hst1
      · rename_i hc1
        cases hst1
        simp only [stepInstr] at hst2'
        unfold inc_ptr_by at hst2'
        split at hst2'
        · cases hst2'
        · rename_i hc2
          injection hst2' with h22
          simp only at hc1 hc2
          split at hf
          · rename_i hgt
            split at hf
            · cases hf
            · cases hf
              have hstf : stepInstr M (.DecPtr (sb - a)) s =
                  .ok { s with ptr := s.ptr - (sb - a) } := by
                simp only [stepInstr]
                unfold dec_ptr_by
                rw [if_pos (by omega)]
              refine build _ { s with ptr := s.ptr - (sb - a) } hstf rfl
                (obs_from_rec h22 rfl ?_ rfl rfl)
              simp only []
              omega
          · rename_i hle
            split at hf
            · cases hf
            · cases hf
              have hstf : stepInstr M (.IncPtr (a - sb)) s =
                  .ok { s with ptr := s.ptr + (a - sb) } := by
                simp only [stepInstr]
                unfold inc_ptr_by
                rw [if_neg (by omega)]
              refine build _ { s with ptr := s.ptr + (a - sb) } hstf rfl
                (obs_from_rec h22 rfl ?_ rfl rfl)
              simp only []
              omega
      · cases hst1
  · intro hf
    cases c <;> cases n <;> simp only [fold_with, tryNZ] at hf <;> try cases hf
    case Inc.Inc a b =>
      split at hf
      · rename_i h0
        simp only [stepInstr] at hst1
        cases hst1
        simp only [stepInstr] at hst2'
        injection hst2' with h22
        refine buildNoOp (obs_from_rec h22 ?_ ?_ ?_ ?_) <;>
          rw [setCell_setCell, curCell_set _ hptr,
            wrapAdd_cancel M _ a b hM0 h0 hcell, setCell_self]
      · cases hf
    case Dec.Dec a b =>
      split at hf
      · rename_i h0
        simp only [stepInstr] at hst1
        cases hst1
        simp only [stepInstr] at hst2'
        injection hst2' with h22
        refine buildNoOp (obs_from_rec h22 ?_ ?_ ?_ ?_) <;>
          rw [setCell_setCell, curCell_set _ hptr,
            wrapSub_cancel M _ a b hM0 h0 hcell, setCell_self]
      · cases hf
    case Inc.Dec a sb =>
      simp only [stepInstr] at hst1
      cases hst1
      simp only [stepInstr] at hst2'
      injection hst2' with h22
      split at hf
      · rename_i hgt
        split at hf
        · rename_i h0
          omega
        · cases hf
      · rename_i hle
        split at hf
        · rename_i h0
          have hab : a = sb := by omega
          subst hab
          refine buildNoOp (obs_from_rec h22 ?_ ?_ ?_ ?_) <;>
            rw [setCell_setCell, curCell_set _ hptr,
              wrapAddSub_cancel M _ a hM0 hcell, setCell_self]
        · cases hf
    case Dec.Inc sb a =>
      simp only [stepInstr] at hst1
      cases hst1
      simp only [stepInstr] at hst2'
      injection hst2' with h22
      split at hf
      · rename_i hgt
        split at hf
        · rename_i h0
          omega
        · cases hf
      · rename_i hle
        split at hf
        · rename_i h0
          have hab : a = sb := by omega
          subst hab
          refine buildNoOp (obs_from_rec h22 ?_ ?_ ?_ ?_) <;>
            rw [setCell_setCell, curCell_set _ hptr,
              wrapSubAdd_cancel M _ a hM0 hcell, setCell_self]
        · cases hf
    case IncPtr.IncPtr a b =>
      split at hf <;> cases hf
    case DecPtr.DecPtr a b =>
      split at hf <;> cases hf
    case IncPtr.DecPtr a sb =>
      simp only [stepInstr] at hst1
      unfold inc_ptr_by at hst1
      split at hst1
      · cases hst1
      · rename_i hc1
        cases hst1
        simp only [stepInstr] at hst2'
        unfold dec_ptr_by at hst2'
        split at hst2'
        · rename_i hc2
          injection hst2' with h22
          simp only at hc1 hc2
          split at hf
          · rename_i hgt
            split at hf
            · rename_i h0
              omega
            · cases hf
          · rename_i hle
            split at hf
            · rename_i h0
              refine buildNoOp (obs_from_rec h22 rfl ?_ rfl rfl)
              simp only []
              omega
            · cases hf
        · cases hst2'
    case DecPtr.IncPtr sb a =>
      simp only [stepInstr] at hst1
      unfold dec_ptr_by at hst1
      split at hst1
      · rename_i hc1
        cases hst1
        simp only [stepInstr] at hst2'
        unfold inc_ptr_by at hst2'
        split at hst2'
        · cases hst2'
        · rename_i hc2
          injection hst2' with h22
          simp only at hc1 hc2
          split at hf
          · rename_i hgt
            split at hf
            · rename_i h0
              omega
            · cases hf
          · rename_i hle
            split at hf
            · rename_i h0
              refine buildNoOp (obs_from_rec h22 rfl ?_ rfl rfl)
              simp only []
              omega
            · cases hf
      · cases hst1

/-! ## Code motion lemmas for the straight-line simulation -/

lemma straightRun_cons_ok {M : Nat} {i : Instruction} {rest : List Instruction}
    {s tu : IState} (h : straightRun M (i :: rest) s = .ok tu) :
    ∃ s₁, exec1 M i s = .ok s₁ ∧ straightRun M rest s₁ = .ok tu := by
  unfold straightRun at h
  cases he : exec1 M i s with
  | error es =>
    obtain ⟨e, s'⟩ := es
    rw [he] at h
    cases h
  | ok s₁ =>
    rw [he] at h
    exact ⟨s₁, rfl, h⟩

lemma straightRun_cons_of_exec1 {M : Nat} {i : Instruction}
    (rest : List Instruction) {s s₁ : IState} (h : exec1 M i s = .ok s₁) :
    straightRun M (i :: rest) s = straightRun M rest s₁ := by
  simp only [straightRun]
  rw [h]

lemma WFProg_nil {M : Nat} : WFProg M [] := by
  intro i hi
  cases hi

lemma WFProg_cons {M : Nat} {a : Instruction} {l : List Instruction}
    (h : WFInstr M a) (hl : WFProg M l) : WFProg M (a :: l) := by
  intro i hi
  rcases List.mem_cons.1 hi with rfl | hi'
  · exact h
  · exact hl i hi'

lemma WFProg_head {M : Nat} {a : Instruction} {l : List Instruction}
    (h : WFProg M (a :: l)) : WFInstr M a := h a (by simp)

lemma WFProg_tail {M : Nat} {a : Instruction} {l : List Instruction}
    (h : WFProg M (a :: l)) : WFProg M l := fun i hi => h i (by simp [hi])

lemma LoopFree_nil : LoopFree [] := by
  intro i hi
  cases hi

lemma LoopFree_cons {a : Instruction} {l : List Instruction}
    (h : isLoopInstr a = false) (hl : LoopFree l) : LoopFree (a :: l) := by
  intro i hi
  rcases List.mem_cons.1 hi with rfl | hi'
  · exact h
  · exact hl i hi'

lemma LoopFree_head {a : Instruction} {l : List Instruction}
    (h : LoopFree (a :: l)) : isLoopInstr a = false := h a (by simp)

lemma LoopFree_tail {a : Instruction} {l : List Instruction}
    (h : LoopFree (a :: l)) : LoopFree l := fun i hi => h i (by simp [hi])

/-- Simulation of one read-cursor/write-cursor folding scan: a successful
straight-line run of `c :: rest` is simulated by a straight-line run of
`foldGo M c rest`, ending in an observably equal state with at least as much
budget left. -/
lemma foldGo_sim (M : Nat) (hM : 256 ≤ M) (c : Instruction)
    (rest : List Instruction) :
    ∀ {s tu : IState}, WFInstr M c → WFProg M rest → WFS M s →
      straightRun M (c :: rest) s = .ok tu →
      ∃ t2, straightRun M (foldGo M c rest) s = .ok t2 ∧ Rel tu t2 := by
  induction c, rest using foldGo.induct M with
  | case1 c =>
    intro s tu _ _ _ hrun
    exact ⟨tu, hrun, Rel_refl tu⟩
  | case2 c next f hFold =>
    intro s tu hwfc hwfn hws hrun
    obtain ⟨s₁, he1, hr1⟩ := straightRun_cons_ok hrun
    obtain ⟨s₂, he2, hr2⟩ := straightRun_cons_ok hr1
    simp only [straightRun] at hr2
    cases hr2
    obtain ⟨s', he', hrel⟩ :=
      (exec2_fold M hM hwfc (WFProg_head hwfn) hws he1 he2).1 f hFold
    refine ⟨s', ?_, hrel⟩
    rw [foldGo_one, hFold]
    rw [straightRun_cons_of_exec1 _ he']
    rfl
  | case3 c next hFold =>
    intro s tu hwfc hwfn hws hrun
    obtain ⟨s₁, he1, hr1⟩ := straightRun_cons_ok hrun
    obtain ⟨s₂, he2, hr2⟩ := straightRun_cons_ok hr1
    simp only [straightRun] at hr2
    cases hr2
    have hrel := (exec2_fold M hM hwfc (WFProg_head hwfn) hws he1 he2).2 hFold
    refine ⟨s, ?_, hrel⟩
    rw [foldGo_one, hFold]
    rfl
  | case4 c next hFold =>
    intro s tu _ _ _ hrun
    refine ⟨tu, ?_, Rel_refl tu⟩
    rw [foldGo_one, hFold]
    exact hrun
  | case5 c next y r f hFold ih =>
    intro s tu hwfc hwfn hws hrun
    obtain ⟨s₁, he1, hr1⟩ := straightRun_cons_ok hrun
    obtain ⟨s₂, he2, hr2⟩ := straightRun_cons_ok hr1
    obtain ⟨s', he', hrel⟩ :=
      (exec2_fold M hM hwfc (WFProg_head hwfn) hws he1 he2).1 f hFold
    obtain ⟨t2, hr2', hrel2⟩ := straightRun_sim M (y :: r) hrel hr2
    have hfsr : straightRun M (f :: y :: r) s = .ok t2 := by
      rw [straightRun_cons_of_exec1 _ he']
      exact hr2'
    obtain ⟨t3, hr3, hrel3⟩ := ih (fold_with_wf M (by omega) hwfc (WFProg_head hwfn) hFold)
      (WFProg_tail hwfn) hws hfsr
    refine ⟨t3, ?_, Rel_trans hrel2 hrel3⟩
    rw [foldGo_cons, hFold]
    exact hr3
  | case6 c next y r hFold ih =>
    intro s tu hwfc hwfn hws hrun
    obtain ⟨s₁, he1, hr1⟩ := straightRun_cons_ok hrun
    obtain ⟨s₂, he2, hr2⟩ := straightRun_cons_ok hr1
    have hrel := (exec2_fold M hM hwfc (WFProg_head hwfn) hws he1 he2).2 hFold
    obtain ⟨t2, hr2', hrel2⟩ := straightRun_sim M (y :: r) hrel hr2
    obtain ⟨t3, hr3, hrel3⟩ := ih (WFProg_head (WFProg_tail hwfn))
      (WFProg_tail (WFProg_tail hwfn)) hws hr2'
    refine ⟨t3, ?_, Rel_trans hrel2 hrel3⟩
    rw [foldGo_cons, hFold]
    exact hr3
  | case7 c next y r hFold ih =>
    intro s tu hwfc hwfn hws hrun
    obtain ⟨s₁, he1, hr1⟩ := straightRun_cons_ok hrun
    obtain ⟨t2, hr2, hrel2⟩ := ih (WFProg_head hwfn) (WFProg_tail hwfn)
      (wfs_exec1 M hM c hwfc hws he1) hr1
    refine ⟨t2, ?_, hrel2⟩
    rw [foldGo_cons, hFold]
    rw [straightRun_cons_of_exec1 _ he1]
    exact hr2

/-- Simulation of one full `fold_like` pass. -/
lemma fold_like_sim (M : Nat) (hM : 256 ≤ M) (l : List Instruction)
    {s tu : IState} (hwf : WFProg M l) (hws : WFS M s)
    (h : straightRun M l s = .ok tu) :
    ∃ t2, straightRun M (fold_like M l) s = .ok t2 ∧ Rel tu t2 := by
  cases l with
  | nil =>
    simp only [straightRun] at h
    cases h
    exact ⟨s, rfl, Rel_refl s⟩
  | cons c rest =>
    exact foldGo_sim M hM c rest (WFProg_head hwf) (WFProg_tail hwf) hws h

/-- A folded instruction is never a loop instruction. -/
lemma fold_with_notLoop (M : Nat) {c n f : Instruction}
    (h : fold_with M c n = .Folded f) : isLoopInstr f = false := by
  cases c <;> cases n <;> simp only [fold_with, tryNZ] at h <;> try cases h
  all_goals try rfl
  all_goals ((split at h <;> try split at h) <;> cases h <;> try rfl)

lemma foldGo_loopFree (M : Nat) (c : Instruction) (l : List Instruction) :
    isLoopInstr c = false → LoopFree l → LoopFree (foldGo M c l) := by
  induction c, l using foldGo.induct M with
  | case1 c =>
    intro hc _
    rw [foldGo_nil]
    exact LoopFree_cons hc LoopFree_nil
  | case2 c next f hFold =>
    intro _ _
    rw [foldGo_one, hFold]
    exact LoopFree_cons (fold_with_notLoop M hFold) LoopFree_nil
  | case3 c next hFold =>
    intro _ _
    rw [foldGo_one, hFold]
    exact LoopFree_nil
  | case4 c next hFold =>
    intro hc hn
    rw [foldGo_one, hFold]
    exact LoopFree_cons hc hn
  | case5 c next y r f hFold ih =>
    intro _ hn
    rw [foldGo_cons, hFold]
    exact ih (fold_with_notLoop M hFold) (LoopFree_tail hn)
  | case6 c next y r hFold ih =>
    intro _ hn
    rw [foldGo_cons, hFold]
    exact ih (LoopFree_head (LoopFree_tail hn)) (LoopFree_tail (LoopFree_tail hn))
  | case7 c next y r hFold ih =>
    intro hc hn
    rw [foldGo_cons, hFold]
    exact LoopFree_cons hc (ih (LoopFree_head hn) (LoopFree_tail hn))

lemma fold_like_loopFree (M : Nat) {l : List Instruction} (h : LoopFree l) :
    LoopFree (fold_like M l) := by
  cases l with
  | nil => exact LoopFree_nil
  | cons c rest => exact foldGo_loopFree M c rest (LoopFree_head h) (LoopFree_tail h)

lemma foldGo_wf (M : Nat) (hM : 0 < M) (c : Instruction) (l : List Instruction) :
    WFInstr M c → WFProg M l → WFProg M (foldGo M c l) := by
  induction c, l using foldGo.induct M with
  | case1 c =>
    intro hc _
    rw [foldGo_nil]
    exact WFProg_cons hc WFProg_nil
  | case2 c next f hFold =>
    intro hc hn
    rw [foldGo_one, hFold]
    exact WFProg_cons (fold_with_wf M hM hc (WFProg_head hn) hFold) WFProg_nil
  | case3 c next hFold =>
    intro _ _
    rw [foldGo_one, hFold]
    exact WFProg_nil
  | case4 c next hFold =>
    intro hc hn
    rw [foldGo_one, hFold]
    exact WFProg_cons hc hn
  | case5 c next y r f hFold ih =>
    intro hc hn
    rw [foldGo_cons, hFold]
    exact ih (fold_with_wf M hM hc (WFProg_head hn) hFold) (WFProg_tail hn)
  | case6 c next y r hFold ih =>
    intro _ hn
    rw [foldGo_cons, hFold]
    exact ih (WFProg_head (WFProg_tail hn)) (WFProg_tail (WFProg_tail hn))
  | case7 c next y r hFold ih =>
    intro hc hn
    rw [foldGo_cons, hFold]
    exact WFProg_cons hc (ih (WFProg_head hn) (WFProg_tail hn))

lemma fold_like_wf (M : Nat) (hM : 0 < M) {l : List Instruction}
    (h : WFProg M l) : WFProg M (fold_like M l) := by
  cases l with
  | nil => exact WFProg_nil
  | cons c rest => exact foldGo_wf M hM c rest (WFProg_head h) (WFProg_tail h)

/-- On a loop-free stream the zero-loop pass copies everything unchanged. -/
lemma recognize_zeroings_id (l : List Instruction) (h : LoopFree l) :
    recognize_zeroings l = l := by
  induction l using recognize_zeroings.induct with
  | case1 t u rest ih =>
    have := h (.LoopStart t) (by simp)
    simp [isLoopInstr, isLoopStart] at this
  | case2 t a u rest ha ih =>
    have := h (.LoopStart t) (by simp)
    simp [isLoopInstr, isLoopStart] at this
  | case3 t u rest ih =>
    have := h (.LoopStart t) (by simp)
    simp [isLoopInstr, isLoopStart] at this
  | case4 t a u rest ha ih =>
    have := h (.LoopStart t) (by simp)
    simp [isLoopInstr, isLoopStart] at this
  | case5 x rest h1 h2 ih =>
    have hz : zHit (x :: rest) = false := by
      cases x <;> try rfl
      case LoopStart t =>
        have := h (.LoopStart t) (by simp)
        simp [isLoopInstr, isLoopStart] at this
    rw [rz_cons_false x rest hz, ih (LoopFree_tail h)]
  | case6 => rfl

/-- On a loop-free array the jump scan never touches the array or the
stack, so resolution succeeds and returns the array unchanged. -/
lemma jumpAux_loopFree (l : List Instruction) (hLF : LoopFree l) :
    ∀ (fuel idx : Nat), jumpAux l fuel idx [] = .ok l := by
  intro fuel
  induction fuel with
  | zero =>
    intro idx
    rw [jumpAux_zero]
    rfl
  | succ fuel ih =>
    intro idx
    by_cases hk : idx < l.length
    · rw [jumpAux_succ_other l fuel idx [] hk ?_ ?_]
      · exact ih (idx + 1)
      · intro t ht
        have := hLF _ (List.getElem_mem hk)
        rw [ht] at this
        simp [isLoopInstr, isLoopStart] at this
      · intro t ht
        have := hLF _ (List.getElem_mem hk)
        rw [ht] at this
        simp [isLoopInstr, isLoopEnd] at this
    · rw [jumpAux_succ, dif_neg hk]
      rfl

lemma insert_bf_jump_points_loopFree {l : List Instruction} (h : LoopFree l) :
    insert_bf_jump_points l = .ok l :=
  jumpAux_loopFree l h l.length 0

/-- What `optimize` computes on a loop-free program: two folding passes, no
zero-loop rewriting, jump resolution as the identity. -/
lemma optimize_loopFree (M : Nat) (l : List Instruction) (h : LoopFree l) :
    optimize M l = .ok (fold_like M (fold_like M l),
      max (sumIncPtr (fold_like M (fold_like M l))) MIN_ARRAY_SIZE) := by
  unfold optimize
  rw [recognize_zeroings_id _ (fold_like_loopFree M h),
    insert_bf_jump_points_loopFree (fold_like_loopFree M (fold_like_loopFree M h))]

/-- On a loop-free program, the interpreter loop with enough gas agrees with
straight-line execution of the instruction list. -/
lemma runAux_straight (M : Nat) (prog : List Instruction) (hLF : LoopFree prog) :
    ∀ (gas k : Nat) (s : IState), prog.length ≤ k + gas →
      runAux M prog gas k s = straightRun M (prog.drop k) s := by
  intro gas
  induction gas with
  | zero =>
    intro k s hg
    simp only [runAux]
    rw [if_neg (by omega), List.drop_eq_nil_of_le (by omega)]
    rfl
  | succ gas ih =>
    intro k s hg
    by_cases hk : k < prog.length
    · have hdrop : prog.drop k = prog[k] :: prog.drop (k + 1) :=
        List.drop_eq_getElem_cons hk
      have hget : prog.getD k .Write = prog[k] := List.getD_eq_getElem _ _ hk
      have hnl : isLoopInstr prog[k] = false := hLF _ (List.getElem_mem hk)
      rw [hdrop]
      simp only [runAux]
      rw [if_pos hk]
      by_cases hb : s.left = some 0
      · rw [if_pos hb]
        simp only [straightRun]
        rw [show exec1 M prog[k] s = .error (.NotEnoughInstructions, s) from by
          unfold exec1; exact if_pos hb]
      · rw [if_neg hb]
        have hstep : step M prog k s =
            (match stepInstr M prog[k] s with
              | .ok s' => StepOut.next (k + 1) s'
              | .error (e, s') => .fail e s') := by
          unfold step
          rw [hget]
          cases hpk : prog[k] <;> try rfl
          · rw [hpk] at hnl
            simp [isLoopInstr, isLoopStart] at hnl
          · rw [hpk] at hnl
            simp [isLoopInstr, isLoopEnd] at hnl
        rw [hstep]
        simp only [straightRun]
        cases hsi : stepInstr M prog[k] s with
        | error es =>
          obtain ⟨e, s'⟩ := es
          rw [show exec1 M prog[k] s = .error (e, s') from by
            unfold exec1; rw [if_neg hb, hsi]]
        | ok s' =>
          rw [show exec1 M prog[k] s = .ok { s' with left := s'.left.map (· - 1) } from by
            unfold exec1; rw [if_neg hb, hsi]]
          exact ih (k + 1) _ (by omega)
    · simp only [runAux]
      rw [if_neg hk, List.drop_eq_nil_of_le (by omega)]
      rfl

lemma run_straight (M : Nat) (prog : List Instruction) (hLF : LoopFree prog)
    (gas : Nat) (s : IState) (hg : prog.length ≤ gas)
    (hp : s.ptr < s.data.length) :
    run M prog gas s = straightRun M prog s := by
  unfold run
  rw [if_neg (by omega)]
  simpa using runAux_straight M prog hLF gas 0 s (by omega)

/-! ## Basic facts about trees, flattening and erasure -/

lemma flatL_nil (off : Nat) : flatL off [] = [] := by simp [flatL]

lemma flatL_act (off : Nat) (i : Instruction) (rest : List Node) :
    flatL off (.act i :: rest) = i :: flatL (off + 1) rest := by simp [flatL]

lemma flatL_block (off : Nat) (b rest : List Node) :
    flatL off (.block b :: rest) =
      .LoopStart (off + 1 + lenL b) ::
        (flatL (off + 1) b ++ .LoopEnd off :: flatL (off + 2 + lenL b) rest) := by
  simp [flatL]

lemma flatE_nil : flatE [] = [] := by simp [flatE]

lemma flatE_act (i : Instruction) (rest : List Node) :
    flatE (.act i :: rest) = i :: flatE rest := by simp [flatE]

lemma flatE_block (b rest : List Node) :
    flatE (.block b :: rest) = .LoopStart 0 :: (flatE b ++ .LoopEnd 0 :: flatE rest) := by
  simp [flatE]

lemma flatL_length (off : Nat) (F : List Node) : (flatL off F).length = lenL F := by
  induction off, F using flatL.induct with
  | case1 off => simp [flatL_nil, lenL]
  | case2 off i rest ih =>
    rw [flatL_act]
    simp only [List.length_cons, lenL, ih]
    omega
  | case3 off b rest ih1 ih2 =>
    rw [flatL_block]
    simp only [List.length_cons, List.length_append, lenL, ih1, ih2]
    omega

lemma flatE_length (F : List Node) : (flatE F).length = lenL F := by
  induction F using flatE.induct with
  | case1 => simp [flatE_nil, lenL]
  | case2 i rest ih =>
    rw [flatE_act]
    simp only [List.length_cons, lenL, ih]
    omega
  | case3 b rest ih1 ih2 =>
    rw [flatE_block]
    simp only [List.length_cons, List.length_append, lenL, ih1, ih2]
    omega

lemma er_length (l : List Instruction) : (er l).length = l.length := by simp [er]

lemma er_nil : er [] = [] := rfl

lemma er_cons (i : Instruction) (l : List Instruction) : er (i :: l) = eri i :: er l := rfl

lemma er_append (a b : List Instruction) : er (a ++ b) = er a ++ er b := by simp [er]

lemma eri_nonloop {i : Instruction} (h : isLoopInstr i = false) : eri i = i := by
  cases i <;> simp [isLoopInstr, isLoopStart, isLoopEnd] at h ⊢ <;> rfl

lemma loopKind_eri (i : Instruction) : loopKind (eri i) = loopKind i := by
  cases i <;> rfl

lemma loopD_eri (i : Instruction) : loopD (eri i) = loopD i := by
  cases i <;> rfl

lemma eri_dflt : eri dfltI = dfltI := rfl

lemma er_getD (l : List Instruction) (p : Nat) :
    (er l).getD p dfltI = eri (l.getD p dfltI) := by
  by_cases hp : p < l.length
  · rw [List.getD_eq_getElem _ _ (by simpa [er] using hp), List.getD_eq_getElem _ _ hp]
    simp [er]
  · rw [List.getD_eq_default _ _ (by simpa [er] using by omega),
      List.getD_eq_default _ _ (by omega), eri_dflt]

lemma ActsOK_nil : ActsOK [] := by simp [ActsOK]

lemma ActsOK_act {i : Instruction} {rest : List Node} :
    ActsOK (.act i :: rest) ↔ isLoopInstr i = false ∧ ActsOK rest := by
  simp [ActsOK]

lemma ActsOK_block {b rest : List Node} :
    ActsOK (.block b :: rest) ↔ ActsOK b ∧ ActsOK rest := by
  simp [ActsOK]

lemma TWFL_nil (M : Nat) : TWFL M [] := by simp [TWFL]

lemma TWFL_act {M : Nat} {i : Instruction} {rest : List Node} :
    TWFL M (.act i :: rest) ↔ WFInstr M i ∧ TWFL M rest := by
  simp [TWFL]

lemma TWFL_block {M : Nat} {b rest : List Node} :
    TWFL M (.block b :: rest) ↔ TWFL M b ∧ TWFL M rest := by
  simp [TWFL]

lemma er_flatL (off : Nat) (F : List Node) (hA : ActsOK F) :
    er (flatL off F) = flatE F := by
  induction off, F using flatL.induct with
  | case1 off => simp [flatL_nil, flatE_nil, er]
  | case2 off i rest ih =>
    obtain ⟨h1, h2⟩ := ActsOK_act.1 hA
    rw [flatL_act, flatE_act, er_cons, ih h2, eri_nonloop h1]
  | case3 off b rest ih1 ih2 =>
    obtain ⟨h1, h2⟩ := ActsOK_block.1 hA
    rw [flatL_block, flatE_block, er_cons, er_append, er_cons, ih1 h1, ih2 h2]
    rfl

/-! ## Bookkeeping facts about tree evaluation -/

lemma tickOk_decomp {s s₁ : IState} (h : tickOk s = some s₁) :
    s.left ≠ some 0 ∧ s₁ = { s with left := s.left.map (· - 1) } := by
  unfold tickOk at h
  split at h
  · cases h
  · rename_i hb
    cases h
    exact ⟨hb, rfl⟩

lemma tickOk_mk {s : IState} (hb : s.left ≠ some 0) :
    tickOk s = some { s with left := s.left.map (· - 1) } := by
  unfold tickOk
  rw [if_neg hb]

lemma exec1_left {M : Nat} {i : Instruction} {s s₁ : IState}
    (h : exec1 M i s = .ok s₁) : s₁.left = s.left.map (· - 1) := by
  obtain ⟨_, t, hst, hs⟩ := exec1_decomp h
  rw [hs]
  simp [(stepInstr_preserves_left M i s).1 t hst]

lemma tick_left {s s₁ : IState} (h : tickOk s = some s₁) :
    s₁.left = s.left.map (· - 1) := by
  rw [(tickOk_decomp h).2]

lemma wfs_tick {M : Nat} {s s₁ : IState} (hws : WFS M s)
    (h : tickOk s = some s₁) : WFS M s₁ := by
  rw [(tickOk_decomp h).2]
  exact ⟨hws.1, hws.2.1, hws.2.2⟩

lemma Rel_curCell {su so : IState} (h : Rel su so) : curCell so = curCell su := by
  unfold curCell
  rw [h.1, h.2.1]

lemma tick_sim {su so su₁ : IState} (hR : Rel su so) (h : tickOk su = some su₁) :
    ∃ so₁, tickOk so = some so₁ ∧ Rel su₁ so₁ := by
  obtain ⟨hb, hs⟩ := tickOk_decomp h
  refine ⟨{ so with left := so.left.map (· - 1) },
    tickOk_mk (leftLE_ne_zero hR.2.2.2.2 hb), ?_⟩
  rw [hs]
  exact ⟨hR.1, hR.2.1, hR.2.2.1, hR.2.2.2.1, leftLE_dec hR.2.2.2.2⟩

/-- Budget bookkeeping helpers. -/
lemma map_sub_zero (o : Option Nat) : o.map (· - 0) = o := by
  cases o <;> simp

lemma map_sub_comp (o : Option Nat) (a b c : Nat) (h : a + b = c) :
    (o.map (· - a)).map (· - b) = o.map (· - c) := by
  subst h
  cases o with
  | none => rfl
  | some x =>
    show some (x - a - b) = some (x - (a + b))
    congr 1
    omega

/-- Budget bookkeeping: a `k`-instruction tree run decrements the remaining
instruction budget by exactly `k`. -/
lemma evalLeft : ∀ n : Nat,
    (∀ {M : Nat} {F : List Node} {s t : IState}, EvalL M F s n t →
      t.left = s.left.map (· - n)) ∧
    (∀ {M : Nat} {b : List Node} {s t : IState}, IterL M b s n t →
      t.left = s.left.map (· - n)) := by
  intro n
  induction n using Nat.strong_induction_on with
  | _ n ih =>
    constructor
    · intro M F s t h
      cases h with
      | nil => exact (map_sub_zero _).symm
      | act h1 h2 =>
        rename_i i rest s₁ k
        rw [(ih k (by omega)).1 h2, exec1_left h1,
          map_sub_comp s.left 1 k (k + 1) (by omega)]
      | blk_exit hc h1 h2 =>
        rename_i b rest s₁ k
        rw [(ih k (by omega)).1 h2, tick_left h1,
          map_sub_comp s.left 1 k (k + 1) (by omega)]
      | blk_enter hc h1 h2 h3 =>
        rename_i b rest s₁ s₂ k₁ k₂
        rw [(ih k₂ (by omega)).1 h3, (ih k₁ (by omega)).2 h2, tick_left h1,
          map_sub_comp s.left 1 k₁ (1 + k₁) (by omega),
          map_sub_comp s.left (1 + k₁) k₂ (1 + k₁ + k₂) (by omega)]
    · intro M b s t h
      cases h with
      | last h1 hc h2 =>
        rename_i s₁ k
        rw [tick_left h2, (ih k (by omega)).1 h1,
          map_sub_comp s.left k 1 (k + 1) (by omega)]
      | again h1 hc h2 h3 =>
        rename_i s₁ s₂ k₁ k₂
        rw [(ih k₂ (by omega)).2 h3, tick_left h2, (ih k₁ (by omega)).1 h1,
          map_sub_comp s.left k₁ 1 (k₁ + 1) (by omega),
          map_sub_comp s.left (k₁ + 1) k₂ (k₁ + 1 + k₂) (by omega)]

/-- Tree runs preserve interpreter-state well-formedness. -/
lemma evalWfs : ∀ n : Nat,
    (∀ {M : Nat} {F : List Node} {s t : IState}, 256 ≤ M → TWFL M F →
      EvalL M F s n t → WFS M s → WFS M t) ∧
    (∀ {M : Nat} {b : List Node} {s t : IState}, 256 ≤ M → TWFL M b →
      IterL M b s n t → WFS M s → WFS M t) := by
  intro n
  induction n using Nat.strong_induction_on with
  | _ n ih =>
    constructor
    · intro M F s t hM hT h hws
      cases h with
      | nil => exact hws
      | act h1 h2 =>
        rename_i i rest s₁ k
        obtain ⟨hi, hr⟩ := TWFL_act.1 hT
        exact (ih k (by omega)).1 hM hr h2 (wfs_exec1 M hM _ hi hws h1)
      | blk_exit hc h1 h2 =>
        rename_i b rest s₁ k
        exact (ih k (by omega)).1 hM (TWFL_block.1 hT).2 h2 (wfs_tick hws h1)
      | blk_enter hc h1 h2 h3 =>
        rename_i b rest s₁ s₂ k₁ k₂
        obtain ⟨hb, hr⟩ := TWFL_block.1 hT
        exact (ih k₂ (by omega)).1 hM hr h3
          ((ih k₁ (by omega)).2 hM hb h2 (wfs_tick hws h1))
    · intro M b s t hM hT h hws
      cases h with
      | last h1 hc h2 =>
        rename_i s₁ k
        exact wfs_tick ((ih k (by omega)).1 hM hT h1 hws) h2
      | again h1 hc h2 h3 =>
        rename_i s₁ s₂ k₁ k₂
        exact (ih k₂ (by omega)).2 hM hT h3
          (wfs_tick ((ih k₁ (by omega)).1 hM hT h1 hws) h2)

/-- Tree evaluation is a congruence for the observable-state relation. -/
lemma evalSim : ∀ n : Nat,
    (∀ {M : Nat} {F : List Node} {su t : IState}, EvalL M F su n t →
      ∀ {so : IState}, Rel su so → ∃ t2, EvalL M F so n t2 ∧ Rel t t2) ∧
    (∀ {M : Nat} {b : List Node} {su t : IState}, IterL M b su n t →
      ∀ {so : IState}, Rel su so → ∃ t2, IterL M b so n t2 ∧ Rel t t2) := by
  intro n
  induction n using Nat.strong_induction_on with
  | _ n ih =>
    constructor
    · intro M F su t h so hR
      cases h with
      | nil => exact ⟨so, .nil, hR⟩
      | act h1 h2 =>
        rename_i i rest s₁ k
        obtain ⟨so₁, h1', hR₁⟩ := exec1_sim M _ hR h1
        obtain ⟨t2, h2', hR₂⟩ := (ih k (by omega)).1 h2 hR₁
        exact ⟨t2, .act h1' h2', hR₂⟩
      | blk_exit hc h1 h2 =>
        rename_i b rest s₁ k
        obtain ⟨so₁, h1', hR₁⟩ := tick_sim hR h1
        obtain ⟨t2, h2', hR₂⟩ := (ih k (by omega)).1 h2 hR₁
        exact ⟨t2, .blk_exit (by rw [Rel_curCell hR]; exact hc) h1' h2', hR₂⟩
      | blk_enter hc h1 h2 h3 =>
        rename_i b rest s₁ s₂ k₁ k₂
        obtain ⟨so₁, h1', hR₁⟩ := tick_sim hR h1
        obtain ⟨so₂, h2', hR₂⟩ := (ih k₁ (by omega)).2 h2 hR₁
        obtain ⟨t2, h3', hR₃⟩ := (ih k₂ (by omega)).1 h3 hR₂
        exact ⟨t2, .blk_enter (by rw [Rel_curCell hR]; exact hc) h1' h2' h3', hR₃⟩
    · intro M b su t h so hR
      cases h with
      | last h1 hc h2 =>
        rename_i s₁ k
        obtain ⟨so₁, h1', hR₁⟩ := (ih k (by omega)).1 h1 hR
        obtain ⟨so₂, h2', hR₂⟩ := tick_sim hR₁ h2
        exact ⟨so₂, .last h1' (by rw [Rel_curCell hR₁]; exact hc) h2', hR₂⟩
      | again h1 hc h2 h3 =>
        rename_i s₁ s₂ k₁ k₂
        obtain ⟨so₁, h1', hR₁⟩ := (ih k₁ (by omega)).1 h1 hR
        obtain ⟨so₂, h2', hR₂⟩ := tick_sim hR₁ h2
        obtain ⟨t2, h3', hR₃⟩ := (ih k₂ (by omega)).2 h3 hR₂
        exact ⟨t2, .again h1' (by rw [Rel_curCell hR₁]; exact hc) h2' h3', hR₃⟩

/-! ## Depth and matching structure of flattened trees -/

lemma loopDepth_nil : loopDepth [] = 0 := rfl

lemma loopDepth_cons (i : Instruction) (l : List Instruction) :
    loopDepth (i :: l) = loopD i + loopDepth l := by simp [loopDepth]

lemma loopDepth_append (a b : List Instruction) :
    loopDepth (a ++ b) = loopDepth a + loopDepth b := by simp [loopDepth]

lemma depthAt_cons_succ (i : Instruction) (l : List Instruction) (k : Nat) :
    depthAt (i :: l) (k + 1) = loopD i + depthAt l k := by
  unfold depthAt
  rw [List.take_succ_cons, loopDepth_cons]

lemma depthAt_append_left (A B : List Instruction) (k : Nat) (h : k ≤ A.length) :
    depthAt (A ++ B) k = depthAt A k := by
  unfold depthAt
  rw [List.take_append_of_le_length h]

lemma depthAt_append_right (A B : List Instruction) (k : Nat) :
    depthAt (A ++ B) (A.length + k) = loopDepth A + depthAt B k := by
  unfold depthAt
  rw [List.take_append, loopDepth_append]

lemma loopD_nonloop {i : Instruction} (h : isLoopInstr i = false) : loopD i = 0 := by
  cases i <;> first
    | rfl
    | simp [isLoopInstr, isLoopStart, isLoopEnd] at h

/-- Flattened trees are balanced: total depth zero, all prefix depths
non-negative. -/
lemma flat_balance (off : Nat) (F : List Node) (hA : ActsOK F) :
    loopDepth (flatL off F) = 0 ∧ ∀ k, 0 ≤ depthAt (flatL off F) k := by
  induction off, F using flatL.induct with
  | case1 off =>
    rw [flatL_nil]
    exact ⟨rfl, fun k => by unfold depthAt; simp [loopDepth]⟩
  | case2 off i rest ih =>
    obtain ⟨hi, hr⟩ := ActsOK_act.1 hA
    have ih := ih hr
    rw [flatL_act]
    refine ⟨?_, ?_⟩
    · rw [loopDepth_cons, ih.1, loopD_nonloop hi]
      rfl
    · intro k
      cases k with
      | zero => rw [depthAt_zero]
      | succ k =>
        rw [depthAt_cons_succ, loopD_nonloop hi]
        have := ih.2 k
        omega
  | case3 off b rest ih1 ih2 =>
    obtain ⟨hb, hr⟩ := ActsOK_block.1 hA
    have ih1 := ih1 hb
    have ih2 := ih2 hr
    rw [flatL_block]
    have hAb := flatL_length (off + 1) b
    refine ⟨?_, ?_⟩
    · rw [loopDepth_cons, loopDepth_append, loopDepth_cons, ih1.1, ih2.1]
      simp [loopD]
    · intro k
      cases k with
      | zero => rw [depthAt_zero]
      | succ k =>
        rw [depthAt_cons_succ]
        simp only [loopD]
        by_cases hk : k ≤ (flatL (off + 1) b).length
        · rw [depthAt_append_left _ _ _ hk]
          have := ih1.2 k
          omega
        · have hk' : k = (flatL (off + 1) b).length + ((k - (flatL (off + 1) b).length - 1) + 1) := by
            omega
          rw [hk', depthAt_append_right]
          rw [depthAt_cons_succ]
          simp only [loopD, ih1.1]
          have := ih2.2 (k - (flatL (off + 1) b).length - 1)
          omega

lemma getD_append_at (A X : List Instruction) (p : Nat) (h : p < X.length) :
    (A ++ X).getD (A.length + p) dfltI = X.getD p dfltI := by
  rw [List.getD_append_right A X dfltI _ (by omega)]
  congr 1
  omega

lemma getD_mid (A X B : List Instruction) (p : Nat) (h : p < X.length) :
    (A ++ X ++ B).getD (A.length + p) dfltI = X.getD p dfltI := by
  rw [List.getD_append _ _ _ _ (by simp only [List.length_append]; omega)]
  exact getD_append_at A X p h

lemma depthAt_mid (A X B : List Instruction) (k : Nat) (h : k ≤ X.length) :
    depthAt (A ++ X ++ B) (A.length + k) = loopDepth A + depthAt X k := by
  rw [List.append_assoc, depthAt_append_right, depthAt_append_left _ _ _ h]

/-- The bracket pair around a balanced body is a LIFO match in any ambient
context. -/
lemma block_lifo (A Ab C B : List Instruction) (ts te : Nat)
    (hAb0 : loopDepth Ab = 0) (hAbpre : ∀ k, 0 ≤ depthAt Ab k) :
    lifo_match (A ++ (.LoopStart ts :: (Ab ++ .LoopEnd te :: C)) ++ B)
      A.length (A.length + 1 + Ab.length) := by
  set X : List Instruction := .LoopStart ts :: (Ab ++ .LoopEnd te :: C) with hX
  have hXlen : X.length = Ab.length + C.length + 2 := by
    simp [hX]
    omega
  have hdX : ∀ m, m ≤ Ab.length →
      depthAt X (1 + m) = 1 + depthAt Ab m := by
    intro m hm
    rw [show 1 + m = m + 1 from by omega, hX, depthAt_cons_succ,
      depthAt_append_left _ _ _ hm]
    simp [loopD]
  have hdXe : depthAt X (2 + Ab.length) = 0 := by
    rw [show 2 + Ab.length = (Ab.length + 1) + 1 from by omega, hX, depthAt_cons_succ,
      show Ab.length + 1 = Ab.length + 1 from rfl]
    rw [show (Ab.length + 1 : Nat) = Ab.length + 1 from rfl, depthAt_append_right Ab _ 1]
    rw [show (1 : Nat) = 0 + 1 from rfl, depthAt_cons_succ, depthAt_zero]
    simp [loopD, hAb0]
  refine ⟨by omega, ?_, ?_, ?_, ?_, ?_⟩
  · simp only [List.length_append, hXlen]
    omega
  · have := getD_mid A X B 0 (by omega)
    simp only [Nat.add_zero] at this
    rw [this, hX, List.getD_cons_zero]
    rfl
  · have := getD_mid A X B (1 + Ab.length) (by omega)
    rw [show A.length + 1 + Ab.length = A.length + (1 + Ab.length) from by omega, this, hX,
      show (1 + Ab.length : Nat) = Ab.length + 1 from by omega, List.getD_cons_succ,
      List.getD_append_right Ab _ dfltI _ (by omega), Nat.sub_self, List.getD_cons_zero]
    rfl
  · have h1 := depthAt_mid A X B (2 + Ab.length) (by omega)
    have h2 := depthAt_mid A X B 0 (by omega)
    simp only [Nat.add_zero, depthAt_zero] at h2
    rw [show A.length + 1 + Ab.length + 1 = A.length + (2 + Ab.length) from by omega, h1,
      hdXe, h2]
  · intro k hk1 hk2
    have hkk : ∃ m, m ≤ Ab.length ∧ k = A.length + (1 + m) := ⟨k - A.length - 1, by omega, by omega⟩
    obtain ⟨m, hm, rfl⟩ := hkk
    rw [depthAt_mid A X B (1 + m) (by omega), hdX m hm]
    have h2 := depthAt_mid A X B 0 (by omega)
    simp only [Nat.add_zero, depthAt_zero] at h2
    rw [h2]
    have := hAbpre m
    omega

/-- The jump targets `flatL` generates are exactly LIFO partners, in any
ambient context that places the segment at its printing offset. -/
lemma flat_targets (off : Nat) (F : List Node) (hA : ActsOK F) :
    ∀ (A B : List Instruction), A.length = off →
      (∀ p t, p < lenL F → (flatL off F).getD p dfltI = .LoopStart t →
        lifo_match (A ++ flatL off F ++ B) (off + p) t) ∧
      (∀ p t, p < lenL F → (flatL off F).getD p dfltI = .LoopEnd t →
        lifo_match (A ++ flatL off F ++ B) t (off + p)) := by
  induction off, F using flatL.induct with
  | case1 off =>
    intro A B hAl
    constructor
    · intro p t hp
      simp [lenL] at hp
    · intro p t hp
      simp [lenL] at hp
  | case2 off i rest ih =>
    obtain ⟨hi, hr⟩ := ActsOK_act.1 hA
    intro A B hAl
    have key := ih hr (A ++ [i]) B (by simp [hAl])
    have hlist : A ++ flatL off (.act i :: rest) ++ B
        = (A ++ [i]) ++ flatL (off + 1) rest ++ B := by
      rw [flatL_act]
      simp
    constructor
    · intro p t hp hg
      rw [flatL_act] at hg
      match p with
      | 0 =>
        rw [List.getD_cons_zero] at hg
        rw [hg] at hi
        simp [isLoopInstr, isLoopStart] at hi
      | p' + 1 =>
        rw [List.getD_cons_succ] at hg
        have hp' : p' < lenL rest := by
          simp [lenL] at hp
          omega
        have hres := key.1 p' t hp' hg
        rw [hlist, show off + (p' + 1) = (off + 1) + p' from by omega]
        exact hres
    · intro p t hp hg
      rw [flatL_act] at hg
      match p with
      | 0 =>
        rw [List.getD_cons_zero] at hg
        rw [hg] at hi
        simp [isLoopInstr, isLoopEnd] at hi
      | p' + 1 =>
        rw [List.getD_cons_succ] at hg
        have hp' : p' < lenL rest := by
          simp [lenL] at hp
          omega
        have hres := key.2 p' t hp' hg
        rw [hlist, show off + (p' + 1) = (off + 1) + p' from by omega]
        exact hres
  | case3 off b rest ih1 ih2 =>
    obtain ⟨hb, hr⟩ := ActsOK_block.1 hA
    intro A B hAl
    have hAb := flatL_length (off + 1) b
    have hbal := flat_balance (off + 1) b hb
    have hbody := ih1 hb (A ++ [.LoopStart (off + 1 + lenL b)])
      ((.LoopEnd off :: flatL (off + 2 + lenL b) rest) ++ B) (by simp [hAl])
    have hrest := ih2 hr
      (A ++ (.LoopStart (off + 1 + lenL b) :: (flatL (off + 1) b ++ [.LoopEnd off]))) B
      (by simp [hAl, hAb]; omega)
    have hls1 : A ++ flatL off (.block b :: rest) ++ B
        = (A ++ [.LoopStart (off + 1 + lenL b)]) ++ flatL (off + 1) b
            ++ ((.LoopEnd off :: flatL (off + 2 + lenL b) rest) ++ B) := by
      rw [flatL_block]
      simp
    have hls2 : A ++ flatL off (.block b :: rest) ++ B
        = (A ++ (.LoopStart (off + 1 + lenL b) :: (flatL (off + 1) b ++ [.LoopEnd off])))
            ++ flatL (off + 2 + lenL b) rest ++ B := by
      rw [flatL_block]
      simp
    have hblk : lifo_match (A ++ flatL off (.block b :: rest) ++ B) off
        (off + 1 + lenL b) := by
      rw [flatL_block]
      have hcore := block_lifo A (flatL (off + 1) b) (flatL (off + 2 + lenL b) rest) B
        (off + 1 + lenL b) off hbal.1 hbal.2
      rw [hAl, hAb] at hcore
      exact hcore
    constructor
    · intro p t hp hg
      rw [flatL_block] at hg
      match p with
      | 0 =>
        rw [List.getD_cons_zero] at hg
        cases hg
        rw [show off + 0 = off from by omega]
        exact hblk
      | p' + 1 =>
        rw [List.getD_cons_succ] at hg
        by_cases hpb : p' < lenL b
        · have hgb : (flatL (off + 1) b).getD p' dfltI = .LoopStart t := by
            rw [← List.getD_append _ (.LoopEnd off :: flatL (off + 2 + lenL b) rest)
              dfltI _ (by omega)]
            exact hg
          have hres := (hbody).1 p' t hpb hgb
          rw [hls1, show off + (p' + 1) = off + 1 + p' from by omega]
          exact hres
        · by_cases hpe : p' = lenL b
          · subst hpe
            rw [List.getD_append_right _ _ _ _ (by omega), hAb, Nat.sub_self,
              List.getD_cons_zero] at hg
            cases hg
          · have hq : p' - lenL b - 1 < lenL rest := by
              simp [lenL] at hp
              omega
            have hgr : (flatL (off + 2 + lenL b) rest).getD (p' - lenL b - 1) dfltI
                = .LoopStart t := by
              rw [List.getD_append_right _ _ _ _ (by omega), hAb,
                show p' - lenL b = (p' - lenL b - 1) + 1 from by omega,
                List.getD_cons_succ] at hg
              exact hg
            have hres := hrest.1 _ t hq hgr
            rw [hls2, show off + (p' + 1) = off + 2 + lenL b + (p' - lenL b - 1) from by
              omega]
            exact hres
    · intro p t hp hg
      rw [flatL_block] at hg
      match p with
      | 0 =>
        rw [List.getD_cons_zero] at hg
        cases hg
      | p' + 1 =>
        rw [List.getD_cons_succ] at hg
        by_cases hpb : p' < lenL b
        · have hgb : (flatL (off + 1) b).getD p' dfltI = .LoopEnd t := by
            rw [← List.getD_append _ (.LoopEnd off :: flatL (off + 2 + lenL b) rest)
              dfltI _ (by omega)]
            exact hg
          have hres := (hbody).2 p' t hpb hgb
          rw [hls1, show off + (p' + 1) = off + 1 + p' from by omega]
          exact hres
        · by_cases hpe : p' = lenL b
          · subst hpe
            rw [List.getD_append_right _ _ _ _ (by omega), hAb, Nat.sub_self,
              List.getD_cons_zero] at hg
            cases hg
            rw [show off + (lenL b + 1) = off + 1 + lenL b from by omega]
            exact hblk
          · have hq : p' - lenL b - 1 < lenL rest := by
              simp [lenL] at hp
              omega
            have hgr : (flatL (off + 2 + lenL b) rest).getD (p' - lenL b - 1) dfltI
                = .LoopEnd t := by
              rw [List.getD_append_right _ _ _ _ (by omega), hAb,
                show p' - lenL b = (p' - lenL b - 1) + 1 from by omega,
                List.getD_cons_succ] at hg
              exact hg
            have hres := hrest.2 _ t hq hgr
            rw [hls2, show off + (p' + 1) = off + 2 + lenL b + (p' - lenL b - 1) from by
              omega]
            exact hres

lemma loopDepth_eq_depthAt_length (l : List Instruction) :
    depthAt l l.length = loopDepth l := by
  unfold depthAt
  rw [List.take_length]

lemma depthAt_drop (l : List Instruction) (d k : Nat) :
    depthAt (l.drop d) k = depthAt l (d + k) - depthAt l d := by
  unfold depthAt
  rw [List.take_add, loopDepth_append]
  omega

lemma depthAt_take (l : List Instruction) (n k : Nat) (h : k ≤ n) :
    depthAt (l.take n) k = depthAt l k := by
  unfold depthAt
  rw [List.take_take, min_eq_left h]

lemma loopD_cases (i : Instruction) : loopD i = 1 ∨ loopD i = 0 ∨ loopD i = -1 := by
  cases i <;> simp [loopD]

lemma eq_loopStart_of_kind {i : Instruction} (h : loopKind i = some true) :
    ∃ t, i = .LoopStart t := by
  cases i <;> first
    | exact ⟨_, rfl⟩
    | simp [loopKind] at h

lemma eq_loopEnd_of_kind {i : Instruction} (h : loopKind i = some false) :
    ∃ t, i = .LoopEnd t := by
  cases i <;> first
    | exact ⟨_, rfl⟩
    | simp [loopKind] at h

lemma eq_loopEnd_of_loopD {i : Instruction} (h : loopD i = -1) :
    ∃ t, i = .LoopEnd t := by
  cases i <;> first
    | exact ⟨_, rfl⟩
    | simp [loopD] at h

lemma nonloop_of_kind_none {i : Instruction} (h : loopKind i = none) :
    isLoopInstr i = false := by
  cases i <;> first
    | rfl
    | simp [loopKind] at h

/-- Any balanced instruction list is, up to jump targets, the flattening of
a loop-structure tree. -/
lemma parse_balanced : ∀ (n : Nat) (l : List Instruction), l.length = n →
    (∀ k, 0 ≤ depthAt l k) → loopDepth l = 0 →
    ∃ F, ActsOK F ∧ flatE F = er l := by
  intro n
  induction n using Nat.strong_induction_on with
  | _ n ih =>
    intro l hlen hpre htot
    cases l with
    | nil => exact ⟨[], ActsOK_nil, by rw [flatE_nil, er_nil]⟩
    | cons i rest =>
      have hrl : rest.length + 1 = n := by
        simp at hlen
        omega
      rcases hk : loopKind i with _ | b
      · have hi : isLoopInstr i = false := nonloop_of_kind_none hk
        have hd0 : loopD i = 0 := loopD_nonloop hi
        have hrpre : ∀ k, 0 ≤ depthAt rest k := by
          intro k
          have := hpre (k + 1)
          rw [depthAt_cons_succ, hd0] at this
          omega
        have hrtot : loopDepth rest = 0 := by
          rw [loopDepth_cons, hd0] at htot
          omega
        obtain ⟨F', hA', hE'⟩ := ih rest.length (by omega) rest rfl hrpre hrtot
        refine ⟨.act i :: F', ActsOK_act.2 ⟨hi, hA'⟩, ?_⟩
        rw [flatE_act, hE', er_cons, eri_nonloop hi]
      · cases b with
        | false =>
          obtain ⟨t, rfl⟩ := eq_loopEnd_of_kind hk
          have := hpre 1
          rw [show (1 : Nat) = 0 + 1 from rfl, depthAt_cons_succ, depthAt_zero] at this
          simp [loopD] at this
        | true =>
          obtain ⟨t, rfl⟩ := eq_loopStart_of_kind hk
          set L := Instruction.LoopStart t :: rest with hL
          have hLlen : L.length = rest.length + 1 := by
            rw [hL]
            simp
          have hdrest : ∀ k, depthAt L (k + 1) = 1 + depthAt rest k := by
            intro k
            rw [hL, depthAt_cons_succ]
            simp [loopD]
          have hd1 : depthAt L 1 = 1 := by
            have := hdrest 0
            rw [depthAt_zero] at this
            simpa using this
          have htod : depthAt L L.length = 0 := by
            rw [loopDepth_eq_depthAt_length]
            exact htot
          have hex : ∃ m, 0 < m ∧ depthAt L m = 0 := ⟨L.length, by omega, htod⟩
          have hm0 := Nat.find_spec hex
          have hmle : Nat.find hex ≤ L.length := Nat.find_le ⟨by omega, htod⟩
          have hm2 : 2 ≤ Nat.find hex := by
            rcases Nat.lt_or_ge (Nat.find hex) 2 with h | h
            · exfalso
              have h1 := hm0.1
              have h2 := hm0.2
              have hfe : Nat.find hex = 1 := by omega
              rw [hfe, hd1] at h2
              exact absurd h2 (by omega)
            · exact h
          set j := Nat.find hex - 1 with hj
          have hj1 : 1 ≤ j := by omega
          have hjlt : j < L.length := by omega
          have hjr : j - 1 < rest.length := by omega
          have hmid : ∀ m, 0 < m → m < Nat.find hex → 1 ≤ depthAt L m := by
            intro m h1 h2
            have hne := Nat.find_min hex h2
            have hge := hpre m
            by_contra hcon
            exact hne ⟨h1, by omega⟩
          have hstep := depthAt_succ L j hjlt
          have hjs : j + 1 = Nat.find hex := by omega
          rw [hjs, hm0.2] at hstep
          have hdj1 : depthAt L j = 1 ∧ loopD (L.getD j dfltI) = -1 := by
            have h1 := hmid j (by omega) (by omega)
            rcases loopD_cases (L.getD j dfltI) with h | h | h <;> omega
          obtain ⟨te, hte⟩ := eq_loopEnd_of_loopD hdj1.2
          have hgetj : L.getD j dfltI = rest.getD (j - 1) dfltI := by
            rw [hL, show j = (j - 1) + 1 from by omega, List.getD_cons_succ]
            simp
          have hsplit : rest = rest.take (j - 1) ++ Instruction.LoopEnd te :: rest.drop j := by
            conv_lhs => rw [← List.take_append_drop (j - 1) rest]
            congr 1
            rw [List.drop_eq_getElem_cons hjr, ← getD_of_lt rest (j - 1) hjr, ← hgetj, hte,
              show j - 1 + 1 = j from by omega]
          have htb0 : loopDepth (rest.take (j - 1)) = 0 := by
            show depthAt rest (j - 1) = 0
            have h2 := hdrest (j - 1)
            rw [show j - 1 + 1 = j from by omega] at h2
            omega
          have hbody_pre : ∀ k, 0 ≤ depthAt (rest.take (j - 1)) k := by
            intro k
            by_cases hkb : k ≤ j - 1
            · rw [depthAt_take _ _ _ hkb]
              have h1 := hmid (k + 1) (by omega) (by omega)
              have h2 := hdrest k
              omega
            · rw [depthAt_of_le _ _ (by simp; omega), htb0]
          have hrest_pre : ∀ k, 0 ≤ depthAt (rest.drop j) k := by
            intro k
            rw [depthAt_drop]
            have h1 := hdrest (j + k)
            have h2 := hdrest j
            have h3 : depthAt L (j + 1) = 0 := by
              rw [hjs]
              exact hm0.2
            have h4 := hpre (j + k + 1)
            omega
          have hrest_tot : loopDepth (rest.drop j) = 0 := by
            rw [← loopDepth_eq_depthAt_length, List.length_drop, depthAt_drop,
              show j + (rest.length - j) = rest.length from by omega,
              loopDepth_eq_depthAt_length]
            have h2 := hdrest j
            have h3 : depthAt L (j + 1) = 0 := by
              rw [hjs]
              exact hm0.2
            have h5 : loopDepth L = 1 + loopDepth rest := by
              rw [hL, loopDepth_cons]
              simp [loopD]
            omega
          have hblen2 : (rest.take (j - 1)).length = j - 1 := by
            simp
            omega
          have hrlen2 : (rest.drop j).length = rest.length - j := by simp
          obtain ⟨Fb, hAb', hEb⟩ :=
            ih (j - 1) (by omega) (rest.take (j - 1)) hblen2 hbody_pre htb0
          obtain ⟨Fr, hAr', hEr⟩ :=
            ih (rest.length - j) (by omega) (rest.drop j) hrlen2 hrest_pre hrest_tot
          refine ⟨.block Fb :: Fr, ActsOK_block.2 ⟨hAb', hAr'⟩, ?_⟩
          rw [flatE_block, hEb, hEr, hL, er_cons]
          conv_rhs => rw [hsplit]
          rw [er_append, er_cons]
          rfl

/-! ## Segment decomposition and interpreter step shapes -/

lemma SegAt_self (F : List Node) : SegAt (flatL 0 F) 0 F := by
  refine ⟨by rw [flatL_length]; omega, ?_⟩
  intro j hj
  rw [Nat.zero_add]

lemma SegAt_act {prog : List Instruction} {off : Nat} {i : Instruction}
    {F : List Node} (h : SegAt prog off (.act i :: F)) :
    prog.getD off dfltI = i ∧ SegAt prog (off + 1) F ∧ off < prog.length := by
  obtain ⟨hlen, hget⟩ := h
  rw [show lenL (.act i :: F) = 1 + lenL F from by simp [lenL]] at hlen
  refine ⟨?_, ⟨by omega, ?_⟩, by omega⟩
  · have h0 := hget 0 (by simp [lenL])
    rw [Nat.add_zero, flatL_act, List.getD_cons_zero] at h0
    exact h0
  · intro j hj
    have hj' := hget (j + 1) (by simp [lenL]; omega)
    rw [flatL_act, List.getD_cons_succ] at hj'
    rw [show off + 1 + j = off + (j + 1) from by omega]
    exact hj'

lemma SegAt_block {prog : List Instruction} {off : Nat} {b F : List Node}
    (h : SegAt prog off (.block b :: F)) :
    BlockAt prog off b ∧ SegAt prog (off + 2 + lenL b) F ∧ off < prog.length := by
  obtain ⟨hlen, hget⟩ := h
  rw [show lenL (.block b :: F) = 2 + lenL b + lenL F from by simp [lenL]] at hlen
  have hAb := flatL_length (off + 1) b
  have h0 := hget 0 (by simp [lenL])
  rw [Nat.add_zero, flatL_block, List.getD_cons_zero] at h0
  have hLE := hget (1 + lenL b) (by simp [lenL]; omega)
  rw [flatL_block, show (1 + lenL b : Nat) = lenL b + 1 from by omega,
    List.getD_cons_succ, List.getD_append_right _ _ _ _ (by omega), hAb, Nat.sub_self,
    List.getD_cons_zero] at hLE
  rw [show off + (lenL b + 1) = off + 1 + lenL b from by omega] at hLE
  refine ⟨⟨h0, ⟨by omega, ?_⟩, hLE, by omega⟩, ⟨by omega, ?_⟩, by omega⟩
  · intro j hj
    have hj' := hget (1 + j) (by simp [lenL]; omega)
    rw [flatL_block, show (1 + j : Nat) = j + 1 from by omega, List.getD_cons_succ,
      List.getD_append _ _ _ _ (by omega)] at hj'
    rw [show off + 1 + j = off + (j + 1) from by omega]
    exact hj'
  · intro j hj
    have hj' := hget (2 + lenL b + j) (by simp [lenL]; omega)
    rw [flatL_block, show (2 + lenL b + j : Nat) = (1 + lenL b + j) + 1 from by omega,
      List.getD_cons_succ, List.getD_append_right _ _ _ _ (by omega), hAb,
      show 1 + lenL b + j - lenL b = j + 1 from by omega, List.getD_cons_succ] at hj'
    rw [show off + 2 + lenL b + j = off + (1 + lenL b + j + 1) from by omega]
    exact hj'

lemma step_at_nonloop {M : Nat} {prog : List Instruction} {ip : Nat} {s : IState}
    {i : Instruction} (hip : prog.getD ip dfltI = i) (hnl : isLoopInstr i = false) :
    step M prog ip s =
      (match stepInstr M i s with
        | .ok s' => StepOut.next (ip + 1) s'
        | .error (e, s') => .fail e s') := by
  unfold step
  have hip' : prog.getD ip Instruction.Write = i := hip
  rw [hip']
  cases i <;> try rfl
  · simp [isLoopInstr, isLoopStart] at hnl
  · simp [isLoopInstr, isLoopEnd] at hnl

lemma step_at_loopstart {M : Nat} {prog : List Instruction} {ip : Nat} {s : IState}
    {t : Nat} (hip : prog.getD ip dfltI = .LoopStart t) :
    step M prog ip s = .next (if curCell s = 0 then t + 1 else ip + 1) s := by
  unfold step
  have hip' : prog.getD ip Instruction.Write = .LoopStart t := hip
  rw [hip']

lemma step_at_loopend {M : Nat} {prog : List Instruction} {ip : Nat} {s : IState}
    {t : Nat} (hip : prog.getD ip dfltI = .LoopEnd t) :
    step M prog ip s = .next (if curCell s ≠ 0 then t + 1 else ip + 1) s := by
  unfold step
  have hip' : prog.getD ip Instruction.Write = .LoopEnd t := hip
  rw [hip']

lemma runAux_succ (M : Nat) (prog : List Instruction) (g ip : Nat) (s : IState) :
    runAux M prog (g + 1) ip s =
      if ip < prog.length then
        if s.left = some 0 then .fail .NotEnoughInstructions s
        else
          match step M prog ip s with
          | .fail e s' => .fail e s'
          | .next ip' s' => runAux M prog g ip' { s' with left := s'.left.map (· - 1) }
      else .ok s := rfl

lemma runAux_zero (M : Nat) (prog : List Instruction) (ip : Nat) (s : IState) :
    runAux M prog 0 ip s = if ip < prog.length then .outOfGas ip s else .ok s := rfl

lemma runAux_end {M : Nat} {prog : List Instruction} {g ip : Nat} {s : IState}
    (h : prog.length ≤ ip) : runAux M prog g ip s = .ok s := by
  cases g with
  | zero => rw [runAux_zero, if_neg (by omega)]
  | succ g => rw [runAux_succ, if_neg (by omega)]

lemma runAux_at_act {M : Nat} {prog : List Instruction} {g ip : Nat} {s : IState}
    {i : Instruction} (hip : prog.getD ip dfltI = i) (hnl : isLoopInstr i = false)
    (hlt : ip < prog.length) :
    runAux M prog (g + 1) ip s =
      (match exec1 M i s with
        | .error (e, s') => RunOut.fail e s'
        | .ok s' => runAux M prog g (ip + 1) s') := by
  rw [runAux_succ, if_pos hlt, step_at_nonloop hip hnl]
  by_cases hb : s.left = some 0
  · rw [if_pos hb]
    rw [show exec1 M i s = .error (.NotEnoughInstructions, s) from by
      unfold exec1; exact if_pos hb]
  · rw [if_neg hb]
    cases hsi : stepInstr M i s with
    | error es =>
      obtain ⟨e, s'⟩ := es
      rw [show exec1 M i s = .error (e, s') from by
        unfold exec1; rw [if_neg hb, hsi]]
    | ok s' =>
      rw [show exec1 M i s = .ok { s' with left := s'.left.map (· - 1) } from by
        unfold exec1; rw [if_neg hb, hsi]]

/-- From tree evaluation to the flat interpreter loop: a `k`-tick derivation
advances the instruction pointer across the printed segment, consuming `k`
gas. -/
lemma tree_to_flat : ∀ n : Nat,
    (∀ {M : Nat} {F : List Node} {s t : IState}, EvalL M F s n t →
      ∀ {prog : List Instruction} {off : Nat}, SegAt prog off F → ActsOK F →
      ∀ g : Nat, runAux M prog (g + n) off s = runAux M prog g (off + lenL F) t) ∧
    (∀ {M : Nat} {b : List Node} {s t : IState}, IterL M b s n t →
      ∀ {prog : List Instruction} {off : Nat}, BlockAt prog off b → ActsOK b →
      ∀ g : Nat, runAux M prog (g + n) (off + 1) s
        = runAux M prog g (off + lenL b + 2) t) := by
  intro n
  induction n using Nat.strong_induction_on with
  | _ n ih =>
    constructor
    · intro M F s t h prog off hseg hA g
      cases h with
      | nil => simp [lenL]
      | act h1 h2 =>
        rename_i i rest s₁ k
        obtain ⟨hip, hseg', hlt⟩ := SegAt_act hseg
        obtain ⟨hiA, hrA⟩ := ActsOK_act.1 hA
        rw [show g + (k + 1) = (g + k) + 1 from by omega,
          runAux_at_act hip hiA hlt, h1]
        show runAux M prog (g + k) (off + 1) s₁ = _
        rw [(ih k (by omega)).1 h2 hseg' hrA g,
          show off + 1 + lenL rest = off + lenL (Node.act i :: rest) from by
            simp [lenL]
            omega]
      | blk_exit hc h1 h2 =>
        rename_i b rest s₁ k
        obtain ⟨hblk, hseg', hlt⟩ := SegAt_block hseg
        obtain ⟨hbA, hrA⟩ := ActsOK_block.1 hA
        obtain ⟨hbtick, hstick⟩ := tickOk_decomp h1
        rw [show g + (k + 1) = (g + k) + 1 from by omega, runAux_succ, if_pos hlt,
          if_neg hbtick, step_at_loopstart hblk.1, if_pos hc]
        show runAux M prog (g + k) (off + 1 + lenL b + 1)
          { s with left := s.left.map (· - 1) } = _
        rw [← hstick, show off + 1 + lenL b + 1 = off + 2 + lenL b from by omega,
          (ih k (by omega)).1 h2 hseg' hrA g,
          show off + 2 + lenL b + lenL rest = off + lenL (Node.block b :: rest) from by
            simp [lenL]
            omega]
      | blk_enter hc h1 h2 h3 =>
        rename_i b rest s₁ s₂ k₁ k₂
        obtain ⟨hblk, hseg', hlt⟩ := SegAt_block hseg
        obtain ⟨hbA, hrA⟩ := ActsOK_block.1 hA
        obtain ⟨hbtick, hstick⟩ := tickOk_decomp h1
        rw [show g + (1 + k₁ + k₂) = ((g + k₂) + k₁) + 1 from by omega, runAux_succ,
          if_pos hlt, if_neg hbtick, step_at_loopstart hblk.1, if_neg hc]
        show runAux M prog ((g + k₂) + k₁) (off + 1)
          { s with left := s.left.map (· - 1) } = _
        rw [← hstick, (ih k₁ (by omega)).2 h2 hblk hbA (g + k₂),
          show off + lenL b + 2 = off + 2 + lenL b from by omega,
          (ih k₂ (by omega)).1 h3 hseg' hrA g,
          show off + 2 + lenL b + lenL rest = off + lenL (Node.block b :: rest) from by
            simp [lenL]
            omega]
    · intro M b s t h prog off hblk hA g
      cases h with
      | last h1 hc h2 =>
        rename_i s₁ k
        obtain ⟨hbtick, hstick⟩ := tickOk_decomp h2
        rw [show g + (k + 1) = (g + 1) + k from by omega,
          (ih k (by omega)).1 h1 hblk.2.1 hA (g + 1), runAux_succ,
          if_pos hblk.2.2.2, if_neg hbtick, step_at_loopend hblk.2.2.1,
          if_neg (by simp [hc])]
        show runAux M prog g (off + 1 + lenL b + 1)
          { s₁ with left := s₁.left.map (· - 1) } = _
        rw [← hstick, show off + 1 + lenL b + 1 = off + lenL b + 2 from by omega]
      | again h1 hc h2 h3 =>
        rename_i s₁ s₂ k₁ k₂
        obtain ⟨hbtick, hstick⟩ := tickOk_decomp h2
        rw [show g + (k₁ + 1 + k₂) = ((g + k₂) + 1) + k₁ from by omega,
          (ih k₁ (by omega)).1 h1 hblk.2.1 hA ((g + k₂) + 1), runAux_succ,
          if_pos hblk.2.2.2, if_neg hbtick, step_at_loopend hblk.2.2.1, if_pos hc]
        show runAux M prog (g + k₂) (off + 1)
          { s₁ with left := s₁.left.map (· - 1) } = _
        rw [← hstick]
        exact (ih k₂ (by omega)).2 h3 hblk hA g

/-- From the flat interpreter loop to tree evaluation: a successful run
entering a printed segment evaluates the segment's tree and continues past
it with the remaining gas. -/
lemma flat_to_tree : ∀ g : Nat,
    (∀ (M : Nat) (prog : List Instruction) (off : Nat) (F : List Node) (s tu : IState),
      SegAt prog off F → ActsOK F → runAux M prog g off s = .ok tu →
      ∃ k g' s', g = k + g' ∧ EvalL M F s k s' ∧
        runAux M prog g' (off + lenL F) s' = .ok tu) ∧
    (∀ (M : Nat) (prog : List Instruction) (off : Nat) (b : List Node) (s tu : IState),
      BlockAt prog off b → ActsOK b → runAux M prog g (off + 1) s = .ok tu →
      ∃ k g' s', g = k + g' ∧ IterL M b s k s' ∧
        runAux M prog g' (off + lenL b + 2) s' = .ok tu) := by
  intro g
  induction g using Nat.strong_induction_on with
  | _ g ih =>
    have S1 : ∀ (M : Nat) (prog : List Instruction) (off : Nat) (F : List Node)
        (s tu : IState),
        SegAt prog off F → ActsOK F → runAux M prog g off s = .ok tu →
        ∃ k g' s', g = k + g' ∧ EvalL M F s k s' ∧
          runAux M prog g' (off + lenL F) s' = .ok tu := by
      intro M prog off F s tu hseg hA hrun
      cases F with
      | nil =>
        refine ⟨0, g, s, by omega, .nil, ?_⟩
        rw [show off + lenL ([] : List Node) = off from by simp [lenL]]
        exact hrun
      | cons nd rest =>
        cases nd with
        | act i =>
          obtain ⟨hip, hseg', hlt⟩ := SegAt_act hseg
          obtain ⟨hiA, hrA⟩ := ActsOK_act.1 hA
          cases g with
          | zero =>
            rw [runAux_zero, if_pos hlt] at hrun
            cases hrun
          | succ g0 =>
            rw [runAux_at_act hip hiA hlt] at hrun
            cases he : exec1 M i s with
            | error es =>
              obtain ⟨e, s₁⟩ := es
              rw [he] at hrun
              cases hrun
            | ok s₁ =>
              rw [he] at hrun
              have hrun' : runAux M prog g0 (off + 1) s₁ = .ok tu := hrun
              obtain ⟨k, g', s', hg, hev, hcont⟩ :=
                (ih g0 (by omega)).1 M prog (off + 1) rest s₁ tu hseg' hrA hrun'
              refine ⟨k + 1, g', s', by omega, .act he hev, ?_⟩
              rw [show off + lenL (Node.act i :: rest) = off + 1 + lenL rest from by
                simp [lenL]
                omega]
              exact hcont
        | block b =>
          obtain ⟨hblk, hseg', hlt⟩ := SegAt_block hseg
          obtain ⟨hbA, hrA⟩ := ActsOK_block.1 hA
          cases g with
          | zero =>
            rw [runAux_zero, if_pos hlt] at hrun
            cases hrun
          | succ g0 =>
            rw [runAux_succ, if_pos hlt] at hrun
            by_cases hb : s.left = some 0
            · rw [if_pos hb] at hrun
              cases hrun
            · rw [if_neg hb, step_at_loopstart hblk.1] at hrun
              have hstick := tickOk_mk hb
              by_cases hc : curCell s = 0
              · rw [if_pos hc] at hrun
                have hrun' : runAux M prog g0 (off + 1 + lenL b + 1)
                    { s with left := s.left.map (· - 1) } = .ok tu := hrun
                rw [show off + 1 + lenL b + 1 = off + 2 + lenL b from by omega] at hrun'
                obtain ⟨k, g', s', hg, hev, hcont⟩ :=
                  (ih g0 (by omega)).1 M prog (off + 2 + lenL b) rest _ tu hseg' hrA hrun'
                refine ⟨k + 1, g', s', by omega, .blk_exit hc hstick hev, ?_⟩
                rw [show off + lenL (Node.block b :: rest)
                  = off + 2 + lenL b + lenL rest from by simp [lenL]; omega]
                exact hcont
              · rw [if_neg hc] at hrun
                have hrun' : runAux M prog g0 (off + 1)
                    { s with left := s.left.map (· - 1) } = .ok tu := hrun
                obtain ⟨k₁, g₁, s₂, hg1, hit, hcont1⟩ :=
                  (ih g0 (by omega)).2 M prog off b _ tu hblk hbA hrun'
                rw [show off + lenL b + 2 = off + 2 + lenL b from by omega] at hcont1
                obtain ⟨k₂, g₂, s₃, hg2, hev2, hcont2⟩ :=
                  (ih g₁ (by omega)).1 M prog (off + 2 + lenL b) rest s₂ tu hseg' hrA hcont1
                refine ⟨1 + k₁ + k₂, g₂, s₃, by omega, .blk_enter hc hstick hit hev2, ?_⟩
                rw [show off + lenL (Node.block b :: rest)
                  = off + 2 + lenL b + lenL rest from by simp [lenL]; omega]
                exact hcont2
    have S2 : ∀ (M : Nat) (prog : List Instruction) (off : Nat) (b : List Node)
        (s tu : IState),
        BlockAt prog off b → ActsOK b → runAux M prog g (off + 1) s = .ok tu →
        ∃ k g' s', g = k + g' ∧ IterL M b s k s' ∧
          runAux M prog g' (off + lenL b + 2) s' = .ok tu := by
      intro M prog off b s tu hblk hA hrun
      obtain ⟨k₁, g₁, s₁, hg1, hev, hcont⟩ := S1 M prog (off + 1) b s tu hblk.2.1 hA hrun
      cases g₁ with
      | zero =>
        rw [runAux_zero, if_pos hblk.2.2.2] at hcont
        cases hcont
      | succ g₂ =>
        rw [runAux_succ, if_pos hblk.2.2.2] at hcont
        by_cases hb2 : s₁.left = some 0
        · rw [if_pos hb2] at hcont
          cases hcont
        · rw [if_neg hb2, step_at_loopend hblk.2.2.1] at hcont
          have hstick := tickOk_mk hb2
          by_cases hc : curCell s₁ = 0
          · rw [if_neg (by simp [hc])] at hcont
            have hcont' : runAux M prog g₂ (off + 1 + lenL b + 1)
                { s₁ with left := s₁.left.map (· - 1) } = .ok tu := hcont
            refine ⟨k₁ + 1, g₂, { s₁ with left := s₁.left.map (· - 1) }, by omega,
              .last hev hc hstick, ?_⟩
            rw [show off + lenL b + 2 = off + 1 + lenL b + 1 from by omega]
            exact hcont'
          · rw [if_pos hc] at hcont
            have hcont' : runAux M prog g₂ (off + 1)
                { s₁ with left := s₁.left.map (· - 1) } = .ok tu := hcont
            obtain ⟨k₂, g₃, s₃, hg3, hit, hcont2⟩ :=
              (ih g₂ (by omega)).2 M prog off b _ tu hblk hA hcont'
            exact ⟨k₁ + 1 + k₂, g₃, s₃, by omega, .again hev hc hstick hit, hcont2⟩
    exact ⟨S1, S2⟩

/-! ## Erasure of jump targets commutes with the optimizer passes -/

lemma fold_with_eri (M : Nat) (c n : Instruction) :
    fold_with M (eri c) (eri n) = fold_with M c n := by
  cases c <;> cases n <;> rfl

lemma foldGo_er (M : Nat) (c : Instruction) (l : List Instruction) :
    er (foldGo M c l) = foldGo M (eri c) (er l) := by
  induction c, l using foldGo.induct M with
  | case1 c => rfl
  | case2 c next f hf =>
    rw [foldGo_one]
    rw [show er [next] = [eri next] from rfl, foldGo_one, fold_with_eri, hf]
    rw [show er [f] = [eri f] from rfl,
      eri_nonloop (fold_with_notLoop M hf)]
  | case3 c next hf =>
    rw [foldGo_one]
    rw [show er [next] = [eri next] from rfl, foldGo_one, fold_with_eri, hf]
    rfl
  | case4 c next hf =>
    rw [foldGo_one]
    rw [show er [next] = [eri next] from rfl, foldGo_one, fold_with_eri, hf]
    rfl
  | case5 c next y r f hf ih =>
    rw [foldGo_cons]
    rw [show er (next :: y :: r) = eri next :: eri y :: er r from rfl, foldGo_cons,
      fold_with_eri, hf, ih, eri_nonloop (fold_with_notLoop M hf)]
    rfl
  | case6 c next y r hf ih =>
    rw [foldGo_cons]
    rw [show er (next :: y :: r) = eri next :: eri y :: er r from rfl, foldGo_cons,
      fold_with_eri, hf, ih]
  | case7 c next y r hf ih =>
    rw [foldGo_cons]
    rw [show er (next :: y :: r) = eri next :: eri y :: er r from rfl, foldGo_cons,
      fold_with_eri, hf, er_cons, ih]
    rfl

lemma er_fold_like (M : Nat) (l : List Instruction) :
    er (fold_like M l) = fold_like M (er l) := by
  cases l with
  | nil => rfl
  | cons x rest =>
    show er (foldGo M x rest) = fold_like M (eri x :: er rest)
    rw [foldGo_er]
    rfl

lemma zHit_er (l : List Instruction) : zHit (er l) = zHit l := by
  rcases l with _ | ⟨x, _ | ⟨y, _ | ⟨z, l2⟩⟩⟩
  · rfl
  · cases x <;> rfl
  · cases x <;> cases y <;> rfl
  · cases x <;> cases y <;> cases z <;> rfl

lemma rz_er (l : List Instruction) :
    er (recognize_zeroings l) = recognize_zeroings (er l) := by
  induction l using recognize_zeroings.induct with
  | case1 t u rest ih =>
    rw [rz_dec_eq, if_pos rfl]
    rw [show er (.LoopStart t :: .Dec 1 :: .LoopEnd u :: rest)
      = .LoopStart 0 :: .Dec 1 :: .LoopEnd 0 :: er rest from rfl, rz_dec_eq, if_pos rfl,
      er_cons, ih]
    rfl
  | case2 t a u rest ha ih =>
    rw [rz_dec_eq, if_neg ha]
    rw [show er (.LoopStart t :: .Dec a :: .LoopEnd u :: rest)
      = .LoopStart 0 :: .Dec a :: .LoopEnd 0 :: er rest from rfl, rz_dec_eq, if_neg ha,
      er_cons, ih]
    rfl
  | case3 t u rest ih =>
    rw [rz_inc_eq, if_pos rfl]
    rw [show er (.LoopStart t :: .Inc 1 :: .LoopEnd u :: rest)
      = .LoopStart 0 :: .Inc 1 :: .LoopEnd 0 :: er rest from rfl, rz_inc_eq, if_pos rfl,
      er_cons, ih]
    rfl
  | case4 t a u rest ha ih =>
    rw [rz_inc_eq, if_neg ha]
    rw [show er (.LoopStart t :: .Inc a :: .LoopEnd u :: rest)
      = .LoopStart 0 :: .Inc a :: .LoopEnd 0 :: er rest from rfl, rz_inc_eq, if_neg ha,
      er_cons, ih]
    rfl
  | case5 x rest h1 h2 ih =>
    have hz : zHit (x :: rest) = false := by
      cases x <;> try rfl
      case LoopStart t =>
        rcases rest with _ | ⟨y, _ | ⟨z, l2⟩⟩
        · rfl
        · cases y <;> rfl
        · cases y <;> try rfl
          case Dec a =>
            cases z <;> try rfl
            case LoopEnd u => exact absurd rfl (h1 t a u l2 rfl)
          case Inc a =>
            cases z <;> try rfl
            case LoopEnd u => exact absurd rfl (h2 t a u l2 rfl)
    have hz' : zHit (eri x :: er rest) = false := by
      rw [show eri x :: er rest = er (x :: rest) from rfl, zHit_er]
      exact hz
    rw [rz_cons_false x rest hz, er_cons, ih,
      show er (x :: rest) = eri x :: er rest from rfl, rz_cons_false _ _ hz']
  | case6 => rfl

/-! ## One folding pass corresponds to the tree fold -/

lemma foldGoO_none (M : Nat) (l : List Instruction) :
    foldGoO M none l = fold_like M l := rfl

lemma foldGoO_some (M : Nat) (c : Instruction) (l : List Instruction) :
    foldGoO M (some c) l = foldGo M c l := rfl

lemma tgo_none_nil (M : Nat) : tgo M none [] = [] := by simp [tgo]

lemma tgo_some_nil (M : Nat) (c : Instruction) : tgo M (some c) [] = [.act c] := by
  simp [tgo]

lemma tgo_none_act (M : Nat) (c : Instruction) (rest : List Node) :
    tgo M none (.act c :: rest) = tgo M (some c) rest := by
  simp [tgo]

lemma tgo_none_block (M : Nat) (b rest : List Node) :
    tgo M none (.block b :: rest) = .block (tgo M none b) :: tgo M none rest := by
  simp [tgo]

lemma tgo_some_act_folded (M : Nat) (c n : Instruction) (rest : List Node)
    (f : Instruction) (hf : fold_with M c n = .Folded f) :
    tgo M (some c) (.act n :: rest) = tgo M (some f) rest := by
  simp [tgo, hf]

lemma tgo_some_act_noop (M : Nat) (c n : Instruction) (rest : List Node)
    (hf : fold_with M c n = .NoOp) :
    tgo M (some c) (.act n :: rest) = tgo M none rest := by
  simp [tgo, hf]

lemma tgo_some_act_cantfold (M : Nat) (c n : Instruction) (rest : List Node)
    (hf : fold_with M c n = .CantFold) :
    tgo M (some c) (.act n :: rest) = .act c :: tgo M (some n) rest := by
  simp [tgo, hf]

lemma tgo_some_block (M : Nat) (c : Instruction) (b rest : List Node) :
    tgo M (some c) (.block b :: rest)
      = .act c :: .block (tgo M none b) :: tgo M none rest := by
  simp [tgo]

lemma fold_with_startL (M : Nat) (t : Nat) (x : Instruction) :
    fold_with M (.LoopStart t) x = .CantFold := by
  cases x <;> rfl

lemma fold_with_endL (M : Nat) (t : Nat) (x : Instruction) :
    fold_with M (.LoopEnd t) x = .CantFold := by
  cases x <;> rfl

lemma fold_with_startR (M : Nat) (c : Instruction) (t : Nat) :
    fold_with M c (.LoopStart t) = .CantFold := by
  cases c <;> rfl

lemma fold_with_endR (M : Nat) (c : Instruction) (t : Nat) :
    fold_with M c (.LoopEnd t) = .CantFold := by
  cases c <;> rfl

lemma foldGo_loopstartL (M : Nat) (t : Nat) (l : List Instruction) :
    foldGo M (.LoopStart t) l = .LoopStart t :: fold_like M l := by
  cases l with
  | nil => rfl
  | cons x xs =>
    rw [foldGo_cons_any, fold_with_startL]
    rfl

lemma foldGo_loopendL (M : Nat) (t : Nat) (l : List Instruction) :
    foldGo M (.LoopEnd t) l = .LoopEnd t :: fold_like M l := by
  cases l with
  | nil => rfl
  | cons x xs =>
    rw [foldGo_cons_any, fold_with_endL]
    rfl

lemma fold_like_eq_match (M : Nat) (L : List Instruction) :
    (match L with
      | [] => ([] : List Instruction)
      | y :: r => foldGo M y r) = fold_like M L := by
  cases L <;> rfl

lemma corr_go (M : Nat) (oc : Option Instruction) (F : List Node) :
    ∀ rest : List Instruction,
      foldGoO M oc (flatE F ++ .LoopEnd 0 :: rest)
        = flatE (tgo M oc F) ++ .LoopEnd 0 :: fold_like M rest := by
  induction oc, F using tgo.induct M with
  | case1 =>
    intro rest
    rw [tgo_none_nil, flatE_nil]
    show foldGo M (.LoopEnd 0) rest = [] ++ .LoopEnd 0 :: fold_like M rest
    rw [foldGo_loopendL, List.nil_append]
  | case2 c =>
    intro rest
    rw [tgo_some_nil, flatE_act, flatE_nil]
    show foldGo M c (.LoopEnd 0 :: rest) = (c :: []) ++ .LoopEnd 0 :: fold_like M rest
    rw [foldGo_cons_any, fold_with_endR]
    show c :: foldGo M (.LoopEnd 0) rest = _
    rw [foldGo_loopendL]
    rfl
  | case3 c rest ih =>
    intro R
    rw [tgo_none_act, flatE_act]
    show foldGoO M (some c) (flatE rest ++ .LoopEnd 0 :: R) = _
    exact ih R
  | case4 b rest ihb ihr =>
    intro R
    rw [tgo_none_block]
    simp only [flatE_block]
    show foldGo M (.LoopStart 0)
      ((flatE b ++ .LoopEnd 0 :: flatE rest) ++ .LoopEnd 0 :: R) = _
    rw [foldGo_loopstartL, List.append_assoc, List.cons_append]
    show Instruction.LoopStart 0 ::
        foldGoO M none (flatE b ++ .LoopEnd 0 :: (flatE rest ++ .LoopEnd 0 :: R)) = _
    rw [ihb]
    show Instruction.LoopStart 0 :: (flatE (tgo M none b) ++ .LoopEnd 0 ::
        foldGoO M none (flatE rest ++ .LoopEnd 0 :: R)) = _
    rw [ihr R]
    simp
  | case5 c n rest f hf ih =>
    intro R
    rw [tgo_some_act_folded M c n rest f hf, flatE_act]
    show foldGo M c (n :: (flatE rest ++ .LoopEnd 0 :: R)) = _
    rw [foldGo_cons_any, hf]
    show foldGoO M (some f) (flatE rest ++ .LoopEnd 0 :: R) = _
    exact ih R
  | case6 c n rest hf ih =>
    intro R
    rw [tgo_some_act_noop M c n rest hf, flatE_act]
    show foldGo M c (n :: (flatE rest ++ .LoopEnd 0 :: R)) = _
    rw [foldGo_cons_any, hf]
    show (match flatE rest ++ .LoopEnd 0 :: R with
      | [] => ([] : List Instruction)
      | y :: r => foldGo M y r) = _
    rw [fold_like_eq_match]
    exact ih R
  | case7 c n rest hf ih =>
    intro R
    rw [tgo_some_act_cantfold M c n rest hf, flatE_act, flatE_act]
    show foldGo M c (n :: (flatE rest ++ .LoopEnd 0 :: R)) = _
    rw [foldGo_cons_any, hf]
    show c :: foldGoO M (some n) (flatE rest ++ .LoopEnd 0 :: R) = _
    rw [ih R]
    rfl
  | case8 c b rest ihb ihr =>
    intro R
    rw [tgo_some_block]
    simp only [flatE_block, flatE_act]
    show foldGo M c
      (.LoopStart 0 :: ((flatE b ++ .LoopEnd 0 :: flatE rest) ++ .LoopEnd 0 :: R)) = _
    rw [foldGo_cons_any, fold_with_startR]
    show c :: foldGo M (.LoopStart 0)
      ((flatE b ++ .LoopEnd 0 :: flatE rest) ++ .LoopEnd 0 :: R) = _
    rw [foldGo_loopstartL, List.append_assoc, List.cons_append]
    show c :: .LoopStart 0 ::
        foldGoO M none (flatE b ++ .LoopEnd 0 :: (flatE rest ++ .LoopEnd 0 :: R)) = _
    rw [ihb]
    show c :: .LoopStart 0 :: (flatE (tgo M none b) ++ .LoopEnd 0 ::
        foldGoO M none (flatE rest ++ .LoopEnd 0 :: R)) = _
    rw [ihr R]
    simp

lemma corr_top (M : Nat) (oc : Option Instruction) (F : List Node) :
    foldGoO M oc (flatE F) = flatE (tgo M oc F) := by
  induction oc, F using tgo.induct M with
  | case1 =>
    rw [tgo_none_nil, flatE_nil]
    rfl
  | case2 c =>
    rw [tgo_some_nil, flatE_act, flatE_nil]
    rfl
  | case3 c rest ih =>
    rw [tgo_none_act, flatE_act]
    show foldGoO M (some c) (flatE rest) = _
    exact ih
  | case4 b rest ihb ihr =>
    rw [tgo_none_block]
    simp only [flatE_block]
    show foldGo M (.LoopStart 0) (flatE b ++ .LoopEnd 0 :: flatE rest) = _
    rw [foldGo_loopstartL]
    show Instruction.LoopStart 0 ::
        foldGoO M none (flatE b ++ .LoopEnd 0 :: flatE rest) = _
    rw [corr_go M none b (flatE rest), ← foldGoO_none M (flatE rest), ihr]
  | case5 c n rest f hf ih =>
    rw [tgo_some_act_folded M c n rest f hf, flatE_act]
    show foldGo M c (n :: flatE rest) = _
    rw [foldGo_cons_any, hf]
    show foldGoO M (some f) (flatE rest) = _
    exact ih
  | case6 c n rest hf ih =>
    rw [tgo_some_act_noop M c n rest hf, flatE_act]
    show foldGo M c (n :: flatE rest) = _
    rw [foldGo_cons_any, hf]
    show (match flatE rest with
      | [] => ([] : List Instruction)
      | y :: r => foldGo M y r) = _
    rw [fold_like_eq_match]
    exact ih
  | case7 c n rest hf ih =>
    rw [tgo_some_act_cantfold M c n rest hf, flatE_act, flatE_act]
    show foldGo M c (n :: flatE rest) = _
    rw [foldGo_cons_any, hf]
    show c :: foldGoO M (some n) (flatE rest) = _
    rw [ih]
  | case8 c b rest ihb ihr =>
    rw [tgo_some_block]
    simp only [flatE_block, flatE_act]
    show foldGo M c (.LoopStart 0 :: (flatE b ++ .LoopEnd 0 :: flatE rest)) = _
    rw [foldGo_cons_any, fold_with_startR]
    show c :: foldGo M (.LoopStart 0) (flatE b ++ .LoopEnd 0 :: flatE rest) = _
    rw [foldGo_loopstartL]
    show c :: .LoopStart 0 ::
        foldGoO M none (flatE b ++ .LoopEnd 0 :: flatE rest) = _
    rw [corr_go M none b (flatE rest), ← foldGoO_none M (flatE rest), ihr]

lemma fold_like_flatE (M : Nat) (F : List Node) :
    fold_like M (flatE F) = flatE (tgo M none F) := corr_top M none F

/-! ## The zeroing pass corresponds to the tree zeroing pass -/

lemma tzero_nil : tzero [] = [] := by simp [tzero]

lemma tzero_act (i : Instruction) (rest : List Node) :
    tzero (.act i :: rest) = .act i :: tzero rest := by simp [tzero]

lemma tzero_dec1 (rest : List Node) :
    tzero (.block [.act (.Dec 1)] :: rest) = .act (.Set 0) :: tzero rest := by
  simp [tzero]

lemma tzero_decn (a : Nat) (ha : ¬ a = 1) (rest : List Node) :
    tzero (.block [.act (.Dec a)] :: rest)
      = .block [.act (.Dec a)] :: tzero rest := by
  simp [tzero, ha]

lemma tzero_inc1 (rest : List Node) :
    tzero (.block [.act (.Inc 1)] :: rest) = .act (.Set 0) :: tzero rest := by
  simp [tzero]

lemma tzero_incn (a : Nat) (ha : ¬ a = 1) (rest : List Node) :
    tzero (.block [.act (.Inc a)] :: rest)
      = .block [.act (.Inc a)] :: tzero rest := by
  simp [tzero, ha]

lemma tzero_blk (b rest : List Node)
    (hd : ∀ a, b = [.act (.Dec a)] → False)
    (hi : ∀ a, b = [.act (.Inc a)] → False) :
    tzero (.block b :: rest) = .block (tzero b) :: tzero rest := by
  rcases b with _ | ⟨x, b2⟩
  · simp [tzero]
  rcases x with i | q
  · rcases b2 with _ | ⟨y, b3⟩
    · cases i
      case Dec a => exact (hd a rfl).elim
      case Inc a => exact (hi a rfl).elim
      all_goals simp [tzero]
    · cases i <;> simp [tzero]
  · simp [tzero]

lemma zHit_nonstart (x : Instruction) (l : List Instruction)
    (h : isLoopStart x = false) : zHit (x :: l) = false := by
  rcases l with _ | ⟨y, _ | ⟨z, l2⟩⟩ <;> cases x <;>
    first | rfl | simp [isLoopStart] at h

lemma zHit_flat_block (b : List Node) (hA : ActsOK b)
    (hd : ∀ a, b = [.act (.Dec a)] → False)
    (hi : ∀ a, b = [.act (.Inc a)] → False)
    (X : List Instruction) :
    zHit (.LoopStart 0 :: (flatE b ++ .LoopEnd 0 :: X)) = false := by
  rcases b with _ | ⟨x, b2⟩
  · rw [flatE_nil]
    rfl
  rcases x with i | q
  · rw [flatE_act]
    have hnl : isLoopInstr i = false := (ActsOK_act.1 hA).1
    cases i
    case LoopStart t => simp [isLoopInstr, isLoopStart] at hnl
    case LoopEnd t => simp [isLoopInstr, isLoopEnd, isLoopStart] at hnl
    case Dec a =>
      rcases b2 with _ | ⟨y, b3⟩
      · exact (hd a rfl).elim
      rcases y with j | q2
      · rw [flatE_act]
        have hj : isLoopInstr j = false :=
          (ActsOK_act.1 ((ActsOK_act.1 hA).2)).1
        cases j <;>
          first | rfl |
            simp [isLoopInstr, isLoopStart, isLoopEnd] at hj
      · rw [flatE_block]
        rfl
    case Inc a =>
      rcases b2 with _ | ⟨y, b3⟩
      · exact (hi a rfl).elim
      rcases y with j | q2
      · rw [flatE_act]
        have hj : isLoopInstr j = false :=
          (ActsOK_act.1 ((ActsOK_act.1 hA).2)).1
        cases j <;>
          first | rfl |
            simp [isLoopInstr, isLoopStart, isLoopEnd] at hj
      · rw [flatE_block]
        rfl
    all_goals rfl
  · rw [flatE_block]
    rfl

lemma nonstart_of_nonloop {i : Instruction} (h : isLoopInstr i = false) :
    isLoopStart i = false := by
  cases i <;> simp [isLoopInstr, isLoopStart, isLoopEnd] at h ⊢

lemma corrz_go (F : List Node) :
    ActsOK F → ∀ R : List Instruction,
      recognize_zeroings (flatE F ++ .LoopEnd 0 :: R)
        = flatE (tzero F) ++ .LoopEnd 0 :: recognize_zeroings R := by
  induction F using tzero.induct with
  | case1 =>
    intro _ R
    rw [tzero_nil, flatE_nil, List.nil_append, List.nil_append,
      rz_cons_false _ _ (zHit_nonstart (.LoopEnd 0) _ rfl)]
  | case2 rest ih =>
    intro hA R
    have hAr : ActsOK rest := (ActsOK_block.1 hA).2
    rw [flatE_block, flatE_act, flatE_nil]
    show recognize_zeroings
        (.LoopStart 0 :: .Dec 1 :: .LoopEnd 0 :: (flatE rest ++ .LoopEnd 0 :: R)) = _
    rw [rz_dec_eq, if_pos rfl, ih hAr R, tzero_dec1, flatE_act]
    rfl
  | case3 a rest ha ih =>
    intro hA R
    have hAr : ActsOK rest := (ActsOK_block.1 hA).2
    rw [flatE_block, flatE_act, flatE_nil]
    show recognize_zeroings
        (.LoopStart 0 :: .Dec a :: .LoopEnd 0 :: (flatE rest ++ .LoopEnd 0 :: R)) = _
    rw [rz_dec_eq, if_neg ha,
      rz_cons_false _ _ (zHit_nonstart (.Dec a) _ rfl),
      rz_cons_false _ _ (zHit_nonstart (.LoopEnd 0) _ rfl),
      ih hAr R, tzero_decn a ha rest, flatE_block, flatE_act, flatE_nil]
    rfl
  | case4 rest ih =>
    intro hA R
    have hAr : ActsOK rest := (ActsOK_block.1 hA).2
    rw [flatE_block, flatE_act, flatE_nil]
    show recognize_zeroings
        (.LoopStart 0 :: .Inc 1 :: .LoopEnd 0 :: (flatE rest ++ .LoopEnd 0 :: R)) = _
    rw [rz_inc_eq, if_pos rfl, ih hAr R, tzero_inc1, flatE_act]
    rfl
  | case5 a rest ha ih =>
    intro hA R
    have hAr : ActsOK rest := (ActsOK_block.1 hA).2
    rw [flatE_block, flatE_act, flatE_nil]
    show recognize_zeroings
        (.LoopStart 0 :: .Inc a :: .LoopEnd 0 :: (flatE rest ++ .LoopEnd 0 :: R)) = _
    rw [rz_inc_eq, if_neg ha,
      rz_cons_false _ _ (zHit_nonstart (.Inc a) _ rfl),
      rz_cons_false _ _ (zHit_nonstart (.LoopEnd 0) _ rfl),
      ih hAr R, tzero_incn a ha rest, flatE_block, flatE_act, flatE_nil]
    rfl
  | case6 b rest hd hi ihb ihr =>
    intro hA R
    have hAb : ActsOK b := (ActsOK_block.1 hA).1
    have hAr : ActsOK rest := (ActsOK_block.1 hA).2
    rw [flatE_block]
    show recognize_zeroings
        (.LoopStart 0 :: ((flatE b ++ .LoopEnd 0 :: flatE rest) ++ .LoopEnd 0 :: R))
      = _
    rw [List.append_assoc, List.cons_append,
      rz_cons_false _ _ (zHit_flat_block b hAb hd hi _),
      ihb hAb _, ihr hAr R, tzero_blk b rest hd hi, flatE_block]
    simp
  | case7 i rest ih =>
    intro hA R
    have hs : isLoopStart i = false := nonstart_of_nonloop (ActsOK_act.1 hA).1
    have hAr : ActsOK rest := (ActsOK_act.1 hA).2
    rw [flatE_act]
    show recognize_zeroings (i :: (flatE rest ++ .LoopEnd 0 :: R)) = _
    rw [rz_cons_false _ _ (zHit_nonstart _ _ hs), ih hAr R, tzero_act, flatE_act]
    rfl

lemma corrz_top (F : List Node) :
    ActsOK F →
      recognize_zeroings (flatE F) = flatE (tzero F) := by
  induction F using tzero.induct with
  | case1 =>
    intro _
    rw [tzero_nil, flatE_nil]
    rfl
  | case2 rest ih =>
    intro hA
    have hAr : ActsOK rest := (ActsOK_block.1 hA).2
    rw [flatE_block, flatE_act, flatE_nil]
    show recognize_zeroings
        (.LoopStart 0 :: .Dec 1 :: .LoopEnd 0 :: flatE rest) = _
    rw [rz_dec_eq, if_pos rfl, ih hAr, tzero_dec1, flatE_act]
  | case3 a rest ha ih =>
    intro hA
    have hAr : ActsOK rest := (ActsOK_block.1 hA).2
    rw [flatE_block, flatE_act, flatE_nil]
    show recognize_zeroings
        (.LoopStart 0 :: .Dec a :: .LoopEnd 0 :: flatE rest) = _
    rw [rz_dec_eq, if_neg ha,
      rz_cons_false _ _ (zHit_nonstart (.Dec a) _ rfl),
      rz_cons_false _ _ (zHit_nonstart (.LoopEnd 0) _ rfl),
      ih hAr, tzero_decn a ha rest, flatE_block, flatE_act, flatE_nil]
    rfl
  | case4 rest ih =>
    intro hA
    have hAr : ActsOK rest := (ActsOK_block.1 hA).2
    rw [flatE_block, flatE_act, flatE_nil]
    show recognize_zeroings
        (.LoopStart 0 :: .Inc 1 :: .LoopEnd 0 :: flatE rest) = _
    rw [rz_inc_eq, if_pos rfl, ih hAr, tzero_inc1, flatE_act]
  | case5 a rest ha ih =>
    intro hA
    have hAr : ActsOK rest := (ActsOK_block.1 hA).2
    rw [flatE_block, flatE_act, flatE_nil]
    show recognize_zeroings
        (.LoopStart 0 :: .Inc a :: .LoopEnd 0 :: flatE rest) = _
    rw [rz_inc_eq, if_neg ha,
      rz_cons_false _ _ (zHit_nonstart (.Inc a) _ rfl),
      rz_cons_false _ _ (zHit_nonstart (.LoopEnd 0) _ rfl),
      ih hAr, tzero_incn a ha rest, flatE_block, flatE_act, flatE_nil]
    rfl
  | case6 b rest hd hi ihb ihr =>
    intro hA
    have hAb : ActsOK b := (ActsOK_block.1 hA).1
    have hAr : ActsOK rest := (ActsOK_block.1 hA).2
    rw [flatE_block,
      rz_cons_false _ _ (zHit_flat_block b hAb hd hi _),
      corrz_go b hAb (flatE rest), ihr hAr, tzero_blk b rest hd hi, flatE_block]
  | case7 i rest ih =>
    intro hA
    have hs : isLoopStart i = false := nonstart_of_nonloop (ActsOK_act.1 hA).1
    have hAr : ActsOK rest := (ActsOK_act.1 hA).2
    rw [flatE_act, rz_cons_false _ _ (zHit_nonstart _ _ hs), ih hAr,
      tzero_act, flatE_act]

/-! ## Simulation: the tree fold pass preserves successful runs -/

lemma Pend_none {M : Nat} {su so : IState} : Pend M none su so ↔ Rel su so :=
  Iff.rfl

lemma Pend_some {M : Nat} {c : Instruction} {su so : IState} :
    Pend M (some c) su so ↔
      WFInstr M c ∧ ∃ s', exec1 M c so = .ok s' ∧ Rel su s' :=
  Iff.rfl

lemma pend_none : pend none = 0 := rfl

lemma pend_some (c : Instruction) : pend (some c) = 1 := rfl

lemma wfs_Rel_iff {M : Nat} {a b : IState} (hR : Rel a b) :
    WFS M a ↔ WFS M b := by
  unfold WFS
  rw [hR.1, hR.2.1, hR.2.2.1]

lemma goSim : ∀ n : Nat,
    (∀ {M : Nat} {oc : Option Instruction} {F : List Node} {su t : IState},
      256 ≤ M → TWFL M F → EvalL M F su n t →
      ∀ {so : IState}, WFS M so → Pend M oc su so →
      ∃ k₂ t₂, EvalL M (tgo M oc F) so k₂ t₂ ∧ Rel t t₂ ∧ k₂ ≤ pend oc + n) ∧
    (∀ {M : Nat} {b : List Node} {su t : IState},
      256 ≤ M → TWFL M b → IterL M b su n t →
      ∀ {so : IState}, WFS M so → Rel su so →
      ∃ k₂ t₂, IterL M (tgo M none b) so k₂ t₂ ∧ Rel t t₂ ∧ k₂ ≤ n) := by
  intro n
  induction n using Nat.strong_induction_on with
  | _ n ih =>
    constructor
    · intro M oc F su t hM hT h so hws hP
      cases h with
      | nil =>
        cases oc with
        | none =>
          refine ⟨0, so, ?_, Pend_none.1 hP, by rw [pend_none]⟩
          rw [tgo_none_nil]
          exact .nil
        | some c =>
          obtain ⟨hwc, s', he, hR⟩ := Pend_some.1 hP
          refine ⟨1, s', ?_, hR, by rw [pend_some]⟩
          rw [tgo_some_nil]
          exact .act he .nil
      | act h1 h2 =>
        rename_i i rest s₁ k
        obtain ⟨hi, hTr⟩ := TWFL_act.1 hT
        cases oc with
        | none =>
          obtain ⟨s₁', he', hR₁⟩ := exec1_sim M i (Pend_none.1 hP) h1
          obtain ⟨k₂, t₂, hd, hR₂, hk⟩ := (ih k (by omega)).1 hM hTr h2 hws
            (Pend_some.2 ⟨hi, s₁', he', hR₁⟩)
          refine ⟨k₂, t₂, ?_, hR₂, ?_⟩
          · rw [tgo_none_act]
            exact hd
          · rw [pend_some] at hk
            rw [pend_none]
            omega
        | some c =>
          obtain ⟨hwc, s', he, hRsu⟩ := Pend_some.1 hP
          obtain ⟨s₁', he1', hR₁⟩ := exec1_sim M i hRsu h1
          cases hf : fold_with M c i with
          | Folded f =>
            have hwf := fold_with_wf M (by omega) hwc hi hf
            obtain ⟨s₂', he2', hR₂⟩ := (exec2_fold M hM hwc hi hws he he1').1 f hf
            obtain ⟨k₂, t₂, hd, hR₃, hk⟩ := (ih k (by omega)).1 hM hTr h2 hws
              (Pend_some.2 ⟨hwf, s₂', he2', Rel_trans hR₁ hR₂⟩)
            refine ⟨k₂, t₂, ?_, hR₃, ?_⟩
            · rw [tgo_some_act_folded M c i rest f hf]
              exact hd
            · rw [pend_some] at hk ⊢
              omega
          | NoOp =>
            have hR0 := (exec2_fold M hM hwc hi hws he he1').2 hf
            obtain ⟨k₂, t₂, hd, hR₃, hk⟩ := (ih k (by omega)).1 hM hTr h2 hws
              (Pend_none.2 (Rel_trans hR₁ hR0))
            refine ⟨k₂, t₂, ?_, hR₃, ?_⟩
            · rw [tgo_some_act_noop M c i rest hf]
              exact hd
            · rw [pend_none] at hk
              rw [pend_some]
              omega
          | CantFold =>
            have hws' := wfs_exec1 M hM c hwc hws he
            obtain ⟨k₂, t₂, hd, hR₃, hk⟩ := (ih k (by omega)).1 hM hTr h2 hws'
              (Pend_some.2 ⟨hi, s₁', he1', hR₁⟩)
            refine ⟨k₂ + 1, t₂, ?_, hR₃, ?_⟩
            · rw [tgo_some_act_cantfold M c i rest hf]
              exact .act he hd
            · rw [pend_some] at hk ⊢
              omega
      | blk_exit hc h1 h2 =>
        rename_i b rest s₁ k
        obtain ⟨hTb, hTr⟩ := TWFL_block.1 hT
        cases oc with
        | none =>
          obtain ⟨s₁', ht', hR₁⟩ := tick_sim (Pend_none.1 hP) h1
          obtain ⟨k₂, t₂, hd, hR₂, hk⟩ := (ih k (by omega)).1 hM hTr h2
            (wfs_tick hws ht') (Pend_none.2 hR₁)
          refine ⟨k₂ + 1, t₂, ?_, hR₂, ?_⟩
          · rw [tgo_none_block]
            exact .blk_exit (by rw [Rel_curCell (Pend_none.1 hP)]; exact hc) ht' hd
          · rw [pend_none] at hk ⊢
            omega
        | some c =>
          obtain ⟨hwc, s', he, hRsu⟩ := Pend_some.1 hP
          have hws' := wfs_exec1 M hM c hwc hws he
          obtain ⟨s₁', ht', hR₁⟩ := tick_sim hRsu h1
          obtain ⟨k₂, t₂, hd, hR₂, hk⟩ := (ih k (by omega)).1 hM hTr h2
            (wfs_tick hws' ht') (Pend_none.2 hR₁)
          refine ⟨k₂ + 1 + 1, t₂, ?_, hR₂, ?_⟩
          · rw [tgo_some_block]
            exact .act he (.blk_exit (by rw [Rel_curCell hRsu]; exact hc) ht' hd)
          · rw [pend_none] at hk
            rw [pend_some]
            omega
      | blk_enter hc h1 h2 h3 =>
        rename_i b rest s₁ s₂ k₁ k₂
        obtain ⟨hTb, hTr⟩ := TWFL_block.1 hT
        cases oc with
        | none =>
          obtain ⟨s₁', ht', hR₁⟩ := tick_sim (Pend_none.1 hP) h1
          have hws₁ := wfs_tick hws ht'
          obtain ⟨k₁', s₂', hdI, hR₂, hk1⟩ := (ih k₁ (by omega)).2 hM hTb h2 hws₁ hR₁
          have hwsu : WFS M su := (wfs_Rel_iff (Pend_none.1 hP)).2 hws
          have hws₂ : WFS M s₂' := (wfs_Rel_iff hR₂).1
            ((evalWfs k₁).2 hM hTb h2 (wfs_tick hwsu h1))
          obtain ⟨k₃, t₂, hd₃, hR₃, hk3⟩ := (ih k₂ (by omega)).1 hM hTr h3 hws₂
            (Pend_none.2 hR₂)
          refine ⟨1 + k₁' + k₃, t₂, ?_, hR₃, ?_⟩
          · rw [tgo_none_block]
            exact .blk_enter (by rw [Rel_curCell (Pend_none.1 hP)]; exact hc)
              ht' hdI hd₃
          · rw [pend_none] at hk3 ⊢
            omega
        | some c =>
          obtain ⟨hwc, s', he, hRsu⟩ := Pend_some.1 hP
          have hws' := wfs_exec1 M hM c hwc hws he
          obtain ⟨s₁', ht', hR₁⟩ := tick_sim hRsu h1
          have hws₁ := wfs_tick hws' ht'
          obtain ⟨k₁', s₂', hdI, hR₂, hk1⟩ := (ih k₁ (by omega)).2 hM hTb h2 hws₁ hR₁
          have hwsu : WFS M su := (wfs_Rel_iff hRsu).2 hws'
          have hws₂ : WFS M s₂' := (wfs_Rel_iff hR₂).1
            ((evalWfs k₁).2 hM hTb h2 (wfs_tick hwsu h1))
          obtain ⟨k₃, t₂, hd₃, hR₃, hk3⟩ := (ih k₂ (by omega)).1 hM hTr h3 hws₂
            (Pend_none.2 hR₂)
          refine ⟨1 + k₁' + k₃ + 1, t₂, ?_, hR₃, ?_⟩
          · rw [tgo_some_block]
            exact .act he
              (.blk_enter (by rw [Rel_curCell hRsu]; exact hc) ht' hdI hd₃)
          · rw [pend_none] at hk3
            rw [pend_some]
            omega
    · intro M b su t hM hT h so hws hR
      cases h with
      | last h1 hc h2 =>
        rename_i s₁ k
        obtain ⟨k', s₁', hd, hR₁, hk⟩ := (ih k (by omega)).1 hM hT h1 hws
          (Pend_none.2 hR)
        obtain ⟨s₂', ht', hR₂⟩ := tick_sim hR₁ h2
        refine ⟨k' + 1, s₂', .last hd (by rw [Rel_curCell hR₁]; exact hc) ht',
          hR₂, ?_⟩
        rw [pend_none] at hk
        omega
      | again h1 hc h2 h3 =>
        rename_i s₁ s₂ k₁ k₂
        obtain ⟨k₁', s₁', hd₁, hR₁, hk₁⟩ := (ih k₁ (by omega)).1 hM hT h1 hws
          (Pend_none.2 hR)
        obtain ⟨s₂', ht', hR₂⟩ := tick_sim hR₁ h2
        have hwsu : WFS M su := (wfs_Rel_iff hR).2 hws
        have hws₂ : WFS M s₂' := (wfs_Rel_iff hR₂).1
          (wfs_tick ((evalWfs k₁).1 hM hT h1 hwsu) h2)
        obtain ⟨k₂', t₂, hd₂, hR₃, hk₂⟩ := (ih k₂ (by omega)).2 hM hT h3 hws₂ hR₂
        refine ⟨k₁' + 1 + k₂', t₂,
          .again hd₁ (by rw [Rel_curCell hR₁]; exact hc) ht' hd₂, hR₃, ?_⟩
        rw [pend_none] at hk₁
        omega

/-! ## Simulation: the tree zeroing pass preserves successful runs -/

lemma leftLE_map_sub {a b : Option Nat} (h : leftLE a b) {j k : Nat}
    (hjk : j ≤ k) : leftLE (a.map (· - k)) (b.map (· - j)) := by
  cases a <;> cases b <;> simp [leftLE] at * <;> omega

lemma tick_obs {s s₁ : IState} (h : tickOk s = some s₁) :
    s₁.data = s.data ∧ s₁.ptr = s.ptr ∧ s₁.input = s.input ∧
      s₁.output = s.output := by
  rw [(tickOk_decomp h).2]
  exact ⟨rfl, rfl, rfl, rfl⟩

lemma exec1_set_char {M : Nat} {i : Instruction} {v : Nat} {s s' : IState}
    (hv : stepInstr M i s = .ok (setCell s v)) (h : exec1 M i s = .ok s') :
    s'.data = s.data.set s.ptr v ∧ s'.ptr = s.ptr ∧ s'.input = s.input ∧
      s'.output = s.output ∧ s'.left = s.left.map (· - 1) ∧
      (s.ptr < s.data.length → curCell s' = v) := by
  obtain ⟨hb, tpre, hst, hs'⟩ := exec1_decomp h
  rw [hv] at hst
  injection hst with h2
  subst h2
  subst hs'
  exact ⟨rfl, rfl, rfl, rfl, rfl, fun hp => curCell_set v hp⟩

lemma iterCell (M : Nat) (i : Instruction)
    (hset : ∀ u : IState, ∃ v, stepInstr M i u = .ok (setCell u v)) :
    ∀ n : Nat, ∀ {s t : IState}, IterL M [.act i] s n t →
      s.ptr < s.data.length →
      t.ptr = s.ptr ∧ t.data = s.data.set s.ptr 0 ∧ t.input = s.input ∧
      t.output = s.output ∧ t.left = s.left.map (· - n) := by
  intro n
  induction n using Nat.strong_induction_on with
  | _ n ih =>
    intro s t h hp
    cases h with
    | last h1 hc h2 =>
      rename_i s₁ k
      cases h1 with
      | act he1 hrest =>
        rename_i u₁ k'
        cases hrest
        obtain ⟨v, hv⟩ := hset s
        obtain ⟨hdata, hptr, hin, hout, hleft, hcur⟩ := exec1_set_char hv he1
        have hv0 : v = 0 := (hcur hp).symm.trans hc
        obtain ⟨htd, htp, hti, hto⟩ := tick_obs h2
        refine ⟨htp.trans hptr, ?_, hti.trans hin, hto.trans hout, ?_⟩
        · rw [htd, hdata, hv0]
        · rw [tick_left h2, hleft]
          exact map_sub_comp s.left 1 1 _ (by omega)
    | again h1 hc h2 h3 =>
      rename_i s₁ s₂ k₁ k₂
      cases h1 with
      | act he1 hrest =>
        rename_i u₁ k'
        cases hrest
        obtain ⟨v, hv⟩ := hset s
        obtain ⟨hdata, hptr, hin, hout, hleft, hcur⟩ := exec1_set_char hv he1
        obtain ⟨htd, htp, hti, hto⟩ := tick_obs h2
        have hp2 : s₂.ptr < s₂.data.length := by
          rw [htp, htd, hptr, hdata]
          simpa using hp
        obtain ⟨ihp, ihd, ihi, iho, ihl⟩ := ih k₂ (by omega) h3 hp2
        refine ⟨?_, ?_, ?_, ?_, ?_⟩
        · rw [ihp, htp, hptr]
        · rw [ihd, htd, htp, hdata, hptr, List.set_set]
        · rw [ihi, hti, hin]
        · rw [iho, hto, hout]
        · rw [ihl, tick_left h2, hleft, map_sub_comp s.left 1 1 2 rfl]
          exact map_sub_comp s.left 2 k₂ _ (by omega)

lemma tzero_block_cases (b rest : List Node) :
    (tzero (.block b :: rest) = .act (.Set 0) :: tzero rest ∧
      (b = [.act (.Dec 1)] ∨ b = [.act (.Inc 1)])) ∨
    tzero (.block b :: rest) = .block (tzero b) :: tzero rest := by
  rcases b with _ | ⟨x, b2⟩
  · right
    exact tzero_blk [] rest (by intro a h; cases h) (by intro a h; cases h)
  rcases x with i | q
  · rcases b2 with _ | ⟨y, b3⟩
    · cases i
      case Dec a =>
        rcases eq_or_ne a 1 with rfl | ha
        · exact .inl ⟨tzero_dec1 rest, .inl rfl⟩
        · right
          rw [tzero_decn a ha rest, tzero_act, tzero_nil]
      case Inc a =>
        rcases eq_or_ne a 1 with rfl | ha
        · exact .inl ⟨tzero_inc1 rest, .inr rfl⟩
        · right
          rw [tzero_incn a ha rest, tzero_act, tzero_nil]
      all_goals
        right
        rw [tzero_blk _ rest (by intro a h; simp at h) (by intro a h; simp at h),
          tzero_act, tzero_nil]
    · right
      exact tzero_blk _ rest (by intro a h; simp at h) (by intro a h; simp at h)
  · right
    exact tzero_blk _ rest (by intro a h; simp at h) (by intro a h; simp at h)

lemma zstep_skip (M : Nat) (hM : 256 ≤ M) {su s₁ so : IState}
    (hR : Rel su so) (hws : WFS M so) (hc : curCell su = 0)
    (h1 : tickOk su = some s₁) :
    ∃ so₁, exec1 M (.Set 0) so = .ok so₁ ∧ Rel s₁ so₁ ∧ WFS M so₁ := by
  have hb0 : so.left ≠ some 0 := leftLE_ne_zero hR.2.2.2.2 (tickOk_decomp h1).1
  have hei := exec1_mk hb0 (show stepInstr M (.Set 0) so = .ok (setCell so 0) from rfl)
  obtain ⟨hdata, hptr, hin, hout, hleft, _⟩ := exec1_set_char
    (show stepInstr M (.Set 0) so = .ok (setCell so 0) from rfl) hei
  have hc0 : curCell so = 0 := by rw [Rel_curCell hR]; exact hc
  have hzero : so.data.set so.ptr 0 = so.data := by
    have h5 := @set_getD_self so.data so.ptr
    rw [show so.data.getD so.ptr 0 = curCell so from rfl, hc0] at h5
    exact h5
  obtain ⟨htd, htp, hti, hto⟩ := tick_obs h1
  refine ⟨_, hei, ⟨?_, ?_, ?_, ?_, ?_⟩,
    wfs_exec1 M hM (.Set 0) (by show (0:Nat) < M; omega) hws hei⟩
  · rw [hdata, hzero, hR.1, htd]
  · rw [hptr, hR.2.1, htp]
  · rw [hin, hR.2.2.1, hti]
  · rw [hout, hR.2.2.2.1, hto]
  · rw [hleft, tick_left h1]
    exact leftLE_dec hR.2.2.2.2

lemma zstep_loop (M : Nat) (hM : 256 ≤ M) (i : Instruction)
    (hset : ∀ u : IState, ∃ v, stepInstr M i u = .ok (setCell u v))
    {su s₁ s₂ so : IState} {k₁ : Nat}
    (hR : Rel su so) (hws : WFS M so)
    (h1 : tickOk su = some s₁) (h2 : IterL M [.act i] s₁ k₁ s₂) :
    ∃ so₁, exec1 M (.Set 0) so = .ok so₁ ∧ Rel s₂ so₁ ∧ WFS M so₁ := by
  have hb0 : so.left ≠ some 0 := leftLE_ne_zero hR.2.2.2.2 (tickOk_decomp h1).1
  have hei := exec1_mk hb0 (show stepInstr M (.Set 0) so = .ok (setCell so 0) from rfl)
  obtain ⟨hdata, hptr, hin, hout, hleft, _⟩ := exec1_set_char
    (show stepInstr M (.Set 0) so = .ok (setCell so 0) from rfl) hei
  obtain ⟨htd, htp, hti, hto⟩ := tick_obs h1
  have hwsu : WFS M su := (wfs_Rel_iff hR).2 hws
  have hp₁ : s₁.ptr < s₁.data.length := by
    rw [htp, htd]
    exact hwsu.1
  obtain ⟨ip, idata, iin, iout, ileft⟩ := iterCell M i hset k₁ h2 hp₁
  refine ⟨_, hei, ⟨?_, ?_, ?_, ?_, ?_⟩,
    wfs_exec1 M hM (.Set 0) (by show (0:Nat) < M; omega) hws hei⟩
  · rw [hdata, idata, htd, htp, hR.1, hR.2.1]
  · rw [hptr, ip, htp, hR.2.1]
  · rw [hin, iin, hti, hR.2.2.1]
  · rw [hout, iout, hto, hR.2.2.2.1]
  · rw [hleft, ileft, tick_left h1, map_sub_comp su.left 1 k₁ (1 + k₁) (by omega)]
    exact leftLE_map_sub hR.2.2.2.2 (by omega)

lemma zSim : ∀ n : Nat,
    (∀ {M : Nat} {F : List Node} {su t : IState},
      256 ≤ M → TWFL M F → EvalL M F su n t →
      ∀ {so : IState}, WFS M so → Rel su so →
      ∃ k₂ t₂, EvalL M (tzero F) so k₂ t₂ ∧ Rel t t₂ ∧ k₂ ≤ n) ∧
    (∀ {M : Nat} {b : List Node} {su t : IState},
      256 ≤ M → TWFL M b → IterL M b su n t →
      ∀ {so : IState}, WFS M so → Rel su so →
      ∃ k₂ t₂, IterL M (tzero b) so k₂ t₂ ∧ Rel t t₂ ∧ k₂ ≤ n) := by
  intro n
  induction n using Nat.strong_induction_on with
  | _ n ih =>
    constructor
    · intro M F su t hM hT h so hws hR
      cases h with
      | nil =>
        refine ⟨0, so, ?_, hR, le_refl 0⟩
        rw [tzero_nil]
        exact .nil
      | act h1 h2 =>
        rename_i i rest s₁ k
        obtain ⟨hi, hTr⟩ := TWFL_act.1 hT
        obtain ⟨s₁', he', hR₁⟩ := exec1_sim M i hR h1
        obtain ⟨k₂, t₂, hd, hR₂, hk⟩ := (ih k (by omega)).1 hM hTr h2
          (wfs_exec1 M hM i hi hws he') hR₁
        refine ⟨k₂ + 1, t₂, ?_, hR₂, by omega⟩
        rw [tzero_act]
        exact .act he' hd
      | blk_exit hc h1 h2 =>
        rename_i b rest s₁ k
        obtain ⟨hTb, hTr⟩ := TWFL_block.1 hT
        rcases tzero_block_cases b rest with ⟨heq, hb1⟩ | heq
        · obtain ⟨so₁, hei, hR₁, hws₁⟩ := zstep_skip M hM hR hws hc h1
          obtain ⟨k₂, t₂, hd, hR₂, hk⟩ := (ih k (by omega)).1 hM hTr h2 hws₁ hR₁
          refine ⟨k₂ + 1, t₂, ?_, hR₂, by omega⟩
          rw [heq]
          exact .act hei hd
        · obtain ⟨s₁', ht', hR₁⟩ := tick_sim hR h1
          obtain ⟨k₂, t₂, hd, hR₂, hk⟩ := (ih k (by omega)).1 hM hTr h2
            (wfs_tick hws ht') hR₁
          refine ⟨k₂ + 1, t₂, ?_, hR₂, by omega⟩
          rw [heq]
          exact .blk_exit (by rw [Rel_curCell hR]; exact hc) ht' hd
      | blk_enter hc h1 h2 h3 =>
        rename_i b rest s₁ s₂ k₁ k₂
        obtain ⟨hTb, hTr⟩ := TWFL_block.1 hT
        have hwsu : WFS M su := (wfs_Rel_iff hR).2 hws
        have hws₂u : WFS M s₂ := (evalWfs k₁).2 hM hTb h2 (wfs_tick hwsu h1)
        rcases tzero_block_cases b rest with ⟨heq, hb1⟩ | heq
        · have hstep : ∃ so₁, exec1 M (.Set 0) so = .ok so₁ ∧ Rel s₂ so₁ ∧
              WFS M so₁ := by
            rcases hb1 with rfl | rfl
            · exact zstep_loop M hM (.Dec 1) (fun u => ⟨_, rfl⟩) hR hws h1 h2
            · exact zstep_loop M hM (.Inc 1) (fun u => ⟨_, rfl⟩) hR hws h1 h2
          obtain ⟨so₁, hei, hR₂, hws₁⟩ := hstep
          obtain ⟨k₃, t₂, hd, hR₃, hk⟩ := (ih k₂ (by omega)).1 hM hTr h3 hws₁ hR₂
          refine ⟨k₃ + 1, t₂, ?_, hR₃, by omega⟩
          rw [heq]
          exact .act hei hd
        · obtain ⟨s₁', ht', hR₁⟩ := tick_sim hR h1
          have hws₁ := wfs_tick hws ht'
          obtain ⟨k₁', s₂', hdI, hR₂, hk1⟩ := (ih k₁ (by omega)).2 hM hTb h2 hws₁ hR₁
          have hws₂ : WFS M s₂' := (wfs_Rel_iff hR₂).1 hws₂u
          obtain ⟨k₃, t₂, hd₃, hR₃, hk3⟩ := (ih k₂ (by omega)).1 hM hTr h3 hws₂ hR₂
          refine ⟨1 + k₁' + k₃, t₂, ?_, hR₃, by omega⟩
          rw [heq]
          exact .blk_enter (by rw [Rel_curCell hR]; exact hc) ht' hdI hd₃
    · intro M b su t hM hT h so hws hR
      cases h with
      | last h1 hc h2 =>
        rename_i s₁ k
        obtain ⟨k', s₁', hd, hR₁, hk⟩ := (ih k (by omega)).1 hM hT h1 hws hR
        obtain ⟨s₂', ht', hR₂⟩ := tick_sim hR₁ h2
        exact ⟨k' + 1, s₂', .last hd (by rw [Rel_curCell hR₁]; exact hc) ht',
          hR₂, by omega⟩
      | again h1 hc h2 h3 =>
        rename_i s₁ s₂ k₁ k₂
        obtain ⟨k₁', s₁', hd₁, hR₁, hk₁⟩ := (ih k₁ (by omega)).1 hM hT h1 hws hR
        obtain ⟨s₂', ht', hR₂⟩ := tick_sim hR₁ h2
        have hwsu : WFS M su := (wfs_Rel_iff hR).2 hws
        have hws₂ : WFS M s₂' := (wfs_Rel_iff hR₂).1
          (wfs_tick ((evalWfs k₁).1 hM hT h1 hwsu) h2)
        obtain ⟨k₂', t₂, hd₂, hR₃, hk₂⟩ := (ih k₂ (by omega)).2 hM hT h3 hws₂ hR₂
        exact ⟨k₁' + 1 + k₂', t₂,
          .again hd₁ (by rw [Rel_curCell hR₁]; exact hc) ht' hd₂, hR₃, by omega⟩

/-! ## Well-formedness and shape preservation of the tree passes -/

lemma ActsOK_tgo (M : Nat) : ∀ (oc : Option Instruction) (F : List Node),
    (∀ c, oc = some c → isLoopInstr c = false) → ActsOK F →
    ActsOK (tgo M oc F) := by
  intro oc F
  induction oc, F using tgo.induct M with
  | case1 =>
    intro _ _
    rw [tgo_none_nil]
    exact ActsOK_nil
  | case2 c =>
    intro hc _
    rw [tgo_some_nil]
    exact ActsOK_act.2 ⟨hc c rfl, ActsOK_nil⟩
  | case3 c rest ih =>
    intro _ hA
    rw [tgo_none_act]
    exact ih (fun d hd => by cases hd; exact (ActsOK_act.1 hA).1) (ActsOK_act.1 hA).2
  | case4 b rest ihb ihr =>
    intro _ hA
    rw [tgo_none_block]
    exact ActsOK_block.2 ⟨ihb (fun d hd => by cases hd) (ActsOK_block.1 hA).1,
      ihr (fun d hd => by cases hd) (ActsOK_block.1 hA).2⟩
  | case5 c n rest f hf ih =>
    intro hc hA
    rw [tgo_some_act_folded M c n rest f hf]
    exact ih (fun d hd => by cases hd; exact fold_with_notLoop M hf)
      (ActsOK_act.1 hA).2
  | case6 c n rest hf ih =>
    intro hc hA
    rw [tgo_some_act_noop M c n rest hf]
    exact ih (fun d hd => by cases hd) (ActsOK_act.1 hA).2
  | case7 c n rest hf ih =>
    intro hc hA
    rw [tgo_some_act_cantfold M c n rest hf]
    exact ActsOK_act.2 ⟨hc c rfl,
      ih (fun d hd => by cases hd; exact (ActsOK_act.1 hA).1) (ActsOK_act.1 hA).2⟩
  | case8 c b rest ihb ihr =>
    intro hc hA
    rw [tgo_some_block]
    exact ActsOK_act.2 ⟨hc c rfl, ActsOK_block.2
      ⟨ihb (fun d hd => by cases hd) (ActsOK_block.1 hA).1,
        ihr (fun d hd => by cases hd) (ActsOK_block.1 hA).2⟩⟩

lemma TWFL_tgo (M : Nat) (hM : 0 < M) : ∀ (oc : Option Instruction) (F : List Node),
    (∀ c, oc = some c → WFInstr M c) → TWFL M F → TWFL M (tgo M oc F) := by
  intro oc F
  induction oc, F using tgo.induct M with
  | case1 =>
    intro _ _
    rw [tgo_none_nil]
    exact TWFL_nil M
  | case2 c =>
    intro hc _
    rw [tgo_some_nil]
    exact TWFL_act.2 ⟨hc c rfl, TWFL_nil M⟩
  | case3 c rest ih =>
    intro _ hT
    rw [tgo_none_act]
    exact ih (fun d hd => by cases hd; exact (TWFL_act.1 hT).1) (TWFL_act.1 hT).2
  | case4 b rest ihb ihr =>
    intro _ hT
    rw [tgo_none_block]
    exact TWFL_block.2 ⟨ihb (fun d hd => by cases hd) (TWFL_block.1 hT).1,
      ihr (fun d hd => by cases hd) (TWFL_block.1 hT).2⟩
  | case5 c n rest f hf ih =>
    intro hc hT
    rw [tgo_some_act_folded M c n rest f hf]
    exact ih (fun d hd => by
        cases hd
        exact fold_with_wf M hM (hc c rfl) (TWFL_act.1 hT).1 hf)
      (TWFL_act.1 hT).2
  | case6 c n rest hf ih =>
    intro hc hT
    rw [tgo_some_act_noop M c n rest hf]
    exact ih (fun d hd => by cases hd) (TWFL_act.1 hT).2
  | case7 c n rest hf ih =>
    intro hc hT
    rw [tgo_some_act_cantfold M c n rest hf]
    exact TWFL_act.2 ⟨hc c rfl,
      ih (fun d hd => by cases hd; exact (TWFL_act.1 hT).1) (TWFL_act.1 hT).2⟩
  | case8 c b rest ihb ihr =>
    intro hc hT
    rw [tgo_some_block]
    exact TWFL_act.2 ⟨hc c rfl, TWFL_block.2
      ⟨ihb (fun d hd => by cases hd) (TWFL_block.1 hT).1,
        ihr (fun d hd => by cases hd) (TWFL_block.1 hT).2⟩⟩

lemma ActsOK_tzero : ∀ F : List Node, ActsOK F → ActsOK (tzero F) := by
  intro F
  induction F using tzero.induct with
  | case1 =>
    intro _
    rw [tzero_nil]
    exact ActsOK_nil
  | case2 rest ih =>
    intro hA
    rw [tzero_dec1]
    exact ActsOK_act.2 ⟨rfl, ih (ActsOK_block.1 hA).2⟩
  | case3 a rest ha ih =>
    intro hA
    rw [tzero_decn a ha rest]
    exact ActsOK_block.2 ⟨(ActsOK_block.1 hA).1, ih (ActsOK_block.1 hA).2⟩
  | case4 rest ih =>
    intro hA
    rw [tzero_inc1]
    exact ActsOK_act.2 ⟨rfl, ih (ActsOK_block.1 hA).2⟩
  | case5 a rest ha ih =>
    intro hA
    rw [tzero_incn a ha rest]
    exact ActsOK_block.2 ⟨(ActsOK_block.1 hA).1, ih (ActsOK_block.1 hA).2⟩
  | case6 b rest hd hi ihb ihr =>
    intro hA
    rw [tzero_blk b rest hd hi]
    exact ActsOK_block.2 ⟨ihb (ActsOK_block.1 hA).1, ihr (ActsOK_block.1 hA).2⟩
  | case7 i rest ih =>
    intro hA
    rw [tzero_act]
    exact ActsOK_act.2 ⟨(ActsOK_act.1 hA).1, ih (ActsOK_act.1 hA).2⟩

lemma TWFL_tzero (M : Nat) (hM : 0 < M) :
    ∀ F : List Node, TWFL M F → TWFL M (tzero F) := by
  intro F
  induction F using tzero.induct with
  | case1 =>
    intro _
    rw [tzero_nil]
    exact TWFL_nil M
  | case2 rest ih =>
    intro hT
    rw [tzero_dec1]
    exact TWFL_act.2 ⟨hM, ih (TWFL_block.1 hT).2⟩
  | case3 a rest ha ih =>
    intro hT
    rw [tzero_decn a ha rest]
    exact TWFL_block.2 ⟨(TWFL_block.1 hT).1, ih (TWFL_block.1 hT).2⟩
  | case4 rest ih =>
    intro hT
    rw [tzero_inc1]
    exact TWFL_act.2 ⟨hM, ih (TWFL_block.1 hT).2⟩
  | case5 a rest ha ih =>
    intro hT
    rw [tzero_incn a ha rest]
    exact TWFL_block.2 ⟨(TWFL_block.1 hT).1, ih (TWFL_block.1 hT).2⟩
  | case6 b rest hd hi ihb ihr =>
    intro hT
    rw [tzero_blk b rest hd hi]
    exact TWFL_block.2 ⟨ihb (TWFL_block.1 hT).1, ihr (TWFL_block.1 hT).2⟩
  | case7 i rest ih =>
    intro hT
    rw [tzero_act]
    exact TWFL_act.2 ⟨(TWFL_act.1 hT).1, ih (TWFL_act.1 hT).2⟩

/-! ## Reconstructing a resolved program from its parse tree -/

lemma bal_of_insert {l : List Instruction} (hnE : ¬ hasUnmatchedEnd l) :
    ∀ k, 0 ≤ depthAt l k := by
  intro k
  induction k with
  | zero =>
    rw [depthAt_zero]
  | succ k ihk =>
    by_cases hk : k < l.length
    · rw [depthAt_succ l k hk]
      rcases hkind : loopKind (l.getD k dfltI) with _ | b
      · rw [loopD_nonloop (nonloop_of_kind_none hkind)]
        omega
      · cases b
        · obtain ⟨t, ht⟩ := eq_loopEnd_of_kind hkind
          by_contra hneg
          push_neg at hneg
          have hld : loopD (l.getD k dfltI) = -1 := by rw [ht]; rfl
          refine hnE ⟨k, hk, ?_, by omega⟩
          rw [ht]
          rfl
        · obtain ⟨t, ht⟩ := eq_loopStart_of_kind hkind
          have hld : loopD (l.getD k dfltI) = 1 := by rw [ht]; rfl
          omega
    · rw [depthAt_of_le l (k + 1) (by omega), ← depthAt_of_le l k (by omega)]
      exact ihk

lemma WFInstr_eri (M : Nat) (i : Instruction) : WFInstr M (eri i) ↔ WFInstr M i := by
  cases i <;> simp [eri, WFInstr]

lemma WFProg_of_er {M : Nat} {l₁ l₂ : List Instruction} (h : er l₁ = er l₂)
    (hwf : WFProg M l₁) : WFProg M l₂ := by
  intro i hi
  obtain ⟨p, hp, hpi⟩ := List.getElem_of_mem hi
  have hlen : l₁.length = l₂.length := by
    have := congrArg List.length h
    simpa [er_length] using this
  have h1 : eri (l₁.getD p dfltI) = eri (l₂.getD p dfltI) := by
    rw [← er_getD, ← er_getD, h]
  have h2 : WFInstr M (l₁.getD p dfltI) := by
    have hmem : l₁.getD p dfltI ∈ l₁ := by
      rw [getD_of_lt l₁ p (by omega)]
      exact List.getElem_mem _
    exact hwf _ hmem
  have h3 : WFInstr M (l₂.getD p dfltI) := by
    rw [← WFInstr_eri, ← h1, WFInstr_eri]
    exact h2
  rw [← hpi, ← getD_of_lt l₂ p hp]
  exact h3

lemma sameShape_of_er {l₁ l₂ : List Instruction} (h : er l₁ = er l₂) :
    sameShape l₁ l₂ := by
  constructor
  · have := congrArg List.length h
    simpa [er_length] using this
  · intro k
    have hk : eri (l₁.getD k dfltI) = eri (l₂.getD k dfltI) := by
      rw [← er_getD, ← er_getD, h]
    rw [← loopKind_eri, hk, loopKind_eri]

lemma TWFL_of_WFProg (M : Nat) : ∀ (off : Nat) (F : List Node),
    WFProg M (flatL off F) → TWFL M F := by
  intro off F
  induction off, F using flatL.induct with
  | case1 off =>
    intro _
    exact TWFL_nil M
  | case2 off i rest ih =>
    intro h
    rw [flatL_act] at h
    exact TWFL_act.2 ⟨WFProg_head h, ih (WFProg_tail h)⟩
  | case3 off b rest ihb ihr =>
    intro h
    rw [flatL_block] at h
    have h2 := WFProg_tail h
    refine TWFL_block.2 ⟨ihb ?_, ihr ?_⟩
    · intro i hi
      exact h2 i (List.mem_append.2 (.inl hi))
    · intro i hi
      exact h2 i (List.mem_append.2 (.inr (List.mem_cons.2 (.inr hi))))

lemma insert_flat {l u : List Instruction} {F : List Node}
    (hins : insert_bf_jump_points l = .ok u)
    (hA : ActsOK F) (hE : flatE F = er l) : u = flatL 0 F := by
  obtain ⟨hshape, hdep, hnl, hstart, hend⟩ := insert_ok_spec hins
  have herF : er (flatL 0 F) = er l := by rw [er_flatL 0 F hA, hE]
  have hsh2 : sameShape (flatL 0 F) l := sameShape_of_er herF
  have hlen : u.length = (flatL 0 F).length := by rw [hshape.1, hsh2.1]
  refine list_ext_getD hlen ?_
  intro p
  by_cases hp : p < l.length
  · have hplenF : p < lenL F := by
      rw [← flatL_length 0 F, hsh2.1]
      exact hp
    rcases hkind : loopKind (l.getD p dfltI) with _ | b
    · rw [hnl p hkind]
      have h1 : eri ((flatL 0 F).getD p dfltI) = eri (l.getD p dfltI) := by
        rw [← er_getD, ← er_getD, herF]
      have hk2 : loopKind ((flatL 0 F).getD p dfltI) = none := by
        rw [hsh2.2 p]
        exact hkind
      rw [eri_nonloop (nonloop_of_kind_none hk2),
        eri_nonloop (nonloop_of_kind_none hkind)] at h1
      rw [← h1]
    · cases b
      · obtain ⟨t, ht⟩ := eq_loopEnd_of_kind hkind
        have hle : isLoopEnd (l.getD p dfltI) = true := by rw [ht]; rfl
        obtain ⟨i0, hm, hui, huj⟩ := hend p hp hle
        have hk2 : loopKind ((flatL 0 F).getD p dfltI) = some false := by
          rw [hsh2.2 p]
          exact hkind
        obtain ⟨t2, ht2⟩ := eq_loopEnd_of_kind hk2
        have hmF : lifo_match (flatL 0 F) t2 p := by
          have h9 := ((flat_targets 0 F hA) [] [] rfl).2 p t2 hplenF ht2
          simpa using h9
        have hmFl : lifo_match l t2 p := lifo_match_congr hsh2 hmF
        have heqt : i0 = t2 := lifo_match_unique_left hm hmFl
        rw [huj, ht2, heqt]
      · obtain ⟨t, ht⟩ := eq_loopStart_of_kind hkind
        have hls : isLoopStart (l.getD p dfltI) = true := by rw [ht]; rfl
        obtain ⟨j0, hm, hui, huj⟩ := hstart p hp hls
        have hk2 : loopKind ((flatL 0 F).getD p dfltI) = some true := by
          rw [hsh2.2 p]
          exact hkind
        obtain ⟨t2, ht2⟩ := eq_loopStart_of_kind hk2
        have hmF : lifo_match (flatL 0 F) p t2 := by
          have h9 := ((flat_targets 0 F hA) [] [] rfl).1 p t2 hplenF ht2
          simpa using h9
        have hmFl : lifo_match l p t2 := lifo_match_congr hsh2 hmF
        have heqt : j0 = t2 := lifo_match_unique_right hm hmFl
        rw [hui, ht2, heqt]
  · rw [List.getD_eq_default _ _ (by rw [hshape.1]; omega),
      List.getD_eq_default _ _ (by rw [← hsh2.1] at hp; omega)]

/-- Claim C1, as amended after the counterexample.  The error case is weaker
than claimed: when the unoptimized run halts with an error, the optimized run
may halt with a *different* error kind (counterexample `><<`: `Overflow`
unoptimized, `Underflow` optimized), a divergence outside cases (a)-(c).
The successful-halt direction holds in full generality and in a strong form:
for every cell width in {8, 16, 32}, every program (loops included) and every
input, whenever the unoptimized jump-resolved stream halts successfully
within the given gas, the stream produced by `optimize` on the same source
halts successfully within the *same* gas, with identical output, tape,
cursor and remaining input. -/
theorem claim1_amended (M : Nat)
    (hW : M = 256 ∨ M = 65536 ∨ M = 4294967296)
    (l u p : List Instruction) (n r : Nat) (hwf : WFProg M l)
    (hnew : streamNew l = .ok ⟨u, n⟩) (hopt : optimize M l = .ok (p, r))
    (s : IState) (hws : WFS M s) (gas : Nat) (tu : IState)
    (hrun : run M u gas s = .ok tu) :
    ∃ t2, run M p gas s = .ok t2 ∧ t2.output = tu.output ∧ t2.data = tu.data ∧
      t2.ptr = tu.ptr ∧ t2.input = tu.input := by
  have hM : 256 ≤ M := by rcases hW with h | h | h <;> omega
  have hins : insert_bf_jump_points l = .ok u := by
    unfold streamNew at hnew
    cases hj : insert_bf_jump_points l with
    | error e =>
      rw [hj] at hnew
      cases hnew
    | ok r0 =>
      rw [hj] at hnew
      simp only [Except.ok.injEq, InstructionStream.mk.injEq] at hnew
      rw [← hnew.1]
  have hinsX : insert_bf_jump_points
      (fold_like M (recognize_zeroings (fold_like M l))) = .ok p := by
    unfold optimize at hopt
    cases hj : insert_bf_jump_points
        (fold_like M (recognize_zeroings (fold_like M l))) with
    | error e =>
      rw [hj] at hopt
      cases hopt
    | ok r0 =>
      rw [hj] at hopt
      simp only [Except.ok.injEq, Prod.mk.injEq] at hopt
      rw [← hopt.1]
  have hnE : ¬ hasUnmatchedEnd l := by
    intro hE
    have hx := (insert_err_end_iff l).2 hE
    rw [hins] at hx
    cases hx
  obtain ⟨F, hAF, hEF⟩ := parse_balanced l.length l rfl (bal_of_insert hnE)
    (insert_ok_spec hins).2.1
  have hAF₁ : ActsOK (tgo M none F) :=
    ActsOK_tgo M none F (fun c hc => by cases hc) hAF
  have hAF₂ : ActsOK (tzero (tgo M none F)) := ActsOK_tzero _ hAF₁
  have hAF₃ : ActsOK (tgo M none (tzero (tgo M none F))) :=
    ActsOK_tgo M none _ (fun c hc => by cases hc) hAF₂
  have hEX : flatE (tgo M none (tzero (tgo M none F)))
      = er (fold_like M (recognize_zeroings (fold_like M l))) := by
    rw [er_fold_like, rz_er, er_fold_like, ← hEF, fold_like_flatE,
      corrz_top _ hAF₁, fold_like_flatE]
  have hu : u = flatL 0 F := insert_flat hins hAF hEF
  have hp2 : p = flatL 0 (tgo M none (tzero (tgo M none F))) :=
    insert_flat hinsX hAF₃ hEX
  have hwfu : WFProg M (flatL 0 F) :=
    WFProg_of_er (by rw [er_flatL 0 F hAF, hEF]) hwf
  have hTF : TWFL M F := TWFL_of_WFProg M 0 F hwfu
  have hTF₁ : TWFL M (tgo M none F) :=
    TWFL_tgo M (by omega) none F (fun c hc => by cases hc) hTF
  have hTF₂ : TWFL M (tzero (tgo M none F)) := TWFL_tzero M (by omega) _ hTF₁
  have hptr : ¬ s.ptr ≥ s.data.length := by
    have hx := hws.1
    omega
  unfold run at hrun
  rw [if_neg hptr, hu] at hrun
  obtain ⟨k, g', s', hgas, hev, hrest⟩ :=
    (flat_to_tree gas).1 M (flatL 0 F) 0 F s tu (SegAt_self F) hAF hrun
  rw [show (0 + lenL F) = (flatL 0 F).length from by rw [flatL_length]; omega,
    runAux_end (le_refl _)] at hrest
  injection hrest with htu
  obtain ⟨k₁, t₁, hev₁, hR₁, hk₁⟩ :=
    (goSim k).1 hM hTF hev hws (Pend_none.2 (Rel_refl s))
  obtain ⟨k₂, t₂, hev₂, hR₂, hk₂⟩ := (zSim k₁).1 hM hTF₁ hev₁ hws (Rel_refl s)
  obtain ⟨k₃, t₃, hev₃, hR₃, hk₃⟩ :=
    (goSim k₂).1 hM hTF₂ hev₂ hws (Pend_none.2 (Rel_refl s))
  have hRel : Rel tu t₃ := by
    rw [← htu]
    exact Rel_trans (Rel_trans hR₁ hR₂) hR₃
  rw [pend_none] at hk₁ hk₃
  have hT1 := (tree_to_flat k₃).1 hev₃
    (SegAt_self (tgo M none (tzero (tgo M none F)))) hAF₃ (gas - k₃)
  rw [show gas - k₃ + k₃ = gas from by omega,
    show (0 + lenL (tgo M none (tzero (tgo M none F))))
        = (flatL 0 (tgo M none (tzero (tgo M none F)))).length from by
      rw [flatL_length]
      omega,
    runAux_end (le_refl _)] at hT1
  refine ⟨t₃, ?_, hRel.2.2.2.1, hRel.1, hRel.2.1, hRel.2.2.1⟩
  unfold run
  rw [if_neg hptr, hp2]
  exact hT1

/-- Concrete instance of the amended claim C1, with a loop: the program
`+[-]` resolves to `[Inc 1, LoopStart 3, Dec 1, LoopEnd 1]` and optimizes to
the single instruction `Set 0`; run on a one-cell tape with gas 10 both halt
successfully with an untouched zero tape, and the optimized run matches the
unoptimized one on output, tape, cursor and input at the same gas. -/
theorem claim1_witness :
    ∃ t2, run 256 [.Set 0] 10 ⟨[0], 0, [], [], none⟩ = .ok t2 ∧
      t2.output = (IState.mk [0] 0 [] [] none).output ∧
      t2.data = (IState.mk [0] 0 [] [] none).data ∧
      t2.ptr = (IState.mk [0] 0 [] [] none).ptr ∧
      t2.input = (IState.mk [0] 0 [] [] none).input :=
  claim1_amended 256 (Or.inl rfl)
    [.Inc 1, .LoopStart 0, .Dec 1, .LoopEnd 0]
    [.Inc 1, .LoopStart 3, .Dec 1, .LoopEnd 1] [.Set 0] 30000 30000
    (by decide) (by decide) (by decide) ⟨[0], 0, [], [], none⟩ (by decide)
    10 ⟨[0], 0, [], [], none⟩ (by decide)

end BF

